import Mathlib

/-!
# The sweep phase of `git prune` (builtin/prune.c)

A shallow embedding of `prune_tmp_object`, `prune_object`, `prune_dir`,
`prune_object_dir`, `remove_temporary_files` and `cmd_prune`, and theorems
about them.

* C strings are lists of characters.
* The object store is explicit state: one listing per directory, in `readdir`
  order.  `lstat` and `unlink` address an entry by its name in the current
  listing, the way the system calls address it by path.
* Every system call and every line written is recorded in a trace of `Event`s.
* `time_t` is a signed 64-bit integer and `unsigned long` is 64 bits wide.
-/

namespace Prune

set_option maxRecDepth 100000

/-- A C string, without its terminating NUL. -/
abbrev CStr := List Char

/-- One directory entry: its name, what `lstat` reports for it (`none` when
`lstat` fails, otherwise `st_mtime`), and whether `unlink` succeeds on it. -/
structure File where
  name : CStr
  st_mtime : Option Int
  unlinkable : Bool
deriving DecidableEq

/-- The entries of one directory, in the order `readdir` returns them. -/
abbrev Directory := List File

/-- The observable actions of the sweep. `error` is a call of `error(...)`,
`warning` the warning of `unlink_or_warn`; `stdout` and `stderr` carry the text
written by `printf` and `fprintf(stderr, ...)`. -/
inductive Event where
  | lstat (path : CStr)
  | unlink (path : CStr)
  | rmdir (path : CStr)
  | stdout (text : CStr)
  | stderr (text : CStr)
  | error (msg : CStr)
  | warning (path : CStr)
deriving DecidableEq

/-- The file-scope variables `show_only`, `verbose` and `expire`. The two flags
are only ever tested for being non-zero. -/
structure Config where
  show_only : Bool
  verbose : Bool
  expire : Nat

/-- The collaborators outside this file: `lookup_object` (non-null exactly for
the objects marked reachable), `sha1_object_info` and `typename`. -/
structure Env where
  lookup_object : List Nat → Bool
  sha1_object_info : List Nat → Int
  typename : Int → CStr

/-- The object store: the listing of the object directory (apart from the
fan-out directories and `pack`, which are the next two fields; none of their
names begins with `tmp_`), the listing of fan-out directory `i`, and the listing
of the `pack` subdirectory. `none` is a directory that `opendir` cannot open. -/
structure Store where
  root : Option Directory
  buckets : Nat → Option Directory
  pack : Option Directory

/-- The value of `ULONG_MAX` for a 64-bit `unsigned long`. -/
def ULONG_MAX : Nat := 2 ^ 64 - 1

/-- The values a signed 64-bit `time_t` can hold. -/
def time_t_range (t : Int) : Prop := -(2 ^ 63) ≤ t ∧ t < 2 ^ 63

instance (t : Int) : Decidable (time_t_range t) := by
  unfold time_t_range; infer_instance

/-- The test `st.st_mtime > expire` of `prune_object` and `prune_tmp_object`:
`st_mtime` is a signed `time_t`, `expire` an `unsigned long`, so C converts
`st_mtime` to `unsigned long` (reduction modulo `2 ^ 64`) and compares unsigned. -/
def st_mtime_gt (st_mtime : Int) (expire : Nat) : Bool :=
  decide ((expire : Int) < st_mtime % 2 ^ 64)

/-- Modelled from the spec: `hexval` of hex.c, which is not under src/; the
value of one hexadecimal digit, `none` for any other character. -/
def hexval (c : Char) : Option Nat :=
  if '0' ≤ c ∧ c ≤ '9' then some (c.toNat - 48)
  else if 'a' ≤ c ∧ c ≤ 'f' then some (c.toNat - 87)
  else if 'A' ≤ c ∧ c ≤ 'F' then some (c.toNat - 55)
  else none

/-- Decode a string of hex digits two at a time into bytes. -/
def hex_pairs : CStr → Option (List Nat)
  | [] => some []
  | [_] => none
  | a :: b :: rest =>
    match hexval a, hexval b, hex_pairs rest with
    | some x, some y, some r => some ((16 * x + y) :: r)
    | _, _, _ => none

/-- Modelled from the spec: `get_sha1_hex` of hex.c, which is not under src/;
`reconstruct` "fails with MalformedName if the concatenation is not 40 valid
hex characters", and otherwise yields the 20 bytes. -/
def get_sha1_hex (hex : CStr) : Option (List Nat) :=
  if hex.length = 40 then hex_pairs hex else none

/-- The conversion `"%02x"` of `sprintf`: lowercase hexadecimal, zero-padded to
two digits. -/
def fmt02x (i : Nat) : CStr :=
  let d := Nat.toDigits 16 i
  if d.length < 2 then '0' :: d else d

/-- Modelled from the spec: `sha1_to_hex` of hex.c, which is not under src/;
an ObjectId is "canonically rendered as a 40-character lowercase hexadecimal
string". -/
def sha1_to_hex (sha1 : List Nat) : CStr :=
  sha1.flatMap fmt02x

/-- Modelled from the spec: `is_dot_or_dotdot` of dir.h, which is not under
src/; "the directory self/parent pseudo-entries". -/
def is_dot_or_dotdot (name : CStr) : Bool :=
  decide (name = ['.']) || decide (name = ['.', '.'])

/-- Modelled from the spec: `!prefixcmp(str, pfx)` of strbuf.c, which is not
under src/; true when `str` "begins with" `pfx`. -/
def not_prefixcmp (str pfx : CStr) : Bool :=
  pfx.isPrefixOf str

/-- The literal `"tmp_obj_"` of `prune_dir`. -/
def tmp_obj_ : CStr := ['t', 'm', 'p', '_', 'o', 'b', 'j', '_']

/-- The literal `"tmp_"` of `remove_temporary_files`. -/
def tmp_ : CStr := ['t', 'm', 'p', '_']

/-- The path `mkpath("%s/%s", path, filename)`. The clean-up of a leading `./`
and the `PATH_MAX` limit of path.c (not under src/) are not modelled. -/
def mkpath (path filename : CStr) : CStr :=
  path ++ '/' :: filename

/-- The system call `lstat(path/name)` in directory `d`: the `st_mtime` of the
entry of that name, `none` when there is none or `lstat` fails on it. -/
def lstat (d : Directory) (name : CStr) : Option Int :=
  match d.find? (fun f => decide (f.name = name)) with
  | some f => f.st_mtime
  | none => none

/-- Modelled from the spec: `unlink_or_warn` of wrapper.c, which is not under
src/; "delete the file; if deletion fails because the file is already gone,
treat as success; other deletion failures are reported as warnings". -/
def unlink_or_warn (fullpath name : CStr) (d : Directory) : Directory × List Event :=
  match d.find? (fun f => decide (f.name = name)) with
  | none => (d, [Event.unlink fullpath])
  | some f =>
    if f.unlinkable then
      (d.eraseP (fun g => decide (g.name = name)), [Event.unlink fullpath])
    else
      (d, [Event.unlink fullpath, Event.warning fullpath])

/-- The function `prune_tmp_object(path, filename)`, run on the listing `d` of
`path`: the return value, the listing afterwards, and the trace. -/
def prune_tmp_object (cfg : Config) (path filename : CStr) (d : Directory) :
    Int × Directory × List Event :=
  let fullpath := mkpath path filename
  match lstat d filename with
  | none =>
    (-1, d, [Event.lstat fullpath,
             Event.error ("Could not stat '".toList ++ fullpath ++ "'".toList)])
  | some st_mtime =>
    if st_mtime_gt st_mtime cfg.expire then
      (0, d, [Event.lstat fullpath])
    else
      let out :=
        if cfg.show_only || cfg.verbose then
          [Event.stdout ("Removing stale temporary file ".toList ++ fullpath ++ "\n".toList)]
        else []
      let r := if !cfg.show_only then unlink_or_warn fullpath filename d else (d, [])
      (0, r.1, Event.lstat fullpath :: out ++ r.2)

/-- The function `prune_object(path, filename, sha1)`, run on the listing `d`
of `path`: the return value, the listing afterwards, and the trace. -/
def prune_object (cfg : Config) (env : Env) (path filename : CStr) (sha1 : List Nat)
    (d : Directory) : Int × Directory × List Event :=
  let fullpath := mkpath path filename
  match lstat d filename with
  | none =>
    (-1, d, [Event.lstat fullpath,
             Event.error ("Could not stat '".toList ++ fullpath ++ "'".toList)])
  | some st_mtime =>
    if st_mtime_gt st_mtime cfg.expire then
      (0, d, [Event.lstat fullpath])
    else
      let out :=
        if cfg.show_only || cfg.verbose then
          let type := env.sha1_object_info sha1
          [Event.stdout (sha1_to_hex sha1 ++ ' ' ::
            (if type > 0 then env.typename type else "unknown".toList) ++ "\n".toList)]
        else []
      let r := if !cfg.show_only then unlink_or_warn fullpath filename d else (d, [])
      (0, r.1, Event.lstat fullpath :: out ++ r.2)

/-- The `while ((de = readdir(dir)) != NULL)` loop of `prune_dir(i, path)`:
`names` are the entries still to be read, `d` is the current listing. -/
def prune_dir_loop (cfg : Config) (env : Env) (i : Nat) (path : CStr) :
    List CStr → Directory → Directory × List Event
  | [], d => (d, [])
  | d_name :: rest, d =>
    if is_dot_or_dotdot d_name then
      prune_dir_loop cfg env i path rest d
    else if d_name.length = 38 then
      match get_sha1_hex (fmt02x i ++ d_name) with
      | none => (d, [])
      | some sha1 =>
        if env.lookup_object sha1 then
          prune_dir_loop cfg env i path rest d
        else
          let r := prune_object cfg env path d_name sha1 d
          let k := prune_dir_loop cfg env i path rest r.2.1
          (k.1, r.2.2 ++ k.2)
    else if not_prefixcmp d_name tmp_obj_ then
      let r := prune_tmp_object cfg path d_name d
      let k := prune_dir_loop cfg env i path rest r.2.1
      (k.1, r.2.2 ++ k.2)
    else
      let k := prune_dir_loop cfg env i path rest d
      (k.1, Event.stderr ("bad sha1 file: ".toList ++ path ++ '/' :: d_name ++ "\n".toList) :: k.2)

/-- The system call `rmdir(path)` on a directory with listing `d`: it succeeds,
leaving nothing to open, exactly when no entry but `.` and `..` is left. -/
def rmdir (d : Directory) : Option Directory :=
  if d.all (fun f => is_dot_or_dotdot f.name) then none else some d

/-- The function `prune_dir(i, path)`, run on the directory at `path`: the
return value, the directory afterwards, and the trace. -/
def prune_dir (cfg : Config) (env : Env) (i : Nat) (path : CStr) :
    Option Directory → Int × Option Directory × List Event
  | none => (0, none, [])
  | some d =>
    let k := prune_dir_loop cfg env i path (d.map File.name) d
    if !cfg.show_only then
      (0, rmdir k.1, k.2 ++ [Event.rmdir path])
    else
      (0, some k.1, k.2)

/-- The `for (i = 0; i < 256; i++)` loop of `prune_object_dir`, with `n`
iterations left to run from index `i`. -/
def prune_object_dir_loop (cfg : Config) (env : Env) (path : CStr) :
    Nat → Nat → Store → Store × List Event
  | 0, _, s => (s, [])
  | n + 1, i, s =>
    let r := prune_dir cfg env i (path ++ '/' :: fmt02x i) (s.buckets i)
    let k := prune_object_dir_loop cfg env path n (i + 1)
      { s with buckets := Function.update s.buckets i r.2.1 }
    (k.1, r.2.2 ++ k.2)

/-- The function `prune_object_dir(path)`. -/
def prune_object_dir (cfg : Config) (env : Env) (path : CStr) (s : Store) :
    Store × List Event :=
  prune_object_dir_loop cfg env path 256 0 s

/-- The `while ((de = readdir(dir)) != NULL)` loop of `remove_temporary_files`. -/
def remove_temporary_files_loop (cfg : Config) (path : CStr) :
    List CStr → Directory → Directory × List Event
  | [], d => (d, [])
  | d_name :: rest, d =>
    if not_prefixcmp d_name tmp_ then
      let r := prune_tmp_object cfg path d_name d
      let k := remove_temporary_files_loop cfg path rest r.2.1
      (k.1, r.2.2 ++ k.2)
    else
      remove_temporary_files_loop cfg path rest d

/-- The function `remove_temporary_files(path)`, run on the directory at `path`. -/
def remove_temporary_files (cfg : Config) (path : CStr) :
    Option Directory → Option Directory × List Event
  | none => (none, [Event.stderr ("Unable to open directory ".toList ++ path ++ "\n".toList)])
  | some d =>
    let k := remove_temporary_files_loop cfg path (d.map File.name) d
    (some k.1, k.2)

/-- The sweep: `prune_object_dir` on the object directory, then
`remove_temporary_files` on the object directory and on its `pack`
subdirectory. (`cmd_prune` below also calls `prune_packed_objects`, between
the first and the second.) -/
def sweep (cfg : Config) (env : Env) (objdir : CStr) (s : Store) : Store × List Event :=
  let a := prune_object_dir cfg env objdir s
  let b := remove_temporary_files cfg objdir a.1.root
  let c := remove_temporary_files cfg (objdir ++ "/pack".toList) a.1.pack
  ({ a.1 with root := b.1, pack := c.1 }, a.2 ++ b.2 ++ c.2)

/-- Modelled from the spec: the flag `PRUNE_PACKED_DRY_RUN` of builtin.h, which
is not under src/; the bridge is invoked "with the same dry-run flag", here a
non-zero option word. -/
def PRUNE_PACKED_DRY_RUN : Nat := 1

/-- The collaborators of `cmd_prune` outside this file: `get_sha1` (`some` when
it returns 0), `parse_object_or_die` (`false` when it dies),
`mark_reachable_objects` (the `lookup_object` it leaves behind for the pending
objects, `none` when marking dies), `sha1_object_info`, `typename`,
`prune_packed_objects` (its effect on the store) and `get_object_directory`. -/
structure Collab where
  get_sha1 : CStr → Option (List Nat)
  parse_object_or_die : List Nat → CStr → Bool
  mark_reachable_objects : List (List Nat) → Option (List Nat → Bool)
  sha1_object_info : List Nat → Int
  typename : Int → CStr
  prune_packed_objects : Nat → Store → Store
  get_object_directory : CStr

/-- What `cmd_prune` does, in order: `die(...)` in `cmd_prune` itself, a
collaborator that dies, the two calls into the collaborators, and the events of
the sweep. -/
inductive Action where
  | die (msg : CStr)
  | fatal
  | mark_reachable_objects (pending : List (List Nat))
  | prune_packed_objects (opts : Nat)
  | fs (e : Event)
deriving DecidableEq

/-- The `while (argc--)` loop of `cmd_prune` over the arguments left by
`parse_options`: the pending objects (`none` when the process died) and the
trace. -/
def cmd_prune_args (c : Collab) : List CStr → List (List Nat) →
    Option (List (List Nat)) × List Action
  | [], pending => (some pending, [])
  | name :: rest, pending =>
    match c.get_sha1 name with
    | some sha1 =>
      if c.parse_object_or_die sha1 name then
        cmd_prune_args c rest (pending ++ [sha1])
      else (none, [Action.fatal])
    | none => (none, [Action.die ("unrecognized argument: ".toList ++ name)])

/-- The function `cmd_prune`. `parse_options` (not under src/) is represented
by what it leaves: the two flags, the `--expire` value if one was given
(`expire = ULONG_MAX` otherwise) and the remaining arguments. The progress
display is not modelled. The result is the return value (`none` when the
process died), the store afterwards, and the trace. -/
def cmd_prune (c : Collab) (show_only verbose : Bool) (expire_opt : Option Nat)
    (args : List CStr) (s : Store) : Option Int × Store × List Action :=
  let cfg : Config := ⟨show_only, verbose, expire_opt.getD ULONG_MAX⟩
  match cmd_prune_args c args [] with
  | (none, acts) => (none, s, acts)
  | (some pending, acts) =>
    match c.mark_reachable_objects pending with
    | none => (none, s, acts ++ [Action.mark_reachable_objects pending, Action.fatal])
    | some lookup =>
      let env : Env := ⟨lookup, c.sha1_object_info, c.typename⟩
      let a := prune_object_dir cfg env c.get_object_directory s
      let s2 := c.prune_packed_objects (if show_only then PRUNE_PACKED_DRY_RUN else 0) a.1
      let b := remove_temporary_files cfg c.get_object_directory s2.root
      let p := remove_temporary_files cfg (c.get_object_directory ++ "/pack".toList) s2.pack
      (some 0, { s2 with root := b.1, pack := p.1 },
        acts ++ [Action.mark_reachable_objects pending] ++ a.2.map Action.fs ++
          [Action.prune_packed_objects (if show_only then PRUNE_PACKED_DRY_RUN else 0)] ++
          b.2.map Action.fs ++ p.2.map Action.fs)

/-! ## Notions used to state the theorems -/

/-- A directory listing is well formed when no two entries share a name. -/
def Directory.wf (d : Directory) : Prop := (d.map File.name).Nodup

instance (d : Directory) : Decidable (Directory.wf d) := by
  unfold Directory.wf; infer_instance

/-- The three kinds of directory the sweep reads. -/
inductive Loc where
  | root
  | bucket (i : Nat)
  | pack
deriving DecidableEq

/-- The path the sweep uses for a directory: the object directory itself,
`sprintf(dir, "%s/%02x", path, i)`, and `mkpathdup("%s/pack", ...)`. -/
def Loc.path (objdir : CStr) : Loc → CStr
  | Loc.root => objdir
  | Loc.bucket i => objdir ++ '/' :: fmt02x i
  | Loc.pack => objdir ++ "/pack".toList

/-- The directories the sweep visits: the root, `pack`, and buckets 0 to 255. -/
def Loc.visited : Loc → Prop
  | Loc.bucket i => i < 256
  | _ => True

instance (loc : Loc) : Decidable loc.visited := by
  cases loc <;> unfold Loc.visited <;> infer_instance

/-- The listing of a directory of the store. -/
def Store.dir (s : Store) : Loc → Option Directory
  | Loc.root => s.root
  | Loc.bucket i => s.buckets i
  | Loc.pack => s.pack

/-- A store is well formed when every directory the sweep reads has distinct
names. -/
def Store.wf (s : Store) : Prop :=
  ∀ loc : Loc, loc.visited → ∀ d, s.dir loc = some d → Directory.wf d

/-- What the sweep does in one directory: `prune_dir` in a bucket,
`remove_temporary_files` in the root and in `pack`. -/
def sweep_dir (cfg : Config) (env : Env) (objdir : CStr) (loc : Loc) (od : Option Directory) :
    Option Directory × List Event :=
  match loc with
  | Loc.bucket i => (prune_dir cfg env i (Loc.path objdir loc) od).2
  | _ => remove_temporary_files cfg (Loc.path objdir loc) od

/-- The entry on which the loop of `prune_dir` executes `break`: a name of 38
characters, not `.` or `..`, that `get_sha1_hex` rejects. -/
def stops_scan (i : Nat) (d_name : CStr) : Bool :=
  !is_dot_or_dotdot d_name && decide (d_name.length = 38) &&
    (get_sha1_hex (fmt02x i ++ d_name)).isNone

/-- The age test passes: `lstat` succeeds and `st.st_mtime > expire` is false. -/
def expired (cfg : Config) (f : File) : Bool :=
  match f.st_mtime with
  | some m => !st_mtime_gt m cfg.expire
  | none => false

/-- The names that the loop of `prune_dir` hands to `prune_object` or to
`prune_tmp_object`: not `.` or `..`, and either 38 characters that decode to an
object `lookup_object` does not know, or another length and the prefix
`tmp_obj_`. -/
def bucket_target (env : Env) (i : Nat) (d_name : CStr) : Bool :=
  !is_dot_or_dotdot d_name &&
    (if d_name.length = 38 then
      (match get_sha1_hex (fmt02x i ++ d_name) with
       | some sha1 => !env.lookup_object sha1
       | none => false)
     else not_prefixcmp d_name tmp_obj_)

/-- The names on which the sweep of a directory calls `prune_object` or
`prune_tmp_object`. -/
def Loc.target (env : Env) : Loc → CStr → Bool
  | Loc.bucket i, n => bucket_target env i n
  | _, n => not_prefixcmp n tmp_

/-- The events that change the store: `unlink` and `rmdir`. -/
def Event.is_mutation : Event → Bool
  | Event.unlink _ => true
  | Event.rmdir _ => true
  | _ => false

/-- The actions that can only happen once the argument loop is over. -/
def Action.after_args : Action → Bool
  | Action.die _ => false
  | Action.fatal => false
  | _ => true

/-- The `rmdir` events. -/
def Event.is_rmdir : Event → Bool
  | Event.rmdir _ => true
  | _ => false

/-- The sixteen lowercase hexadecimal digits. -/
def lower_hex_digits : List Char := "0123456789abcdef".toList

/-- Every event `prune_tmp_object(path, filename)` can produce. -/
def prune_tmp_object_events (path filename : CStr) : List Event :=
  [Event.lstat (mkpath path filename),
   Event.error ("Could not stat '".toList ++ mkpath path filename ++ "'".toList),
   Event.stdout ("Removing stale temporary file ".toList ++ mkpath path filename ++ "\n".toList),
   Event.unlink (mkpath path filename),
   Event.warning (mkpath path filename)]

/-- The lines written to stdout. -/
def Event.is_stdout : Event → Bool
  | Event.stdout _ => true
  | _ => false

/-- The stdout lines of a trace, in order. -/
def stdout_lines (trace : List Event) : List Event :=
  trace.filter Event.is_stdout

/-- The line `printf("%s %s\n", sha1_to_hex(sha1), (type > 0) ? typename(type) :
"unknown")` of `prune_object`. -/
def object_report_line (env : Env) (sha1 : List Nat) : Event :=
  Event.stdout (sha1_to_hex sha1 ++ ' ' ::
    (if env.sha1_object_info sha1 > 0 then env.typename (env.sha1_object_info sha1)
      else "unknown".toList) ++ "\n".toList)

/-- The line `printf("Removing stale temporary file %s\n", fullpath)` of
`prune_tmp_object`. -/
def tmp_report_line (path filename : CStr) : Event :=
  Event.stdout ("Removing stale temporary file ".toList ++ mkpath path filename ++ "\n".toList)

/-! ## Example inputs -/

/-- An example environment: the only reachable object is `aa1111...11`; every
object is a blob. -/
def ex_env : Env :=
  { lookup_object := fun sha1 => decide (sha1 = 0xaa :: List.replicate 19 0x11)
    sha1_object_info := fun _ => 3
    typename := fun _ => "blob".toList }

/-- An example object directory. -/
def ex_objdir : CStr := ".git/objects".toList

/-- An execute run, not verbose, with cutoff 1000. -/
def ex_cfg : Config := ⟨false, false, 1000⟩

/-- A dry run, not verbose, with cutoff 1000. -/
def ex_cfg_dry : Config := ⟨true, false, 1000⟩

/-- An unreachable loose object of bucket `aa`, older than the example cutoff. -/
def ex_old_object : File := ⟨List.replicate 38 '0', some 100, true⟩

/-- A reachable loose object of bucket `aa`. -/
def ex_reachable_object : File := ⟨List.replicate 38 '1', some 100, true⟩

/-- A temporary object file of bucket `aa`, newer than the example cutoff. -/
def ex_new_tmp : File := ⟨"tmp_obj_abc".toList, some 2000, true⟩

/-- A stray file of bucket `aa`. -/
def ex_junk : File := ⟨"junk".toList, some 1, true⟩

/-- The listing of bucket `aa` in the example store. -/
def ex_bucket : Directory :=
  [⟨['.'], some 0, false⟩, ex_old_object, ex_reachable_object, ex_new_tmp, ex_junk]

/-- An example store: a stale temporary pack in the root, bucket `aa`, and a
fresh temporary index in `pack`. -/
def ex_store : Store :=
  { root := some [⟨"tmp_pack_x".toList, some 500, true⟩, ⟨"info".toList, some 10, false⟩]
    buckets := fun i => if i = 0xaa then some ex_bucket else none
    pack := some [⟨"tmp_idx_y".toList, some 5000, true⟩] }

/-- An unreachable loose object of bucket `aa` with a pre-epoch mtime. -/
def ex_pre_epoch_object : File := ⟨List.replicate 38 '0', some (-1), true⟩

/-- A store whose bucket `aa` holds only the pre-epoch object. -/
def ex_store_pre_epoch : Store :=
  { root := some []
    buckets := fun i => if i = 0xaa then some [ex_pre_epoch_object] else none
    pack := some [] }

/-- A 38-character entry of bucket `aa` whose name is not hexadecimal. -/
def ex_bad_name : File := ⟨List.replicate 38 'g', some 100, true⟩

/-- A bucket entry with a name of 37 characters. -/
def ex_short_name : File := ⟨List.replicate 37 '0', some 100, true⟩

/-- A store whose bucket `aa` lists the non-hexadecimal 38-character entry
first, then an old unreachable object and a 4-character stray file. -/
def ex_store_break : Store :=
  { root := some []
    buckets := fun i => if i = 0xaa then some [ex_bad_name, ex_old_object, ex_junk] else none
    pack := some [] }

/-- Example collaborators: `get_sha1` resolves only the name `HEAD`, every
object parses, marking leaves `aa1111...11` reachable, and
`prune_packed_objects` leaves the loose store alone. -/
def ex_collab : Collab :=
  { get_sha1 := fun n => if n = "HEAD".toList then some (0xaa :: List.replicate 19 0x11) else none
    parse_object_or_die := fun _ _ => true
    mark_reachable_objects := fun _ => some ex_env.lookup_object
    sha1_object_info := ex_env.sha1_object_info
    typename := ex_env.typename
    prune_packed_objects := fun _ s => s
    get_object_directory := ex_objdir }

/-- A stale temporary pack with a pre-epoch mtime. -/
def ex_pre_epoch_tmp : File := ⟨"tmp_pack_old".toList, some (-1), true⟩

/-- A bucket entry of exactly 38 characters that begins with `tmp_obj_`. -/
def ex_tmp38 : File := ⟨tmp_obj_ ++ List.replicate 30 'x', some 100, true⟩

/-- A `tmp_obj_` entry with a pre-epoch mtime. -/
def ex_pre_epoch_tmp_obj : File := ⟨"tmp_obj_old".toList, some (-1), true⟩

/-! ## Locality of the system calls -/

theorem find_name_append_right {pre : Directory} {n : CStr}
    (h : ∀ g ∈ pre, g.name ≠ n) (d : Directory) :
    (pre ++ d).find? (fun f => decide (f.name = n)) = d.find? (fun f => decide (f.name = n)) := by
  have hp : pre.find? (fun f => decide (f.name = n)) = none := by
    simpa [List.find?_eq_none] using h
  simp [List.find?_append, hp]

theorem lstat_append_right {pre : Directory} {n : CStr}
    (h : ∀ g ∈ pre, g.name ≠ n) (d : Directory) :
    lstat (pre ++ d) n = lstat d n := by
  unfold lstat
  rw [find_name_append_right h]

theorem unlink_or_warn_append_right {pre : Directory} {n : CStr}
    (h : ∀ g ∈ pre, g.name ≠ n) (p : CStr) (d : Directory) :
    unlink_or_warn p n (pre ++ d) =
      (pre ++ (unlink_or_warn p n d).1, (unlink_or_warn p n d).2) := by
  unfold unlink_or_warn
  rw [find_name_append_right h]
  have he : (pre ++ d).eraseP (fun g => decide (g.name = n)) =
      pre ++ d.eraseP (fun g => decide (g.name = n)) := by
    apply List.eraseP_append_right
    intro g hg
    simpa using h g hg
  cases hf : d.find? (fun f => decide (f.name = n)) with
  | none => simp
  | some f => by_cases hu : f.unlinkable <;> simp [hu, he]

theorem lstat_cons_self (f : File) (post : Directory) :
    lstat (f :: post) f.name = lstat [f] f.name := by
  simp [lstat]

theorem unlink_or_warn_cons_self (p : CStr) (f : File) (post : Directory) :
    unlink_or_warn p f.name (f :: post) =
      ((unlink_or_warn p f.name [f]).1 ++ post, (unlink_or_warn p f.name [f]).2) := by
  by_cases hu : f.unlinkable <;> simp [unlink_or_warn, hu]

theorem prune_tmp_object_append_right (cfg : Config) (path : CStr) {pre : Directory} {n : CStr}
    (h : ∀ g ∈ pre, g.name ≠ n) (d : Directory) :
    prune_tmp_object cfg path n (pre ++ d) =
      ((prune_tmp_object cfg path n d).1, pre ++ (prune_tmp_object cfg path n d).2.1,
        (prune_tmp_object cfg path n d).2.2) := by
  unfold prune_tmp_object
  simp only [lstat_append_right h, unlink_or_warn_append_right h]
  cases lstat d n with
  | none => rfl
  | some m =>
    by_cases hg : st_mtime_gt m cfg.expire = true
    · simp [hg]
    · by_cases hs : cfg.show_only <;> simp [hg, hs]

theorem prune_tmp_object_cons_self (cfg : Config) (path : CStr) (f : File) (post : Directory) :
    prune_tmp_object cfg path f.name (f :: post) =
      ((prune_tmp_object cfg path f.name [f]).1, (prune_tmp_object cfg path f.name [f]).2.1 ++ post,
        (prune_tmp_object cfg path f.name [f]).2.2) := by
  unfold prune_tmp_object
  simp only [lstat_cons_self f post, unlink_or_warn_cons_self _ f post]
  cases lstat [f] f.name with
  | none => rfl
  | some m =>
    by_cases hg : st_mtime_gt m cfg.expire = true
    · simp [hg]
    · by_cases hs : cfg.show_only <;> simp [hg, hs]

theorem prune_object_append_right (cfg : Config) (env : Env) (path : CStr) (sha1 : List Nat)
    {pre : Directory} {n : CStr} (h : ∀ g ∈ pre, g.name ≠ n) (d : Directory) :
    prune_object cfg env path n sha1 (pre ++ d) =
      ((prune_object cfg env path n sha1 d).1, pre ++ (prune_object cfg env path n sha1 d).2.1,
        (prune_object cfg env path n sha1 d).2.2) := by
  unfold prune_object
  simp only [lstat_append_right h, unlink_or_warn_append_right h]
  cases lstat d n with
  | none => rfl
  | some m =>
    by_cases hg : st_mtime_gt m cfg.expire = true
    · simp [hg]
    · by_cases hs : cfg.show_only <;> simp [hg, hs]

theorem prune_object_cons_self (cfg : Config) (env : Env) (path : CStr) (sha1 : List Nat)
    (f : File) (post : Directory) :
    prune_object cfg env path f.name sha1 (f :: post) =
      ((prune_object cfg env path f.name sha1 [f]).1,
        (prune_object cfg env path f.name sha1 [f]).2.1 ++ post,
        (prune_object cfg env path f.name sha1 [f]).2.2) := by
  unfold prune_object
  simp only [lstat_cons_self f post, unlink_or_warn_cons_self _ f post]
  cases lstat [f] f.name with
  | none => rfl
  | some m =>
    by_cases hg : st_mtime_gt m cfg.expire = true
    · simp [hg]
    · by_cases hs : cfg.show_only <;> simp [hg, hs]

/-! ## One iteration of the loop of `prune_dir` -/

theorem prune_dir_loop_cons (cfg : Config) (env : Env) (i : Nat) (path : CStr)
    (n : CStr) (rest : List CStr) (d : Directory) :
    prune_dir_loop cfg env i path (n :: rest) d =
      if stops_scan i n then (d, [])
      else ((prune_dir_loop cfg env i path rest (prune_dir_loop cfg env i path [n] d).1).1,
            (prune_dir_loop cfg env i path [n] d).2 ++
              (prune_dir_loop cfg env i path rest (prune_dir_loop cfg env i path [n] d).1).2) := by
  simp only [prune_dir_loop, stops_scan]
  by_cases hd : is_dot_or_dotdot n = true
  · simp [hd]
  · by_cases hl : n.length = 38
    · cases hg : get_sha1_hex (fmt02x i ++ n) with
      | none => simp [hd, hl]
      | some sha1 =>
        by_cases hr : env.lookup_object sha1 = true <;> simp [hd, hl, hr]
    · by_cases hp : not_prefixcmp n tmp_obj_ = true <;> simp [hd, hl, hp]

theorem prune_dir_loop_one_append_right (cfg : Config) (env : Env) (i : Nat) (path : CStr)
    {pre : Directory} {n : CStr} (h : ∀ g ∈ pre, g.name ≠ n) (d : Directory) :
    prune_dir_loop cfg env i path [n] (pre ++ d) =
      (pre ++ (prune_dir_loop cfg env i path [n] d).1, (prune_dir_loop cfg env i path [n] d).2) := by
  simp only [prune_dir_loop]
  by_cases hd : is_dot_or_dotdot n = true
  · simp [hd]
  · by_cases hl : n.length = 38
    · cases hg : get_sha1_hex (fmt02x i ++ n) with
      | none => simp [hd, hl]
      | some sha1 =>
        by_cases hr : env.lookup_object sha1 = true
        · simp [hd, hl, hr]
        · simp [hd, hl, hr, prune_object_append_right cfg env path sha1 h d]
    · by_cases hp : not_prefixcmp n tmp_obj_ = true
      · simp [hd, hl, hp, prune_tmp_object_append_right cfg path h d]
      · simp [hd, hl, hp]

theorem prune_dir_loop_one_cons_self (cfg : Config) (env : Env) (i : Nat) (path : CStr)
    (f : File) (post : Directory) :
    prune_dir_loop cfg env i path [f.name] (f :: post) =
      ((prune_dir_loop cfg env i path [f.name] [f]).1 ++ post,
        (prune_dir_loop cfg env i path [f.name] [f]).2) := by
  simp only [prune_dir_loop]
  by_cases hd : is_dot_or_dotdot f.name = true
  · simp [hd]
  · by_cases hl : f.name.length = 38
    · cases hg : get_sha1_hex (fmt02x i ++ f.name) with
      | none => simp [hd, hl]
      | some sha1 =>
        by_cases hr : env.lookup_object sha1 = true
        · simp [hd, hl, hr]
        · simp [hd, hl, hr, prune_object_cons_self cfg env path sha1 f post]
    · by_cases hp : not_prefixcmp f.name tmp_obj_ = true
      · simp [hd, hl, hp, prune_tmp_object_cons_self cfg path f post]
      · simp [hd, hl, hp]

theorem prune_dir_loop_append_right (cfg : Config) (env : Env) (i : Nat) (path : CStr)
    (names : List CStr) :
    ∀ (pre d : Directory), (∀ g ∈ pre, g.name ∉ names) →
      prune_dir_loop cfg env i path names (pre ++ d) =
        (pre ++ (prune_dir_loop cfg env i path names d).1,
          (prune_dir_loop cfg env i path names d).2) := by
  induction names with
  | nil => intro pre d _; simp [prune_dir_loop]
  | cons n rest ih =>
    intro pre d h
    have h1 : ∀ g ∈ pre, g.name ≠ n := fun g hg he => h g hg (by simp [he])
    have h2 : ∀ g ∈ pre, g.name ∉ rest := fun g hg hm => h g hg (by simp [hm])
    rw [prune_dir_loop_cons, prune_dir_loop_cons cfg env i path n rest d]
    by_cases hs : stops_scan i n = true
    · simp [hs]
    · simp only [hs, if_false, Bool.false_eq_true]
      rw [prune_dir_loop_one_append_right cfg env i path h1 d]
      simp only
      rw [ih pre _ h2]

theorem lstat_singleton (f : File) : lstat [f] f.name = f.st_mtime := by
  simp [lstat]

theorem unlink_or_warn_singleton (p : CStr) (f : File) :
    (unlink_or_warn p f.name [f]).1 = if f.unlinkable then [] else [f] := by
  by_cases hu : f.unlinkable <;> simp [unlink_or_warn, hu]

theorem prune_tmp_object_singleton_state (cfg : Config) (path : CStr) (f : File) :
    (prune_tmp_object cfg path f.name [f]).2.1 =
      if !cfg.show_only && expired cfg f && f.unlinkable then [] else [f] := by
  unfold prune_tmp_object expired
  rw [lstat_singleton]
  cases hm : f.st_mtime with
  | none => simp
  | some m =>
    by_cases hg : st_mtime_gt m cfg.expire = true
    · simp [hg]
    · by_cases hs : cfg.show_only = true
      · simp [hg, hs]
      · by_cases hu : f.unlinkable = true <;> simp [hg, hs, unlink_or_warn_singleton, hu]

theorem prune_object_singleton_state (cfg : Config) (env : Env) (path : CStr) (sha1 : List Nat)
    (f : File) :
    (prune_object cfg env path f.name sha1 [f]).2.1 =
      if !cfg.show_only && expired cfg f && f.unlinkable then [] else [f] := by
  unfold prune_object expired
  rw [lstat_singleton]
  cases hm : f.st_mtime with
  | none => simp
  | some m =>
    by_cases hg : st_mtime_gt m cfg.expire = true
    · simp [hg]
    · by_cases hs : cfg.show_only = true
      · simp [hg, hs]
      · by_cases hu : f.unlinkable = true <;> simp [hg, hs, unlink_or_warn_singleton, hu]

theorem prune_dir_loop_one_state (cfg : Config) (env : Env) (i : Nat) (path : CStr) (f : File) :
    (prune_dir_loop cfg env i path [f.name] [f]).1 =
      if !cfg.show_only && bucket_target env i f.name && expired cfg f && f.unlinkable
      then [] else [f] := by
  by_cases hd : is_dot_or_dotdot f.name = true
  · simp [prune_dir_loop, bucket_target, hd]
  · by_cases hl : f.name.length = 38
    · cases hg : get_sha1_hex (fmt02x i ++ f.name) with
      | none => simp [prune_dir_loop, bucket_target, hd, hl, hg]
      | some sha1 =>
        by_cases hr : env.lookup_object sha1 = true
        · simp [prune_dir_loop, bucket_target, hd, hl, hg, hr]
        · simp [prune_dir_loop, bucket_target, hd, hl, hg, hr, prune_object_singleton_state]
    · by_cases hp : not_prefixcmp f.name tmp_obj_ = true
      · simp [prune_dir_loop, bucket_target, hd, hl, hp, prune_tmp_object_singleton_state]
      · simp [prune_dir_loop, bucket_target, hd, hl, hp]

/-! ## The loop of `prune_dir` on a well-formed listing -/

theorem prune_dir_loop_one_state_subset (cfg : Config) (env : Env) (i : Nat) (path : CStr)
    (f : File) : ∀ g ∈ (prune_dir_loop cfg env i path [f.name] [f]).1, g = f := by
  intro g hg
  rw [prune_dir_loop_one_state] at hg
  split at hg <;> simp at hg
  exact hg

theorem prune_dir_loop_listing_cons (cfg : Config) (env : Env) (i : Nat) (path : CStr)
    (f : File) (l : Directory) (hwf : Directory.wf (f :: l)) :
    prune_dir_loop cfg env i path ((f :: l).map File.name) (f :: l) =
      if stops_scan i f.name then (f :: l, [])
      else ((prune_dir_loop cfg env i path [f.name] [f]).1 ++
              (prune_dir_loop cfg env i path (l.map File.name) l).1,
            (prune_dir_loop cfg env i path [f.name] [f]).2 ++
              (prune_dir_loop cfg env i path (l.map File.name) l).2) := by
  have hn : f.name ∉ l.map File.name := by
    have := hwf
    simp only [Directory.wf, List.map_cons, List.nodup_cons] at this
    exact this.1
  rw [List.map_cons, prune_dir_loop_cons]
  by_cases hs : stops_scan i f.name = true
  · simp [hs]
  · simp only [hs, if_false, Bool.false_eq_true]
    rw [prune_dir_loop_one_cons_self]
    simp only
    rw [prune_dir_loop_append_right]
    intro g hg
    rw [prune_dir_loop_one_state_subset cfg env i path f g hg]
    exact hn

theorem wf_tail {f : File} {l : Directory} (h : Directory.wf (f :: l)) : Directory.wf l := by
  simp only [Directory.wf, List.map_cons, List.nodup_cons] at h
  exact h.2

theorem wf_sublist {l₁ l₂ : Directory} (hs : List.Sublist l₁ l₂) (h : Directory.wf l₂) :
    Directory.wf l₁ :=
  List.Nodup.sublist (List.Sublist.map File.name hs) h

theorem prune_dir_loop_listing_sublist (cfg : Config) (env : Env) (i : Nat) (path : CStr) :
    ∀ (l : Directory), Directory.wf l →
      List.Sublist (prune_dir_loop cfg env i path (l.map File.name) l).1 l := by
  intro l
  induction l with
  | nil => intro _; simp [prune_dir_loop]
  | cons f l ih =>
    intro hwf
    rw [prune_dir_loop_listing_cons cfg env i path f l hwf]
    by_cases hs : stops_scan i f.name = true
    · simp [hs]
    · simp only [hs, if_false, Bool.false_eq_true, prune_dir_loop_one_state]
      split
      · simpa using (ih (wf_tail hwf)).trans (List.sublist_cons_self f l)
      · simpa using ih (wf_tail hwf)

theorem prune_dir_loop_idem (cfg : Config) (env : Env) (i : Nat) (path : CStr) :
    ∀ (l : Directory), Directory.wf l →
      (prune_dir_loop cfg env i path
        ((prune_dir_loop cfg env i path (l.map File.name) l).1.map File.name)
        (prune_dir_loop cfg env i path (l.map File.name) l).1).1 =
      (prune_dir_loop cfg env i path (l.map File.name) l).1 := by
  intro l
  induction l with
  | nil => intro _; simp [prune_dir_loop]
  | cons f l ih =>
    intro hwf
    have hsub := prune_dir_loop_listing_sublist cfg env i path l (wf_tail hwf)
    rw [prune_dir_loop_listing_cons cfg env i path f l hwf]
    by_cases hs : stops_scan i f.name = true
    · simp only [hs, if_true]
      rw [prune_dir_loop_listing_cons cfg env i path f l hwf]
      simp [hs]
    · simp only [hs, if_false, Bool.false_eq_true, prune_dir_loop_one_state]
      split
      · simpa using ih (wf_tail hwf)
      · next hrem =>
        have hwf2 : Directory.wf
            (f :: (prune_dir_loop cfg env i path (l.map File.name) l).1) :=
          wf_sublist (List.Sublist.cons₂ f hsub) hwf
        simp only [List.singleton_append]
        rw [prune_dir_loop_listing_cons cfg env i path f _ hwf2]
        simp only [hs, if_false, Bool.false_eq_true, prune_dir_loop_one_state, hrem]
        simpa using ih (wf_tail hwf)

/-! ## The loop of `remove_temporary_files` -/

theorem remove_temporary_files_loop_cons (cfg : Config) (path : CStr)
    (n : CStr) (rest : List CStr) (d : Directory) :
    remove_temporary_files_loop cfg path (n :: rest) d =
      ((remove_temporary_files_loop cfg path rest
          (remove_temporary_files_loop cfg path [n] d).1).1,
        (remove_temporary_files_loop cfg path [n] d).2 ++
          (remove_temporary_files_loop cfg path rest
            (remove_temporary_files_loop cfg path [n] d).1).2) := by
  by_cases hp : not_prefixcmp n tmp_ = true <;> simp [remove_temporary_files_loop, hp]

theorem remove_temporary_files_loop_one_append_right (cfg : Config) (path : CStr)
    {pre : Directory} {n : CStr} (h : ∀ g ∈ pre, g.name ≠ n) (d : Directory) :
    remove_temporary_files_loop cfg path [n] (pre ++ d) =
      (pre ++ (remove_temporary_files_loop cfg path [n] d).1,
        (remove_temporary_files_loop cfg path [n] d).2) := by
  by_cases hp : not_prefixcmp n tmp_ = true
  · simp [remove_temporary_files_loop, hp, prune_tmp_object_append_right cfg path h d]
  · simp [remove_temporary_files_loop, hp]

theorem remove_temporary_files_loop_one_cons_self (cfg : Config) (path : CStr)
    (f : File) (post : Directory) :
    remove_temporary_files_loop cfg path [f.name] (f :: post) =
      ((remove_temporary_files_loop cfg path [f.name] [f]).1 ++ post,
        (remove_temporary_files_loop cfg path [f.name] [f]).2) := by
  by_cases hp : not_prefixcmp f.name tmp_ = true
  · simp [remove_temporary_files_loop, hp, prune_tmp_object_cons_self cfg path f post]
  · simp [remove_temporary_files_loop, hp]

theorem remove_temporary_files_loop_append_right (cfg : Config) (path : CStr)
    (names : List CStr) :
    ∀ (pre d : Directory), (∀ g ∈ pre, g.name ∉ names) →
      remove_temporary_files_loop cfg path names (pre ++ d) =
        (pre ++ (remove_temporary_files_loop cfg path names d).1,
          (remove_temporary_files_loop cfg path names d).2) := by
  induction names with
  | nil => intro pre d _; simp [remove_temporary_files_loop]
  | cons n rest ih =>
    intro pre d h
    have h1 : ∀ g ∈ pre, g.name ≠ n := fun g hg he => h g hg (by simp [he])
    have h2 : ∀ g ∈ pre, g.name ∉ rest := fun g hg hm => h g hg (by simp [hm])
    rw [remove_temporary_files_loop_cons,
      remove_temporary_files_loop_cons cfg path n rest d,
      remove_temporary_files_loop_one_append_right cfg path h1 d]
    simp only
    rw [ih pre _ h2]

theorem remove_temporary_files_loop_one_state (cfg : Config) (path : CStr) (f : File) :
    (remove_temporary_files_loop cfg path [f.name] [f]).1 =
      if !cfg.show_only && not_prefixcmp f.name tmp_ && expired cfg f && f.unlinkable
      then [] else [f] := by
  by_cases hp : not_prefixcmp f.name tmp_ = true
  · simp [remove_temporary_files_loop, hp, prune_tmp_object_singleton_state]
  · simp [remove_temporary_files_loop, hp]

theorem remove_temporary_files_loop_listing_cons (cfg : Config) (path : CStr)
    (f : File) (l : Directory) (hwf : Directory.wf (f :: l)) :
    remove_temporary_files_loop cfg path ((f :: l).map File.name) (f :: l) =
      ((remove_temporary_files_loop cfg path [f.name] [f]).1 ++
          (remove_temporary_files_loop cfg path (l.map File.name) l).1,
        (remove_temporary_files_loop cfg path [f.name] [f]).2 ++
          (remove_temporary_files_loop cfg path (l.map File.name) l).2) := by
  have hn : f.name ∉ l.map File.name := by
    have := hwf
    simp only [Directory.wf, List.map_cons, List.nodup_cons] at this
    exact this.1
  rw [List.map_cons, remove_temporary_files_loop_cons,
    remove_temporary_files_loop_one_cons_self]
  simp only
  rw [remove_temporary_files_loop_append_right]
  intro g hg
  rw [remove_temporary_files_loop_one_state] at hg
  split at hg <;> simp at hg
  rw [hg]
  exact hn

theorem remove_temporary_files_loop_listing_sublist (cfg : Config) (path : CStr) :
    ∀ (l : Directory), Directory.wf l →
      List.Sublist (remove_temporary_files_loop cfg path (l.map File.name) l).1 l := by
  intro l
  induction l with
  | nil => intro _; simp [remove_temporary_files_loop]
  | cons f l ih =>
    intro hwf
    rw [remove_temporary_files_loop_listing_cons cfg path f l hwf]
    simp only [remove_temporary_files_loop_one_state]
    split
    · simpa using (ih (wf_tail hwf)).trans (List.sublist_cons_self f l)
    · simpa using ih (wf_tail hwf)

theorem remove_temporary_files_loop_idem (cfg : Config) (path : CStr) :
    ∀ (l : Directory), Directory.wf l →
      (remove_temporary_files_loop cfg path
        ((remove_temporary_files_loop cfg path (l.map File.name) l).1.map File.name)
        (remove_temporary_files_loop cfg path (l.map File.name) l).1).1 =
      (remove_temporary_files_loop cfg path (l.map File.name) l).1 := by
  intro l
  induction l with
  | nil => intro _; simp [remove_temporary_files_loop]
  | cons f l ih =>
    intro hwf
    have hsub := remove_temporary_files_loop_listing_sublist cfg path l (wf_tail hwf)
    rw [remove_temporary_files_loop_listing_cons cfg path f l hwf]
    simp only [remove_temporary_files_loop_one_state]
    split
    · simpa using ih (wf_tail hwf)
    · next hrem =>
      have hwf2 : Directory.wf
          (f :: (remove_temporary_files_loop cfg path (l.map File.name) l).1) :=
        wf_sublist (List.Sublist.cons₂ f hsub) hwf
      simp only [List.singleton_append]
      rw [remove_temporary_files_loop_listing_cons cfg path f _ hwf2]
      simp only [remove_temporary_files_loop_one_state, hrem]
      simpa using ih (wf_tail hwf)

/-! ## The loop of `prune_object_dir` and the sweep, directory by directory -/

theorem flatMap_congr_mem {α β : Type} (l : List α) (f g : α → List β)
    (h : ∀ x ∈ l, f x = g x) : l.flatMap f = l.flatMap g := by
  induction l with
  | nil => rfl
  | cons a l ih =>
    simp only [List.flatMap_cons]
    rw [h a (by simp), ih (fun x hx => h x (by simp [hx]))]

theorem prune_object_dir_loop_root (cfg : Config) (env : Env) (path : CStr) :
    ∀ (n i : Nat) (s : Store), (prune_object_dir_loop cfg env path n i s).1.root = s.root := by
  intro n
  induction n with
  | zero => intro i s; rfl
  | succ n ih => intro i s; simp only [prune_object_dir_loop]; rw [ih]

theorem prune_object_dir_loop_pack (cfg : Config) (env : Env) (path : CStr) :
    ∀ (n i : Nat) (s : Store), (prune_object_dir_loop cfg env path n i s).1.pack = s.pack := by
  intro n
  induction n with
  | zero => intro i s; rfl
  | succ n ih => intro i s; simp only [prune_object_dir_loop]; rw [ih]

theorem prune_object_dir_loop_buckets (cfg : Config) (env : Env) (path : CStr) :
    ∀ (n i : Nat) (s : Store) (j : Nat),
      (prune_object_dir_loop cfg env path n i s).1.buckets j =
        if i ≤ j ∧ j < i + n then
          (prune_dir cfg env j (path ++ '/' :: fmt02x j) (s.buckets j)).2.1
        else s.buckets j := by
  intro n
  induction n with
  | zero =>
    intro i s j
    have h0 : ¬(i ≤ j ∧ j < i + 0) := by omega
    simp only [prune_object_dir_loop, h0, if_false]
  | succ n ih =>
    intro i s j
    simp only [prune_object_dir_loop]
    rw [ih]
    by_cases hij : j = i
    · subst hij
      simp
    · have h1 : (i + 1 ≤ j ∧ j < i + 1 + n) ↔ (i ≤ j ∧ j < i + (n + 1)) := by omega
      simp only [Function.update_noteq hij, h1]

theorem prune_object_dir_loop_events (cfg : Config) (env : Env) (path : CStr) :
    ∀ (n i : Nat) (s : Store),
      (prune_object_dir_loop cfg env path n i s).2 =
        (List.range' i n).flatMap
          (fun j => (prune_dir cfg env j (path ++ '/' :: fmt02x j) (s.buckets j)).2.2) := by
  intro n
  induction n with
  | zero => intro i s; simp [prune_object_dir_loop]
  | succ n ih =>
    intro i s
    simp only [prune_object_dir_loop, List.range'_succ, List.flatMap_cons]
    rw [ih]
    congr 1
    apply flatMap_congr_mem
    intro j hj
    have hne : j ≠ i := by
      have := (List.mem_range'_1.mp hj).1
      omega
    simp only [Function.update_noteq hne]

theorem sweep_buckets (cfg : Config) (env : Env) (objdir : CStr) (s : Store) (j : Nat) :
    (sweep cfg env objdir s).1.buckets j =
      if j < 256 then (prune_dir cfg env j (objdir ++ '/' :: fmt02x j) (s.buckets j)).2.1
      else s.buckets j := by
  simp [sweep, prune_object_dir, prune_object_dir_loop_buckets]

theorem sweep_root (cfg : Config) (env : Env) (objdir : CStr) (s : Store) :
    (sweep cfg env objdir s).1.root = (remove_temporary_files cfg objdir s.root).1 := by
  simp [sweep, prune_object_dir, prune_object_dir_loop_root]

theorem sweep_pack (cfg : Config) (env : Env) (objdir : CStr) (s : Store) :
    (sweep cfg env objdir s).1.pack =
      (remove_temporary_files cfg (objdir ++ "/pack".toList) s.pack).1 := by
  simp [sweep, prune_object_dir, prune_object_dir_loop_pack]

theorem sweep_events (cfg : Config) (env : Env) (objdir : CStr) (s : Store) :
    (sweep cfg env objdir s).2 =
      (List.range 256).flatMap
          (fun j => (prune_dir cfg env j (objdir ++ '/' :: fmt02x j) (s.buckets j)).2.2) ++
        (remove_temporary_files cfg objdir s.root).2 ++
        (remove_temporary_files cfg (objdir ++ "/pack".toList) s.pack).2 := by
  simp only [sweep, prune_object_dir, prune_object_dir_loop_root, prune_object_dir_loop_pack,
    prune_object_dir_loop_events, List.range_eq_range']

theorem mem_sweep_events {cfg : Config} {env : Env} {objdir : CStr} {s : Store} {e : Event}
    (h : e ∈ (sweep cfg env objdir s).2) :
    (∃ j, j < 256 ∧
        e ∈ (prune_dir cfg env j (objdir ++ '/' :: fmt02x j) (s.buckets j)).2.2) ∨
      e ∈ (remove_temporary_files cfg objdir s.root).2 ∨
      e ∈ (remove_temporary_files cfg (objdir ++ "/pack".toList) s.pack).2 := by
  rw [sweep_events] at h
  simp only [List.mem_append, List.mem_flatMap, List.mem_range] at h
  rcases h with (⟨j, hj, he⟩ | h) | h
  · exact Or.inl ⟨j, hj, he⟩
  · exact Or.inr (Or.inl h)
  · exact Or.inr (Or.inr h)

/-! ## Dry run -/

theorem prune_tmp_object_dry (cfg : Config) (path n : CStr) (d : Directory)
    (h : cfg.show_only = true) :
    (prune_tmp_object cfg path n d).2.1 = d ∧
      ∀ e ∈ (prune_tmp_object cfg path n d).2.2, e.is_mutation = false := by
  unfold prune_tmp_object
  cases lstat d n with
  | none => simp [Event.is_mutation]
  | some m =>
    by_cases hg : st_mtime_gt m cfg.expire = true <;> simp [hg, h, Event.is_mutation]

theorem prune_object_dry (cfg : Config) (env : Env) (path n : CStr) (sha1 : List Nat)
    (d : Directory) (h : cfg.show_only = true) :
    (prune_object cfg env path n sha1 d).2.1 = d ∧
      ∀ e ∈ (prune_object cfg env path n sha1 d).2.2, e.is_mutation = false := by
  unfold prune_object
  cases lstat d n with
  | none => simp [Event.is_mutation]
  | some m =>
    by_cases hg : st_mtime_gt m cfg.expire = true <;> simp [hg, h, Event.is_mutation]

theorem prune_dir_loop_dry (cfg : Config) (env : Env) (i : Nat) (path : CStr)
    (h : cfg.show_only = true) :
    ∀ (names : List CStr) (d : Directory),
      (prune_dir_loop cfg env i path names d).1 = d ∧
        ∀ e ∈ (prune_dir_loop cfg env i path names d).2, e.is_mutation = false := by
  intro names
  induction names with
  | nil => intro d; simp [prune_dir_loop]
  | cons n rest ih =>
    intro d
    by_cases hd : is_dot_or_dotdot n = true
    · simpa [prune_dir_loop, hd] using ih d
    · by_cases hl : n.length = 38
      · cases hg : get_sha1_hex (fmt02x i ++ n) with
        | none => simp [prune_dir_loop, hd, hl, hg]
        | some sha1 =>
          by_cases hr : env.lookup_object sha1 = true
          · simpa [prune_dir_loop, hd, hl, hg, hr] using ih d
          · have ho := prune_object_dry cfg env path n sha1 d h
            simp only [prune_dir_loop, hd, hl, hg, hr, if_true, if_false, Bool.false_eq_true,
              ho.1, List.mem_append]
            exact ⟨(ih d).1, fun e he => he.elim (ho.2 e) ((ih d).2 e)⟩
      · by_cases hp : not_prefixcmp n tmp_obj_ = true
        · have ho := prune_tmp_object_dry cfg path n d h
          simp only [prune_dir_loop, hd, hl, hp, if_true, if_false, Bool.false_eq_true,
            ho.1, List.mem_append]
          exact ⟨(ih d).1, fun e he => he.elim (ho.2 e) ((ih d).2 e)⟩
        · simp only [prune_dir_loop, hd, hl, hp, if_false, Bool.false_eq_true,
            List.mem_cons]
          refine ⟨(ih d).1, fun e he => ?_⟩
          rcases he with he | he
          · rw [he]; rfl
          · exact (ih d).2 e he

theorem prune_dir_dry (cfg : Config) (env : Env) (i : Nat) (path : CStr)
    (h : cfg.show_only = true) (od : Option Directory) :
    (prune_dir cfg env i path od).2.1 = od ∧
      ∀ e ∈ (prune_dir cfg env i path od).2.2, e.is_mutation = false := by
  cases od with
  | none => simp [prune_dir]
  | some d =>
    have hl := prune_dir_loop_dry cfg env i path h (d.map File.name) d
    simp only [prune_dir, h, Bool.not_true, Bool.false_eq_true, if_false, hl.1, true_and]
    exact hl.2

theorem remove_temporary_files_loop_dry (cfg : Config) (path : CStr)
    (h : cfg.show_only = true) :
    ∀ (names : List CStr) (d : Directory),
      (remove_temporary_files_loop cfg path names d).1 = d ∧
        ∀ e ∈ (remove_temporary_files_loop cfg path names d).2, e.is_mutation = false := by
  intro names
  induction names with
  | nil => intro d; simp [remove_temporary_files_loop]
  | cons n rest ih =>
    intro d
    by_cases hp : not_prefixcmp n tmp_ = true
    · have ho := prune_tmp_object_dry cfg path n d h
      simp only [remove_temporary_files_loop, hp, if_true, ho.1, List.mem_append]
      exact ⟨(ih d).1, fun e he => he.elim (ho.2 e) ((ih d).2 e)⟩
    · simpa [remove_temporary_files_loop, hp] using ih d

theorem remove_temporary_files_dry (cfg : Config) (path : CStr)
    (h : cfg.show_only = true) (od : Option Directory) :
    (remove_temporary_files cfg path od).1 = od ∧
      ∀ e ∈ (remove_temporary_files cfg path od).2, e.is_mutation = false := by
  cases od with
  | none => simp [remove_temporary_files, Event.is_mutation]
  | some d =>
    have hl := remove_temporary_files_loop_dry cfg path h (d.map File.name) d
    simp only [remove_temporary_files, hl.1, true_and]
    exact hl.2

theorem Store.ext_fields {s t : Store} (hr : s.root = t.root)
    (hb : ∀ j, s.buckets j = t.buckets j) (hp : s.pack = t.pack) : s = t := by
  cases s; cases t
  simp only [Store.mk.injEq]
  exact ⟨hr, funext hb, hp⟩

/-- C3: with the dry-run flag `show_only` set, the sweep (all 256 buckets, then
the temporary files of the object directory and of `pack`) leaves the store as
it was, and its trace has no `unlink` and no `rmdir`. -/
theorem dry_run_no_mutation (cfg : Config) (env : Env) (objdir : CStr) (s : Store)
    (h : cfg.show_only = true) :
    (sweep cfg env objdir s).1 = s ∧
      ∀ e ∈ (sweep cfg env objdir s).2, e.is_mutation = false := by
  constructor
  · apply Store.ext_fields
    · rw [sweep_root]; exact (remove_temporary_files_dry cfg objdir h s.root).1
    · intro j
      rw [sweep_buckets]
      split
      · exact (prune_dir_dry cfg env j _ h (s.buckets j)).1
      · rfl
    · rw [sweep_pack]; exact (remove_temporary_files_dry cfg _ h s.pack).1
  · intro e he
    rcases mem_sweep_events he with ⟨j, _, hj⟩ | hr | hp
    · exact (prune_dir_dry cfg env j _ h (s.buckets j)).2 e hj
    · exact (remove_temporary_files_dry cfg objdir h s.root).2 e hr
    · exact (remove_temporary_files_dry cfg _ h s.pack).2 e hp

/-! ## The two hex digits of a bucket name -/

theorem fmt02x_eq (i : Nat) (hi : i < 256) :
    fmt02x i = [Nat.digitChar (i / 16), Nat.digitChar (i % 16)] := by
  revert i
  decide

theorem digitChar_inj_16 : ∀ a < 16, ∀ b < 16, Nat.digitChar a = Nat.digitChar b → a = b := by
  decide

theorem digitChar_ne_t : ∀ a < 16, Nat.digitChar a ≠ 't' ∧ Nat.digitChar a ≠ 'p' := by
  decide

theorem fmt02x_inj (i j : Nat) (hi : i < 256) (hj : j < 256) (h : fmt02x i = fmt02x j) :
    i = j := by
  rw [fmt02x_eq i hi, fmt02x_eq j hj] at h
  simp only [List.cons.injEq, and_true] at h
  have h1 := digitChar_inj_16 (i / 16) (by omega) (j / 16) (by omega) h.1
  have h2 := digitChar_inj_16 (i % 16) (by omega) (j % 16) (by omega) h.2
  omega

/-! ## Paths -/

theorem mkpath_inj {p a b : CStr} (h : mkpath p a = mkpath p b) : a = b := by
  simpa [mkpath] using h

theorem tmp_head {n : CStr} (h : not_prefixcmp n tmp_ = true) : ∃ t, n = 't' :: t := by
  simp only [not_prefixcmp, List.isPrefixOf_iff_prefix] at h
  obtain ⟨t, ht⟩ := h
  exact ⟨['m', 'p', '_'] ++ t, by rw [← ht]; rfl⟩

theorem pack_lit : "/pack".toList = ['/', 'p', 'a', 'c', 'k'] := rfl

theorem mkpath_loc_inj (objdir : CStr) {l₁ l₂ : Loc} {a b : CStr}
    (h₁ : l₁.visited) (h₂ : l₂.visited)
    (ha : l₁ = Loc.root → not_prefixcmp a tmp_ = true)
    (hb : l₂ = Loc.root → not_prefixcmp b tmp_ = true)
    (h : mkpath (l₁.path objdir) a = mkpath (l₂.path objdir) b) : l₁ = l₂ ∧ a = b := by
  cases l₁ with
  | root =>
    obtain ⟨t, ht⟩ := tmp_head (ha rfl)
    cases l₂ with
    | root => exact ⟨rfl, mkpath_inj h⟩
    | bucket j =>
      exfalso
      have hj : j < 256 := h₂
      simp only [mkpath, Loc.path, fmt02x_eq j hj, ht, List.append_assoc, List.cons_append,
        List.append_cancel_left_eq, List.cons.injEq, true_and] at h
      exact (digitChar_ne_t (j / 16) (by omega)).1 h.1.symm
    | pack =>
      exfalso
      simp [mkpath, Loc.path, pack_lit, ht] at h
  | bucket i =>
    have hi : i < 256 := h₁
    cases l₂ with
    | root =>
      exfalso
      obtain ⟨t, ht⟩ := tmp_head (hb rfl)
      simp only [mkpath, Loc.path, fmt02x_eq i hi, ht, List.append_assoc, List.cons_append,
        List.append_cancel_left_eq, List.cons.injEq, true_and] at h
      exact (digitChar_ne_t (i / 16) (by omega)).1 h.1
    | bucket j =>
      have hj : j < 256 := h₂
      have h' := h
      simp only [mkpath, Loc.path, fmt02x_eq j hj, fmt02x_eq i hi, List.append_assoc,
        List.cons_append, List.append_cancel_left_eq, List.cons.injEq, true_and,
        List.nil_append] at h'
      have hij : i = j := by
        apply fmt02x_inj i j hi hj
        rw [fmt02x_eq j hj, fmt02x_eq i hi, h'.1, h'.2.1]
      exact ⟨by rw [hij], h'.2.2⟩
    | pack =>
      exfalso
      simp only [mkpath, Loc.path, fmt02x_eq i hi, pack_lit, List.append_assoc,
        List.cons_append, List.append_cancel_left_eq, List.cons.injEq, true_and,
        List.nil_append] at h
      exact (digitChar_ne_t (i / 16) (by omega)).2 h.1
  | pack =>
    cases l₂ with
    | root =>
      exfalso
      obtain ⟨t, ht⟩ := tmp_head (hb rfl)
      simp [mkpath, Loc.path, pack_lit, ht] at h
    | bucket j =>
      exfalso
      have hj : j < 256 := h₂
      simp only [mkpath, Loc.path, fmt02x_eq j hj, pack_lit, List.append_assoc,
        List.cons_append, List.append_cancel_left_eq, List.cons.injEq, true_and,
        List.nil_append] at h
      exact (digitChar_ne_t (j / 16) (by omega)).2 h.1.symm
    | pack => exact ⟨rfl, mkpath_inj h⟩

/-! ## The passes over a well-formed listing, entry by entry -/

theorem prune_dir_loop_listing_events (cfg : Config) (env : Env) (i : Nat) (path : CStr) :
    ∀ (l : Directory), Directory.wf l →
      (prune_dir_loop cfg env i path (l.map File.name) l).2 =
        (l.takeWhile (fun f => !stops_scan i f.name)).flatMap
          (fun f => (prune_dir_loop cfg env i path [f.name] [f]).2) := by
  intro l
  induction l with
  | nil => intro _; simp [prune_dir_loop]
  | cons f l ih =>
    intro hwf
    rw [prune_dir_loop_listing_cons cfg env i path f l hwf]
    by_cases hs : stops_scan i f.name = true
    · simp [hs, List.takeWhile_cons]
    · simp [hs, List.takeWhile_cons, ih (wf_tail hwf)]

theorem prune_dir_loop_listing_state (cfg : Config) (env : Env) (i : Nat) (path : CStr) :
    ∀ (l : Directory), Directory.wf l →
      (prune_dir_loop cfg env i path (l.map File.name) l).1 =
        (l.takeWhile (fun f => !stops_scan i f.name)).flatMap
          (fun f => (prune_dir_loop cfg env i path [f.name] [f]).1) ++
        l.dropWhile (fun f => !stops_scan i f.name) := by
  intro l
  induction l with
  | nil => intro _; simp [prune_dir_loop]
  | cons f l ih =>
    intro hwf
    rw [prune_dir_loop_listing_cons cfg env i path f l hwf]
    by_cases hs : stops_scan i f.name = true
    · simp [hs, List.takeWhile_cons, List.dropWhile_cons]
    · simp [hs, List.takeWhile_cons, List.dropWhile_cons, ih (wf_tail hwf)]

theorem remove_temporary_files_loop_listing_events (cfg : Config) (path : CStr) :
    ∀ (l : Directory), Directory.wf l →
      (remove_temporary_files_loop cfg path (l.map File.name) l).2 =
        l.flatMap (fun f => (remove_temporary_files_loop cfg path [f.name] [f]).2) := by
  intro l
  induction l with
  | nil => intro _; simp [remove_temporary_files_loop]
  | cons f l ih =>
    intro hwf
    rw [remove_temporary_files_loop_listing_cons cfg path f l hwf]
    simp [ih (wf_tail hwf)]

theorem remove_temporary_files_loop_listing_state (cfg : Config) (path : CStr) :
    ∀ (l : Directory), Directory.wf l →
      (remove_temporary_files_loop cfg path (l.map File.name) l).1 =
        l.flatMap (fun f => (remove_temporary_files_loop cfg path [f.name] [f]).1) := by
  intro l
  induction l with
  | nil => intro _; simp [remove_temporary_files_loop]
  | cons f l ih =>
    intro hwf
    rw [remove_temporary_files_loop_listing_cons cfg path f l hwf]
    simp [ih (wf_tail hwf)]

/-! ## The `unlink` calls of one iteration -/

theorem unlink_or_warn_singleton_events (p : CStr) (f : File) :
    (unlink_or_warn p f.name [f]).2 =
      if f.unlinkable then [Event.unlink p] else [Event.unlink p, Event.warning p] := by
  by_cases hu : f.unlinkable <;> simp [unlink_or_warn, hu]

theorem prune_tmp_object_singleton_unlink (cfg : Config) (path : CStr) (f : File) (p : CStr) :
    Event.unlink p ∈ (prune_tmp_object cfg path f.name [f]).2.2 ↔
      p = mkpath path f.name ∧ cfg.show_only = false ∧ expired cfg f = true := by
  unfold prune_tmp_object expired
  rw [lstat_singleton]
  cases hm : f.st_mtime with
  | none => simp
  | some m =>
    by_cases hg : st_mtime_gt m cfg.expire = true
    · simp [hg]
    · by_cases hs : cfg.show_only = true
      · simp [hg, hs]
      · by_cases hv : cfg.verbose = true <;> by_cases hu : f.unlinkable = true <;>
          simp [hg, hs, hv, hu, unlink_or_warn_singleton_events]

theorem prune_object_singleton_unlink (cfg : Config) (env : Env) (path : CStr)
    (sha1 : List Nat) (f : File) (p : CStr) :
    Event.unlink p ∈ (prune_object cfg env path f.name sha1 [f]).2.2 ↔
      p = mkpath path f.name ∧ cfg.show_only = false ∧ expired cfg f = true := by
  unfold prune_object expired
  rw [lstat_singleton]
  cases hm : f.st_mtime with
  | none => simp
  | some m =>
    by_cases hg : st_mtime_gt m cfg.expire = true
    · simp [hg]
    · by_cases hs : cfg.show_only = true
      · simp [hg, hs]
      · by_cases hv : cfg.verbose = true <;> by_cases hu : f.unlinkable = true <;>
          simp [hg, hs, hv, hu, unlink_or_warn_singleton_events]

theorem prune_dir_loop_one_unlink (cfg : Config) (env : Env) (i : Nat) (path : CStr)
    (f : File) (p : CStr) :
    Event.unlink p ∈ (prune_dir_loop cfg env i path [f.name] [f]).2 ↔
      p = mkpath path f.name ∧ cfg.show_only = false ∧
        bucket_target env i f.name = true ∧ expired cfg f = true := by
  by_cases hd : is_dot_or_dotdot f.name = true
  · simp [prune_dir_loop, bucket_target, hd]
  · by_cases hl : f.name.length = 38
    · cases hg : get_sha1_hex (fmt02x i ++ f.name) with
      | none => simp [prune_dir_loop, bucket_target, hd, hl, hg]
      | some sha1 =>
        by_cases hr : env.lookup_object sha1 = true
        · simp [prune_dir_loop, bucket_target, hd, hl, hg, hr]
        · simp [prune_dir_loop, bucket_target, hd, hl, hg, hr, prune_object_singleton_unlink]
    · by_cases hp : not_prefixcmp f.name tmp_obj_ = true
      · simp [prune_dir_loop, bucket_target, hd, hl, hp, prune_tmp_object_singleton_unlink]
      · simp [prune_dir_loop, bucket_target, hd, hl, hp]

theorem remove_temporary_files_loop_one_unlink (cfg : Config) (path : CStr)
    (f : File) (p : CStr) :
    Event.unlink p ∈ (remove_temporary_files_loop cfg path [f.name] [f]).2 ↔
      p = mkpath path f.name ∧ cfg.show_only = false ∧
        not_prefixcmp f.name tmp_ = true ∧ expired cfg f = true := by
  by_cases hp : not_prefixcmp f.name tmp_ = true
  · simp [remove_temporary_files_loop, hp, prune_tmp_object_singleton_unlink]
  · simp [remove_temporary_files_loop, hp]

/-! ## What the sweep of one directory unlinks and what it keeps -/

theorem sweep_dir_unlink (cfg : Config) (env : Env) (objdir : CStr) (loc : Loc)
    (d : Directory) (hwf : Directory.wf d) (p : CStr)
    (h : Event.unlink p ∈ (sweep_dir cfg env objdir loc (some d)).2) :
    ∃ f ∈ d, p = mkpath (loc.path objdir) f.name ∧ cfg.show_only = false ∧
      loc.target env f.name = true ∧ expired cfg f = true := by
  cases loc with
  | bucket i =>
    simp only [sweep_dir, prune_dir] at h
    have h' : Event.unlink p ∈
        (prune_dir_loop cfg env i (Loc.path objdir (Loc.bucket i)) (d.map File.name) d).2 := by
      by_cases hs : cfg.show_only = true
      · simpa [hs] using h
      · simpa [hs] using h
    rw [prune_dir_loop_listing_events cfg env i _ d hwf, List.mem_flatMap] at h'
    obtain ⟨f, hf, hfe⟩ := h'
    rw [prune_dir_loop_one_unlink] at hfe
    exact ⟨f, (List.takeWhile_sublist _).subset hf, hfe⟩
  | root =>
    simp only [sweep_dir, remove_temporary_files] at h
    rw [remove_temporary_files_loop_listing_events cfg _ d hwf, List.mem_flatMap] at h
    obtain ⟨f, hf, hfe⟩ := h
    rw [remove_temporary_files_loop_one_unlink] at hfe
    exact ⟨f, hf, hfe⟩
  | pack =>
    simp only [sweep_dir, remove_temporary_files] at h
    rw [remove_temporary_files_loop_listing_events cfg _ d hwf, List.mem_flatMap] at h
    obtain ⟨f, hf, hfe⟩ := h
    rw [remove_temporary_files_loop_one_unlink] at hfe
    exact ⟨f, hf, hfe⟩

theorem prune_dir_loop_listing_keeps (cfg : Config) (env : Env) (i : Nat) (path : CStr)
    (l : Directory) (hwf : Directory.wf l) (f : File) (hf : f ∈ l)
    (h : (!cfg.show_only && bucket_target env i f.name && expired cfg f && f.unlinkable) = false) :
    f ∈ (prune_dir_loop cfg env i path (l.map File.name) l).1 := by
  rw [prune_dir_loop_listing_state cfg env i path l hwf, List.mem_append]
  rw [← List.takeWhile_append_dropWhile (fun f => !stops_scan i f.name) l, List.mem_append] at hf
  rcases hf with hf | hf
  · left
    rw [List.mem_flatMap]
    exact ⟨f, hf, by rw [prune_dir_loop_one_state, h]; simp⟩
  · exact Or.inr hf

theorem remove_temporary_files_loop_listing_keeps (cfg : Config) (path : CStr)
    (l : Directory) (hwf : Directory.wf l) (f : File) (hf : f ∈ l)
    (h : (!cfg.show_only && not_prefixcmp f.name tmp_ && expired cfg f && f.unlinkable) = false) :
    f ∈ (remove_temporary_files_loop cfg path (l.map File.name) l).1 := by
  rw [remove_temporary_files_loop_listing_state cfg path l hwf, List.mem_flatMap]
  exact ⟨f, hf, by rw [remove_temporary_files_loop_one_state, h]; simp⟩

theorem rmdir_of_mem {d : Directory} {f : File} (hf : f ∈ d)
    (hdot : is_dot_or_dotdot f.name = false) : rmdir d = some d := by
  unfold rmdir
  have : d.all (fun f => is_dot_or_dotdot f.name) = false := by
    rw [List.all_eq_false]
    exact ⟨f, hf, by simp [hdot]⟩
  simp [this]

theorem sweep_dir_keeps (cfg : Config) (env : Env) (objdir : CStr) (loc : Loc)
    (d : Directory) (hwf : Directory.wf d) (f : File) (hf : f ∈ d)
    (hdot : is_dot_or_dotdot f.name = false)
    (h : (!cfg.show_only && loc.target env f.name && expired cfg f && f.unlinkable) = false) :
    ∃ d', (sweep_dir cfg env objdir loc (some d)).1 = some d' ∧ f ∈ d' := by
  cases loc with
  | bucket i =>
    have hk := prune_dir_loop_listing_keeps cfg env i (Loc.path objdir (Loc.bucket i)) d hwf f hf h
    by_cases hs : cfg.show_only = true
    · exact ⟨_, by simp [sweep_dir, prune_dir, hs], hk⟩
    · exact ⟨_, by simp [sweep_dir, prune_dir, hs, rmdir_of_mem hk hdot], hk⟩
  | root =>
    exact ⟨_, rfl, remove_temporary_files_loop_listing_keeps cfg _ d hwf f hf h⟩
  | pack =>
    exact ⟨_, rfl, remove_temporary_files_loop_listing_keeps cfg _ d hwf f hf h⟩

theorem sweep_dir_state (cfg : Config) (env : Env) (objdir : CStr) (s : Store) (loc : Loc)
    (hv : loc.visited) :
    (sweep cfg env objdir s).1.dir loc = (sweep_dir cfg env objdir loc (s.dir loc)).1 := by
  cases loc with
  | bucket i =>
    have hi : i < 256 := hv
    simp [Store.dir, sweep_dir, sweep_buckets, hi, Loc.path]
  | root => simp [Store.dir, sweep_dir, sweep_root, Loc.path]
  | pack => simp [Store.dir, sweep_dir, sweep_pack, Loc.path]

theorem mem_sweep_events_loc {cfg : Config} {env : Env} {objdir : CStr} {s : Store} {e : Event}
    (h : e ∈ (sweep cfg env objdir s).2) :
    ∃ loc : Loc, loc.visited ∧ e ∈ (sweep_dir cfg env objdir loc (s.dir loc)).2 := by
  rcases mem_sweep_events h with ⟨j, hj, he⟩ | he | he
  · exact ⟨Loc.bucket j, hj, he⟩
  · exact ⟨Loc.root, trivial, he⟩
  · exact ⟨Loc.pack, trivial, he⟩

/-! ## Facts that need no well-formedness: which names are touched -/

theorem unlink_or_warn_unlink (p n : CStr) (d : Directory) (q : CStr)
    (h : Event.unlink q ∈ (unlink_or_warn p n d).2) : q = p := by
  unfold unlink_or_warn at h
  cases hf : d.find? (fun f => decide (f.name = n)) with
  | none => simpa [hf] using h
  | some f => by_cases hu : f.unlinkable = true <;> simpa [hf, hu] using h

theorem unlink_or_warn_keeps (p n : CStr) (d : Directory) (g : File) (hg : g ∈ d)
    (hn : g.name ≠ n) : g ∈ (unlink_or_warn p n d).1 := by
  unfold unlink_or_warn
  cases hf : d.find? (fun f => decide (f.name = n)) with
  | none => simpa using hg
  | some f =>
    by_cases hu : f.unlinkable = true
    · simp only [hu, if_true]
      rw [List.mem_eraseP_of_neg (by simpa using hn)]
      exact hg
    · simpa [hu] using hg

theorem prune_tmp_object_unlink (cfg : Config) (path n : CStr) (d : Directory) (q : CStr)
    (h : Event.unlink q ∈ (prune_tmp_object cfg path n d).2.2) : q = mkpath path n := by
  unfold prune_tmp_object at h
  cases hl : lstat d n with
  | none => simp [hl] at h
  | some m =>
    by_cases hg : st_mtime_gt m cfg.expire = true
    · simp [hl, hg] at h
    · by_cases hs : cfg.show_only = true
      · by_cases hv : cfg.verbose = true <;> simp [hl, hg, hs, hv] at h
      · by_cases hv : cfg.verbose = true <;> simp [hl, hg, hs, hv] at h <;>
          exact unlink_or_warn_unlink _ _ _ _ h

theorem prune_tmp_object_keeps (cfg : Config) (path n : CStr) (d : Directory) (g : File)
    (hg : g ∈ d) (hn : g.name ≠ n) : g ∈ (prune_tmp_object cfg path n d).2.1 := by
  unfold prune_tmp_object
  cases hl : lstat d n with
  | none => simpa using hg
  | some m =>
    by_cases hgt : st_mtime_gt m cfg.expire = true
    · simpa [hgt] using hg
    · by_cases hs : cfg.show_only = true
      · simpa [hgt, hs] using hg
      · simpa [hgt, hs] using unlink_or_warn_keeps _ n d g hg hn

theorem prune_object_unlink (cfg : Config) (env : Env) (path n : CStr) (sha1 : List Nat)
    (d : Directory) (q : CStr)
    (h : Event.unlink q ∈ (prune_object cfg env path n sha1 d).2.2) : q = mkpath path n := by
  unfold prune_object at h
  cases hl : lstat d n with
  | none => simp [hl] at h
  | some m =>
    by_cases hg : st_mtime_gt m cfg.expire = true
    · simp [hl, hg] at h
    · by_cases hs : cfg.show_only = true
      · by_cases hv : cfg.verbose = true <;> simp [hl, hg, hs, hv] at h
      · by_cases hv : cfg.verbose = true <;> simp [hl, hg, hs, hv] at h <;>
          exact unlink_or_warn_unlink _ _ _ _ h

theorem prune_object_keeps (cfg : Config) (env : Env) (path n : CStr) (sha1 : List Nat)
    (d : Directory) (g : File) (hg : g ∈ d) (hn : g.name ≠ n) :
    g ∈ (prune_object cfg env path n sha1 d).2.1 := by
  unfold prune_object
  cases hl : lstat d n with
  | none => simpa using hg
  | some m =>
    by_cases hgt : st_mtime_gt m cfg.expire = true
    · simpa [hgt] using hg
    · by_cases hs : cfg.show_only = true
      · simpa [hgt, hs] using hg
      · simpa [hgt, hs] using unlink_or_warn_keeps _ n d g hg hn

theorem prune_dir_loop_unlink_name (cfg : Config) (env : Env) (i : Nat) (path : CStr) (q : CStr) :
    ∀ (names : List CStr) (d : Directory),
      Event.unlink q ∈ (prune_dir_loop cfg env i path names d).2 →
        ∃ n ∈ names, q = mkpath path n ∧ bucket_target env i n = true := by
  intro names
  induction names with
  | nil => intro d h; simp [prune_dir_loop] at h
  | cons n rest ih =>
    intro d h
    have lift : ∀ d', Event.unlink q ∈ (prune_dir_loop cfg env i path rest d').2 →
        ∃ n' ∈ n :: rest, q = mkpath path n' ∧ bucket_target env i n' = true := by
      intro d' h'
      obtain ⟨n', hn', hq⟩ := ih d' h'
      exact ⟨n', List.mem_cons_of_mem _ hn', hq⟩
    by_cases hd : is_dot_or_dotdot n = true
    · simp only [prune_dir_loop, hd, if_true] at h
      exact lift d h
    · by_cases hl : n.length = 38
      · cases hg : get_sha1_hex (fmt02x i ++ n) with
        | none => simp [prune_dir_loop, hd, hl, hg] at h
        | some sha1 =>
          by_cases hr : env.lookup_object sha1 = true
          · simp only [prune_dir_loop, hd, hl, hg, hr, if_true, if_false,
              Bool.false_eq_true] at h
            exact lift d h
          · simp only [prune_dir_loop, hd, hl, hg, hr, if_true, if_false,
              Bool.false_eq_true, List.mem_append] at h
            rcases h with h | h
            · exact ⟨n, by simp, prune_object_unlink _ _ _ _ _ _ _ h,
                by simp [bucket_target, hd, hl, hg, hr]⟩
            · exact lift _ h
      · by_cases hp : not_prefixcmp n tmp_obj_ = true
        · simp only [prune_dir_loop, hd, hl, hp, if_true, if_false,
            Bool.false_eq_true, List.mem_append] at h
          rcases h with h | h
          · exact ⟨n, by simp, prune_tmp_object_unlink _ _ _ _ _ h,
              by simp [bucket_target, hd, hl, hp]⟩
          · exact lift _ h
        · simp only [prune_dir_loop, hd, hl, hp, if_false, Bool.false_eq_true,
            List.mem_cons] at h
          rcases h with h | h
          · cases h
          · exact lift _ h

theorem prune_dir_loop_keeps_name (cfg : Config) (env : Env) (i : Nat) (path : CStr) (g : File)
    (ht : bucket_target env i g.name = false) :
    ∀ (names : List CStr) (d : Directory), g ∈ d →
      g ∈ (prune_dir_loop cfg env i path names d).1 := by
  intro names
  induction names with
  | nil => intro d h; simpa [prune_dir_loop] using h
  | cons n rest ih =>
    intro d h
    by_cases hd : is_dot_or_dotdot n = true
    · simpa [prune_dir_loop, hd] using ih d h
    · by_cases hl : n.length = 38
      · cases hg : get_sha1_hex (fmt02x i ++ n) with
        | none => simpa [prune_dir_loop, hd, hl, hg] using h
        | some sha1 =>
          by_cases hr : env.lookup_object sha1 = true
          · simpa [prune_dir_loop, hd, hl, hg, hr] using ih d h
          · have hne : g.name ≠ n := by
              intro he
              rw [he] at ht
              simp [bucket_target, hd, hl, hg, hr] at ht
            simpa [prune_dir_loop, hd, hl, hg, hr] using
              ih _ (prune_object_keeps cfg env path n sha1 d g h hne)
      · by_cases hp : not_prefixcmp n tmp_obj_ = true
        · have hne : g.name ≠ n := by
            intro he
            rw [he] at ht
            simp [bucket_target, hd, hl, hp] at ht
          simpa [prune_dir_loop, hd, hl, hp] using
            ih _ (prune_tmp_object_keeps cfg path n d g h hne)
        · simpa [prune_dir_loop, hd, hl, hp] using ih d h

theorem remove_temporary_files_loop_unlink_name (cfg : Config) (path : CStr) (q : CStr) :
    ∀ (names : List CStr) (d : Directory),
      Event.unlink q ∈ (remove_temporary_files_loop cfg path names d).2 →
        ∃ n ∈ names, q = mkpath path n ∧ not_prefixcmp n tmp_ = true := by
  intro names
  induction names with
  | nil => intro d h; simp [remove_temporary_files_loop] at h
  | cons n rest ih =>
    intro d h
    by_cases hp : not_prefixcmp n tmp_ = true
    · simp only [remove_temporary_files_loop, hp, if_true, List.mem_append] at h
      rcases h with h | h
      · exact ⟨n, by simp, prune_tmp_object_unlink _ _ _ _ _ h, hp⟩
      · obtain ⟨n', hn', hq⟩ := ih _ h
        exact ⟨n', List.mem_cons_of_mem _ hn', hq⟩
    · simp only [remove_temporary_files_loop, hp, if_false, Bool.false_eq_true] at h
      obtain ⟨n', hn', hq⟩ := ih _ h
      exact ⟨n', List.mem_cons_of_mem _ hn', hq⟩

theorem sweep_dir_unlink_name (cfg : Config) (env : Env) (objdir : CStr) (loc : Loc)
    (od : Option Directory) (q : CStr)
    (h : Event.unlink q ∈ (sweep_dir cfg env objdir loc od).2) :
    ∃ n, q = mkpath (loc.path objdir) n ∧ loc.target env n = true := by
  cases od with
  | none => cases loc <;> simp [sweep_dir, prune_dir, remove_temporary_files] at h
  | some d =>
    cases loc with
    | bucket i =>
      simp only [sweep_dir, prune_dir] at h
      have h' : Event.unlink q ∈
          (prune_dir_loop cfg env i (Loc.path objdir (Loc.bucket i)) (d.map File.name) d).2 := by
        by_cases hs : cfg.show_only = true
        · simpa [hs] using h
        · simpa [hs] using h
      obtain ⟨n, _, hq⟩ := prune_dir_loop_unlink_name cfg env i _ q _ d h'
      exact ⟨n, hq⟩
    | root =>
      obtain ⟨n, _, hq⟩ := remove_temporary_files_loop_unlink_name cfg _ q _ d h
      exact ⟨n, hq⟩
    | pack =>
      obtain ⟨n, _, hq⟩ := remove_temporary_files_loop_unlink_name cfg _ q _ d h
      exact ⟨n, hq⟩

/-! ## Reachable objects and fresh files are kept -/

theorem not_dot_of_length {n : CStr} (h : 2 < n.length) : is_dot_or_dotdot n = false := by
  unfold is_dot_or_dotdot
  have h1 : n ≠ ['.'] := by intro he; rw [he] at h; simp at h
  have h2 : n ≠ ['.', '.'] := by intro he; rw [he] at h; simp at h
  simp [h1, h2]

/-- C1: whatever the store, the reachable set, the cutoff and the flags, the
sweep never calls `unlink` on the path of a 38-character bucket entry whose
reconstructed ObjectId `lookup_object` knows, and the entry is still in its
bucket afterwards, whatever its mtime. -/
theorem reachable_object_never_unlinked (cfg : Config) (env : Env) (objdir : CStr) (s : Store)
    (i : Nat) (hi : i < 256) (d : Directory) (hd : s.buckets i = some d)
    (f : File) (hf : f ∈ d) (hlen : f.name.length = 38)
    (sha1 : List Nat) (hdec : get_sha1_hex (fmt02x i ++ f.name) = some sha1)
    (hreach : env.lookup_object sha1 = true) :
    Event.unlink (mkpath (objdir ++ '/' :: fmt02x i) f.name) ∉ (sweep cfg env objdir s).2 ∧
      ∃ d', (sweep cfg env objdir s).1.buckets i = some d' ∧ f ∈ d' := by
  have ht : bucket_target env i f.name = false := by
    simp [bucket_target, hlen, hdec, hreach]
  constructor
  · intro h
    obtain ⟨loc, hv, he⟩ := mem_sweep_events_loc h
    obtain ⟨n, hq, htn⟩ := sweep_dir_unlink_name cfg env objdir loc _ _ he
    have hinj := @mkpath_loc_inj objdir (Loc.bucket i) loc _ _ hi hv
      (fun hc => by cases hc) (fun hc => by subst hc; exact htn) hq
    rw [← hinj.1, ← hinj.2] at htn
    simp only [Loc.target] at htn
    rw [ht] at htn
    cases htn
  · rw [sweep_buckets, if_pos hi, hd]
    have hk := prune_dir_loop_keeps_name cfg env i (objdir ++ '/' :: fmt02x i) f ht
      (d.map File.name) d hf
    have hdot : is_dot_or_dotdot f.name = false := not_dot_of_length (by omega)
    by_cases hs : cfg.show_only = true
    · exact ⟨_, by simp [prune_dir, hs], hk⟩
    · exact ⟨_, by simp [prune_dir, hs, rmdir_of_mem hk hdot], hk⟩

theorem reachable_object_never_unlinked_witness :
    ex_reachable_object ∈ ex_bucket ∧
    get_sha1_hex (fmt02x 0xaa ++ ex_reachable_object.name) = some (0xaa :: List.replicate 19 0x11) ∧
    (Event.unlink (mkpath (ex_objdir ++ '/' :: fmt02x 0xaa) ex_reachable_object.name) ∉
        (sweep ex_cfg ex_env ex_objdir ex_store).2 ∧
      ∃ d', (sweep ex_cfg ex_env ex_objdir ex_store).1.buckets 0xaa = some d' ∧
        ex_reachable_object ∈ d') :=
  ⟨by decide, by decide,
    reachable_object_never_unlinked ex_cfg ex_env ex_objdir ex_store 0xaa (by decide) ex_bucket rfl
      ex_reachable_object (by decide) (by decide) (0xaa :: List.replicate 19 0x11) (by decide)
      (by decide)⟩

theorem expired_of_newer (cfg : Config) (f : File) (m : Int) (hm : f.st_mtime = some m)
    (hr : time_t_range m) (hnew : (cfg.expire : Int) < m) : expired cfg f = false := by
  have h0 : (0 : Int) ≤ cfg.expire := Int.ofNat_nonneg _
  have h2 := hr.2
  have hlt : (cfg.expire : Int) < m % 2 ^ 64 := by omega
  simp only [expired, hm, st_mtime_gt, hlt, decide_True, Bool.not_true]

theorem eq_of_name_eq {d : Directory} (hwf : Directory.wf d) {f g : File} (hf : f ∈ d)
    (hg : g ∈ d) (h : f.name = g.name) : f = g :=
  List.inj_on_of_nodup_map hwf hf hg h

/-- C2: a file whose mtime is strictly greater than the cutoff (an entry of a
bucket or of `pack` other than `.` and `..`, or a `tmp_` entry of the object
directory) is never passed to `unlink` by the sweep and is still in its
directory afterwards, whether or not it is reachable and whatever the flags. -/
theorem newer_than_cutoff_never_unlinked (cfg : Config) (env : Env) (objdir : CStr) (s : Store)
    (loc : Loc) (hv : loc.visited) (d : Directory) (hd : s.dir loc = some d)
    (hwf : Directory.wf d) (f : File) (hf : f ∈ d)
    (hdot : is_dot_or_dotdot f.name = false)
    (hroot : loc = Loc.root → not_prefixcmp f.name tmp_ = true)
    (m : Int) (hm : f.st_mtime = some m) (hr : time_t_range m)
    (hnew : (cfg.expire : Int) < m) :
    Event.unlink (mkpath (loc.path objdir) f.name) ∉ (sweep cfg env objdir s).2 ∧
      ∃ d', (sweep cfg env objdir s).1.dir loc = some d' ∧ f ∈ d' := by
  have hx : expired cfg f = false := expired_of_newer cfg f m hm hr hnew
  constructor
  · intro h
    obtain ⟨loc', hv', he⟩ := mem_sweep_events_loc h
    obtain ⟨n, hq, htn⟩ := sweep_dir_unlink_name cfg env objdir loc' _ _ he
    have hinj := @mkpath_loc_inj objdir loc loc' _ _ hv hv' hroot
      (fun hc => by subst hc; exact htn) hq
    rw [← hinj.1, hd] at he
    obtain ⟨g, hg, hp, _, _, hgx⟩ := sweep_dir_unlink cfg env objdir loc d hwf _ he
    have hfg : f = g := eq_of_name_eq hwf hf hg (mkpath_inj hp)
    rw [← hfg, hx] at hgx
    cases hgx
  · rw [sweep_dir_state cfg env objdir s loc hv, hd]
    exact sweep_dir_keeps cfg env objdir loc d hwf f hf hdot (by simp [hx])

theorem newer_than_cutoff_never_unlinked_witness :
    ex_new_tmp ∈ ex_bucket ∧ Directory.wf ex_bucket ∧ ex_new_tmp.st_mtime = some 2000 ∧
    ((ex_cfg.expire : Int) < 2000) ∧
    (Event.unlink (mkpath ((Loc.bucket 0xaa).path ex_objdir) ex_new_tmp.name) ∉
        (sweep ex_cfg ex_env ex_objdir ex_store).2 ∧
      ∃ d', (sweep ex_cfg ex_env ex_objdir ex_store).1.dir (Loc.bucket 0xaa) = some d' ∧
        ex_new_tmp ∈ d') :=
  ⟨by decide, by decide, rfl, by decide,
    newer_than_cutoff_never_unlinked ex_cfg ex_env ex_objdir ex_store (Loc.bucket 0xaa)
      (by decide) ex_bucket rfl (by decide) ex_new_tmp (by decide) (by decide)
      (fun hc => by cases hc) 2000 rfl (by decide) (by decide)⟩

theorem dry_run_no_mutation_witness :
    ex_cfg_dry.show_only = true ∧
    ((sweep ex_cfg_dry ex_env ex_objdir ex_store).1 = ex_store ∧
      ∀ e ∈ (sweep ex_cfg_dry ex_env ex_objdir ex_store).2, e.is_mutation = false) :=
  ⟨rfl, dry_run_no_mutation ex_cfg_dry ex_env ex_objdir ex_store rfl⟩

/-! ## The expiry test `st.st_mtime > expire` -/

theorem st_mtime_gt_nonneg (m : Int) (c : Nat) (hr : time_t_range m) (h0 : 0 ≤ m) :
    st_mtime_gt m c = false ↔ m ≤ c := by
  have h2 := hr.2
  simp only [st_mtime_gt, decide_eq_false_iff_not, not_lt]
  omega

theorem st_mtime_gt_neg (m : Int) (c : Nat) (hr : time_t_range m) (h0 : m < 0) :
    st_mtime_gt m c = false ↔ m + 2 ^ 64 ≤ c := by
  have h1 := hr.1
  simp only [st_mtime_gt, decide_eq_false_iff_not, not_lt]
  omega

theorem expired_iff_mod (cfg : Config) (f : File) (m : Int) (hm : f.st_mtime = some m) :
    expired cfg f = true ↔ m % 2 ^ 64 ≤ (cfg.expire : Int) := by
  simp [expired, hm, st_mtime_gt]

theorem prune_object_unlink_iff (cfg : Config) (env : Env) (path n : CStr) (sha1 : List Nat)
    (d : Directory) (m : Int) (hl : lstat d n = some m) (hs : cfg.show_only = false) :
    Event.unlink (mkpath path n) ∈ (prune_object cfg env path n sha1 d).2.2 ↔
      st_mtime_gt m cfg.expire = false := by
  unfold prune_object
  by_cases hg : st_mtime_gt m cfg.expire = true
  · simp [hl, hg]
  · simp only [hl, hg, hs, if_false, Bool.false_eq_true, Bool.not_false, if_true,
      Bool.not_eq_true, iff_true]
    apply List.mem_cons_of_mem
    apply List.mem_append_right
    unfold unlink_or_warn
    cases hf : d.find? (fun f => decide (f.name = n)) with
    | none => simp
    | some f => by_cases hu : f.unlinkable = true <;> simp [hu]

theorem prune_tmp_object_unlink_iff (cfg : Config) (path n : CStr)
    (d : Directory) (m : Int) (hl : lstat d n = some m) (hs : cfg.show_only = false) :
    Event.unlink (mkpath path n) ∈ (prune_tmp_object cfg path n d).2.2 ↔
      st_mtime_gt m cfg.expire = false := by
  unfold prune_tmp_object
  by_cases hg : st_mtime_gt m cfg.expire = true
  · simp [hl, hg]
  · simp only [hl, hg, hs, if_false, Bool.false_eq_true, Bool.not_false, if_true,
      Bool.not_eq_true, iff_true]
    apply List.mem_cons_of_mem
    apply List.mem_append_right
    unfold unlink_or_warn
    cases hf : d.find? (fun f => decide (f.name = n)) with
    | none => simp
    | some f => by_cases hu : f.unlinkable = true <;> simp [hu]

/-- C9, as the claim states it, fails: a file with the pre-epoch mtime -1 and
cutoff 0 has mtime <= cutoff as integers, yet the test `st.st_mtime > expire`
is true, and an execute run of `prune_object` and of `prune_tmp_object` leaves
the file in place without calling `unlink`. -/
theorem expiry_test_counterexample :
    time_t_range (-1) ∧ (0 : Nat) ≤ ULONG_MAX ∧ ((-1 : Int) ≤ ((0 : Nat) : Int)) ∧
    st_mtime_gt (-1) 0 = true ∧
    prune_object ⟨false, false, 0⟩ ex_env ex_objdir ['f'] [] [⟨['f'], some (-1), true⟩] =
      (0, [⟨['f'], some (-1), true⟩], [Event.lstat (mkpath ex_objdir ['f'])]) ∧
    prune_tmp_object ⟨false, false, 0⟩ ex_objdir ['f'] [⟨['f'], some (-1), true⟩] =
      (0, [⟨['f'], some (-1), true⟩], [Event.lstat (mkpath ex_objdir ['f'])]) := by
  decide

/-- C9, amended: the expiry test is the unsigned comparison. For an mtime in
the range of `time_t` and any cutoff, the test `st.st_mtime > expire` is false
(the file is eligible) iff mtime <= cutoff when mtime >= 0, and iff
mtime + 2^64 <= cutoff when mtime < 0; and in an execute run `prune_object`
and `prune_tmp_object` call `unlink` on a file they can stat exactly when the
test is false. -/
theorem expiry_test_unsigned (m : Int) (c : Nat) (hr : time_t_range m) :
    (0 ≤ m → (st_mtime_gt m c = false ↔ m ≤ c)) ∧
    (m < 0 → (st_mtime_gt m c = false ↔ m + 2 ^ 64 ≤ c)) ∧
    (∀ (cfg : Config) (env : Env) (path n : CStr) (sha1 : List Nat) (d : Directory),
      cfg.expire = c → cfg.show_only = false → lstat d n = some m →
        ((Event.unlink (mkpath path n) ∈ (prune_object cfg env path n sha1 d).2.2 ↔
            st_mtime_gt m c = false) ∧
          (Event.unlink (mkpath path n) ∈ (prune_tmp_object cfg path n d).2.2 ↔
            st_mtime_gt m c = false))) := by
  refine ⟨st_mtime_gt_nonneg m c hr, st_mtime_gt_neg m c hr, ?_⟩
  intro cfg env path n sha1 d hc hs hl
  subst hc
  exact ⟨prune_object_unlink_iff cfg env path n sha1 d m hl hs,
    prune_tmp_object_unlink_iff cfg path n d m hl hs⟩

theorem expiry_test_unsigned_witness :
    time_t_range (-5) ∧
    ((0 ≤ (-5 : Int) → (st_mtime_gt (-5) 1000 = false ↔ (-5 : Int) ≤ (1000 : Nat))) ∧
    ((-5 : Int) < 0 → (st_mtime_gt (-5) 1000 = false ↔ (-5 : Int) + 2 ^ 64 ≤ (1000 : Nat))) ∧
    (∀ (cfg : Config) (env : Env) (path n : CStr) (sha1 : List Nat) (d : Directory),
      cfg.expire = 1000 → cfg.show_only = false → lstat d n = some (-5) →
        ((Event.unlink (mkpath path n) ∈ (prune_object cfg env path n sha1 d).2.2 ↔
            st_mtime_gt (-5) 1000 = false) ∧
          (Event.unlink (mkpath path n) ∈ (prune_tmp_object cfg path n d).2.2 ↔
            st_mtime_gt (-5) 1000 = false)))) :=
  ⟨by decide, expiry_test_unsigned (-5) 1000 (by decide)⟩

/-- C10: with the default cutoff `expire = ULONG_MAX` the test
`st.st_mtime > expire` is false for every mtime, so in an execute run
`prune_object` and `prune_tmp_object` call `unlink` on every file that `lstat`
can stat: the age test never protects a file. -/
theorem default_cutoff_never_protects (cfg : Config) (hc : cfg.expire = ULONG_MAX) (m : Int) :
    st_mtime_gt m cfg.expire = false ∧
    (∀ (env : Env) (path n : CStr) (sha1 : List Nat) (d : Directory),
      cfg.show_only = false → lstat d n = some m →
        Event.unlink (mkpath path n) ∈ (prune_object cfg env path n sha1 d).2.2 ∧
        Event.unlink (mkpath path n) ∈ (prune_tmp_object cfg path n d).2.2) := by
  have hg : st_mtime_gt m cfg.expire = false := by
    have h1 : m % 2 ^ 64 < 2 ^ 64 := Int.emod_lt_of_pos m (by norm_num)
    rw [hc]
    simp only [st_mtime_gt, ULONG_MAX, decide_eq_false_iff_not, not_lt]
    have h2 : ((2 ^ 64 - 1 : Nat) : Int) = 2 ^ 64 - 1 := by norm_num
    rw [h2]
    omega
  refine ⟨hg, ?_⟩
  intro env path n sha1 d hs hl
  exact ⟨(prune_object_unlink_iff cfg env path n sha1 d m hl hs).mpr hg,
    (prune_tmp_object_unlink_iff cfg path n d m hl hs).mpr hg⟩

theorem default_cutoff_never_protects_witness :
    (Config.mk false true ULONG_MAX).expire = ULONG_MAX ∧
    (st_mtime_gt (-1) (Config.mk false true ULONG_MAX).expire = false ∧
    (∀ (env : Env) (path n : CStr) (sha1 : List Nat) (d : Directory),
      (Config.mk false true ULONG_MAX).show_only = false → lstat d n = some (-1) →
        Event.unlink (mkpath path n) ∈
          (prune_object (Config.mk false true ULONG_MAX) env path n sha1 d).2.2 ∧
        Event.unlink (mkpath path n) ∈
          (prune_tmp_object (Config.mk false true ULONG_MAX) path n d).2.2)) :=
  ⟨rfl, default_cutoff_never_protects (Config.mk false true ULONG_MAX) rfl (-1)⟩

/-! ## Prunable objects are deleted -/

theorem mem_takeWhile_of_prefix {α : Type} (p : α → Bool) (pre post : List α) (f : α)
    (hpre : ∀ g ∈ pre, p g = true) (hf : p f = true) :
    f ∈ (pre ++ f :: post).takeWhile p := by
  induction pre with
  | nil => simp [List.takeWhile_cons, hf]
  | cons a pre ih =>
    have ha : p a = true := hpre a (by simp)
    simp only [List.cons_append, List.takeWhile_cons, ha, if_true]
    exact List.mem_cons_of_mem _ (ih (fun g hg => hpre g (by simp [hg])))

theorem dropWhile_of_prefix {α : Type} (p : α → Bool) (pre post : List α) (f : α)
    (hpre : ∀ g ∈ pre, p g = true) (hf : p f = true) :
    (pre ++ f :: post).dropWhile p = post.dropWhile p := by
  induction pre with
  | nil => simp [List.dropWhile_cons, hf]
  | cons a pre ih =>
    have ha : p a = true := hpre a (by simp)
    simp only [List.cons_append, List.dropWhile_cons, ha, if_true]
    exact ih (fun g hg => hpre g (by simp [hg]))

theorem stops_scan_of_target {env : Env} {i : Nat} {n : CStr}
    (h : bucket_target env i n = true) : stops_scan i n = false := by
  unfold stops_scan
  unfold bucket_target at h
  by_cases hd : is_dot_or_dotdot n = true
  · simp [hd]
  · by_cases hl : n.length = 38
    · cases hg : get_sha1_hex (fmt02x i ++ n) with
      | none => simp [hd, hl, hg] at h
      | some sha1 => simp [hd, hl]
    · simp [hd, hl]

theorem prune_dir_loop_listing_removes (cfg : Config) (env : Env) (i : Nat) (path : CStr)
    (pre post : Directory) (f : File) (hwf : Directory.wf (pre ++ f :: post))
    (hpre : ∀ g ∈ pre, stops_scan i g.name = false)
    (hs : cfg.show_only = false) (ht : bucket_target env i f.name = true)
    (hx : expired cfg f = true) (hu : f.unlinkable = true) :
    Event.unlink (mkpath path f.name) ∈
        (prune_dir_loop cfg env i path ((pre ++ f :: post).map File.name) (pre ++ f :: post)).2 ∧
      ∀ g ∈ (prune_dir_loop cfg env i path ((pre ++ f :: post).map File.name)
        (pre ++ f :: post)).1, g.name ≠ f.name := by
  have hpre' : ∀ g ∈ pre, (fun f => !stops_scan i f.name) g = true := by
    intro g hg; simp [hpre g hg]
  have hf' : (fun f => !stops_scan i f.name) f = true := by
    simp [stops_scan_of_target ht]
  have hfpost : f ∉ post := by
    intro hm
    have hnd : (pre ++ f :: post).Nodup := List.Nodup.of_map _ hwf
    rw [List.nodup_append] at hnd
    exact (List.nodup_cons.mp hnd.2.1).1 hm
  constructor
  · rw [prune_dir_loop_listing_events cfg env i path _ hwf, List.mem_flatMap]
    exact ⟨f, mem_takeWhile_of_prefix _ pre post f hpre' hf',
      (prune_dir_loop_one_unlink cfg env i path f _).mpr ⟨rfl, hs, ht, hx⟩⟩
  · intro g hg hname
    have hsub := prune_dir_loop_listing_sublist cfg env i path _ hwf
    have hgf : g = f := eq_of_name_eq hwf (hsub.subset hg) (by simp) hname
    rw [hgf, prune_dir_loop_listing_state cfg env i path _ hwf, List.mem_append,
      dropWhile_of_prefix _ pre post f hpre' hf'] at hg
    rcases hg with hg | hg
    · rw [List.mem_flatMap] at hg
      obtain ⟨a, _, hfa⟩ := hg
      have haf : f = a := prune_dir_loop_one_state_subset cfg env i path a f hfa
      rw [← haf, prune_dir_loop_one_state] at hfa
      simp [hs, ht, hx, hu] at hfa
    · exact hfpost ((List.dropWhile_sublist _).subset hg)

/-- C4, as the claim states it, fails in two ways. An unreachable object with
the pre-epoch mtime -1 has mtime <= cutoff 1000, and stat and unlink succeed
on it, yet the execute sweep leaves it in bucket `aa`. And an old unreachable
object listed after a 38-character entry that is not hexadecimal is left in
place too, because the scan of the bucket stops at that entry. -/
theorem prunable_object_survives :
    (ex_pre_epoch_object.name.length = 38 ∧
      get_sha1_hex (fmt02x 0xaa ++ ex_pre_epoch_object.name) =
        some (0xaa :: List.replicate 19 0) ∧
      ex_env.lookup_object (0xaa :: List.replicate 19 0) = false ∧
      ex_pre_epoch_object.st_mtime = some (-1) ∧ ((-1 : Int) ≤ (ex_cfg.expire : Int)) ∧
      ex_pre_epoch_object.unlinkable = true ∧ ex_cfg.show_only = false ∧
      (sweep ex_cfg ex_env ex_objdir ex_store_pre_epoch).1.buckets 0xaa =
        some [ex_pre_epoch_object]) ∧
    (ex_old_object.name.length = 38 ∧
      get_sha1_hex (fmt02x 0xaa ++ ex_old_object.name) = some (0xaa :: List.replicate 19 0) ∧
      ex_old_object.st_mtime = some 100 ∧ ((100 : Int) ≤ (ex_cfg.expire : Int)) ∧
      ex_old_object.unlinkable = true ∧
      (sweep ex_cfg ex_env ex_objdir ex_store_break).1.buckets 0xaa =
        some [ex_bad_name, ex_old_object, ex_junk]) := by
  decide

/-- C4, amended: in an execute run, a 38-character entry of a bucket with
distinct names that decodes to an ObjectId `lookup_object` does not know, on
which `lstat` and `unlink` succeed, whose mtime passes the unsigned age test
of the code, mtime mod 2^64 <= cutoff, and before which the listing has no
38-character entry that fails to decode, is passed to `unlink` and is no
longer in the bucket when the sweep ends. -/
theorem prunable_object_deleted (cfg : Config) (env : Env) (objdir : CStr) (s : Store)
    (hs : cfg.show_only = false) (i : Nat) (hi : i < 256)
    (pre post : Directory) (f : File) (hd : s.buckets i = some (pre ++ f :: post))
    (hwf : Directory.wf (pre ++ f :: post))
    (hpre : ∀ g ∈ pre, g.name.length = 38 → get_sha1_hex (fmt02x i ++ g.name) ≠ none)
    (hlen : f.name.length = 38) (sha1 : List Nat)
    (hdec : get_sha1_hex (fmt02x i ++ f.name) = some sha1)
    (hreach : env.lookup_object sha1 = false)
    (m : Int) (hm : f.st_mtime = some m)
    (hold : m % 2 ^ 64 ≤ (cfg.expire : Int)) (hu : f.unlinkable = true) :
    Event.unlink (mkpath (objdir ++ '/' :: fmt02x i) f.name) ∈ (sweep cfg env objdir s).2 ∧
      ∀ d', (sweep cfg env objdir s).1.buckets i = some d' → ∀ g ∈ d', g.name ≠ f.name := by
  have hdot : is_dot_or_dotdot f.name = false := not_dot_of_length (by omega)
  have ht : bucket_target env i f.name = true := by
    simp [bucket_target, hdot, hlen, hdec, hreach]
  have hx : expired cfg f = true := (expired_iff_mod cfg f m hm).mpr hold
  have hpre' : ∀ g ∈ pre, stops_scan i g.name = false := by
    intro g hg
    unfold stops_scan
    by_cases hl : g.name.length = 38
    · cases hgd : get_sha1_hex (fmt02x i ++ g.name) with
      | none => exact absurd hgd (hpre g hg hl)
      | some x => simp
    · simp [hl]
  have hrem := prune_dir_loop_listing_removes cfg env i (objdir ++ '/' :: fmt02x i)
    pre post f hwf hpre' hs ht hx hu
  constructor
  · rw [sweep_events]
    apply List.mem_append_left
    apply List.mem_append_left
    rw [List.mem_flatMap]
    refine ⟨i, List.mem_range.mpr hi, ?_⟩
    rw [hd]
    simp only [prune_dir, hs, Bool.not_false, if_true]
    exact List.mem_append_left _ hrem.1
  · intro d' hd'
    rw [sweep_buckets, if_pos hi, hd] at hd'
    simp only [prune_dir, hs, Bool.not_false, if_true, rmdir] at hd'
    split at hd'
    · cases hd'
    · cases hd'
      exact hrem.2

theorem prunable_object_deleted_witness :
    ex_store_pre_epoch.buckets 0xaa = some ([] ++ ex_pre_epoch_object :: []) ∧
    ex_pre_epoch_object.st_mtime = some (-1) ∧
    ((-1 : Int) % 2 ^ 64 ≤ ((Config.mk false false ULONG_MAX).expire : Int)) ∧
    (Event.unlink (mkpath (ex_objdir ++ '/' :: fmt02x 0xaa) ex_pre_epoch_object.name) ∈
        (sweep ⟨false, false, ULONG_MAX⟩ ex_env ex_objdir ex_store_pre_epoch).2 ∧
      ∀ d', (sweep ⟨false, false, ULONG_MAX⟩ ex_env ex_objdir ex_store_pre_epoch).1.buckets 0xaa =
          some d' →
        ∀ g ∈ d', g.name ≠ ex_pre_epoch_object.name) :=
  ⟨rfl, rfl, by decide,
    prunable_object_deleted ⟨false, false, ULONG_MAX⟩ ex_env ex_objdir ex_store_pre_epoch rfl
      0xaa (by decide) [] [] ex_pre_epoch_object rfl (by decide) (by decide) (by decide)
      (0xaa :: List.replicate 19 0) (by decide) (by decide) (-1) rfl (by decide) rfl⟩

/-! ## Idempotence of the sweep -/

theorem prune_dir_idem (cfg : Config) (env : Env) (i : Nat) (path : CStr)
    (od : Option Directory) (hwf : ∀ d, od = some d → Directory.wf d) :
    (prune_dir cfg env i path (prune_dir cfg env i path od).2.1).2.1 =
      (prune_dir cfg env i path od).2.1 := by
  cases od with
  | none => simp [prune_dir]
  | some d =>
    have hid := prune_dir_loop_idem cfg env i path d (hwf d rfl)
    by_cases hs : cfg.show_only = true
    · simp [prune_dir, hs, hid]
    · simp only [Bool.not_eq_true] at hs
      simp only [prune_dir, hs, Bool.not_false, if_true]
      by_cases hall : (prune_dir_loop cfg env i path (d.map File.name) d).1.all
          (fun f => is_dot_or_dotdot f.name) = true
      · simp [rmdir, hall, prune_dir]
      · simp [rmdir, hall, prune_dir, hs, hid]

theorem remove_temporary_files_idem (cfg : Config) (path : CStr)
    (od : Option Directory) (hwf : ∀ d, od = some d → Directory.wf d) :
    (remove_temporary_files cfg path (remove_temporary_files cfg path od).1).1 =
      (remove_temporary_files cfg path od).1 := by
  cases od with
  | none => simp [remove_temporary_files]
  | some d =>
    simp [remove_temporary_files, remove_temporary_files_loop_idem cfg path d (hwf d rfl)]

/-- C5: on a store whose directories have distinct names, running the sweep
(all buckets, then the temporary files of the object directory and of `pack`)
a second time on the store left by the first run changes nothing:
`sweep (sweep store) = sweep store`, in execute mode as with any other flags. -/
theorem sweep_idempotent (cfg : Config) (env : Env) (objdir : CStr) (s : Store)
    (hwf : Store.wf s) :
    (sweep cfg env objdir (sweep cfg env objdir s).1).1 = (sweep cfg env objdir s).1 := by
  apply Store.ext_fields
  · rw [sweep_root, sweep_root]
    exact remove_temporary_files_idem cfg objdir s.root (hwf Loc.root trivial)
  · intro j
    rw [sweep_buckets, sweep_buckets]
    by_cases hj : j < 256
    · simp only [hj, if_true]
      exact prune_dir_idem cfg env j _ (s.buckets j) (hwf (Loc.bucket j) hj)
    · simp only [hj, if_false]
  · rw [sweep_pack, sweep_pack]
    exact remove_temporary_files_idem cfg _ s.pack (hwf Loc.pack trivial)

theorem ex_store_wf : Store.wf ex_store := by
  intro loc hv d hd
  cases loc with
  | root =>
    have h : d = [⟨"tmp_pack_x".toList, some 500, true⟩, ⟨"info".toList, some 10, false⟩] := by
      simpa [Store.dir, ex_store] using hd.symm
    rw [h]; decide
  | bucket i =>
    by_cases hi : i = 0xaa
    · have h : d = ex_bucket := by simpa [Store.dir, ex_store, hi] using hd.symm
      rw [h]; decide
    · simp [Store.dir, ex_store, hi] at hd
  | pack =>
    have h : d = [⟨"tmp_idx_y".toList, some 5000, true⟩] := by
      simpa [Store.dir, ex_store] using hd.symm
    rw [h]; decide

theorem sweep_idempotent_witness :
    Store.wf ex_store ∧
    (sweep ex_cfg ex_env ex_objdir (sweep ex_cfg ex_env ex_objdir ex_store).1).1 =
      (sweep ex_cfg ex_env ex_objdir ex_store).1 :=
  ⟨ex_store_wf, sweep_idempotent ex_cfg ex_env ex_objdir ex_store ex_store_wf⟩

/-! ## The output of a dry run and of an execute run -/

theorem prune_dir_loop_bad_entry (cfg : Config) (env : Env) (i : Nat) (path : CStr)
    (n : CStr) (rest : List CStr) (d : Directory)
    (hdot : is_dot_or_dotdot n = false) (hlen : n.length ≠ 38)
    (hpfx : not_prefixcmp n tmp_obj_ = false) :
    prune_dir_loop cfg env i path (n :: rest) d =
      ((prune_dir_loop cfg env i path rest d).1,
        Event.stderr ("bad sha1 file: ".toList ++ path ++ '/' :: n ++ "\n".toList) ::
          (prune_dir_loop cfg env i path rest d).2) := by
  simp [prune_dir_loop, hdot, hlen, hpfx]

theorem prune_dir_loop_malformed (cfg : Config) (env : Env) (i : Nat) (path : CStr)
    (n : CStr) (rest : List CStr) (d : Directory)
    (hlen : n.length = 38) (hdec : get_sha1_hex (fmt02x i ++ n) = none) :
    prune_dir_loop cfg env i path (n :: rest) d = (d, []) := by
  have hdot : is_dot_or_dotdot n = false := not_dot_of_length (by omega)
  simp [prune_dir_loop, hdot, hlen, hdec]

/-- C7: the code at the failing input. In bucket `aa` the 38-character entry
`gg...g` does not decode; `prune_dir` prints no diagnostic for it and stops:
the old unreachable object and the stray file listed after it are neither
examined nor reported, and the trace is the final `rmdir` alone. Without that
entry the same listing has the object unlinked and the stray file reported. -/
theorem malformed_name_ends_scan :
    ex_bad_name.name.length = 38 ∧
    get_sha1_hex (fmt02x 0xaa ++ ex_bad_name.name) = none ∧
    prune_dir ex_cfg ex_env 0xaa (ex_objdir ++ '/' :: fmt02x 0xaa)
        (some [ex_bad_name, ex_old_object, ex_junk]) =
      (0, some [ex_bad_name, ex_old_object, ex_junk],
        [Event.rmdir (ex_objdir ++ '/' :: fmt02x 0xaa)]) ∧
    prune_dir ex_cfg ex_env 0xaa (ex_objdir ++ '/' :: fmt02x 0xaa)
        (some [ex_old_object, ex_junk]) =
      (0, some [ex_junk],
        [Event.lstat (mkpath (ex_objdir ++ '/' :: fmt02x 0xaa) ex_old_object.name),
         Event.unlink (mkpath (ex_objdir ++ '/' :: fmt02x 0xaa) ex_old_object.name),
         Event.stderr ("bad sha1 file: ".toList ++ (ex_objdir ++ '/' :: fmt02x 0xaa) ++
           '/' :: ex_junk.name ++ "\n".toList),
         Event.rmdir (ex_objdir ++ '/' :: fmt02x 0xaa)]) := by
  decide

/-- C8: the code at the failing input. The 37-character entry of bucket `aa`
is listed after a 38-character entry that does not decode; `prune_dir` stops
at that entry and prints no `bad sha1 file` line for the 37-character one.
Listed alone, the 37-character entry gets its `bad sha1 file` line. -/
theorem short_name_after_malformed_not_reported :
    ex_short_name.name.length = 37 ∧
    is_dot_or_dotdot ex_short_name.name = false ∧
    not_prefixcmp ex_short_name.name tmp_obj_ = false ∧
    prune_dir ex_cfg ex_env 0xaa (ex_objdir ++ '/' :: fmt02x 0xaa)
        (some [ex_bad_name, ex_short_name]) =
      (0, some [ex_bad_name, ex_short_name],
        [Event.rmdir (ex_objdir ++ '/' :: fmt02x 0xaa)]) ∧
    prune_dir ex_cfg ex_env 0xaa (ex_objdir ++ '/' :: fmt02x 0xaa) (some [ex_short_name]) =
      (0, some [ex_short_name],
        [Event.stderr ("bad sha1 file: ".toList ++ (ex_objdir ++ '/' :: fmt02x 0xaa) ++
           '/' :: ex_short_name.name ++ "\n".toList),
         Event.rmdir (ex_objdir ++ '/' :: fmt02x 0xaa)]) := by
  decide

/-! ## The phases of `cmd_prune` -/

theorem cmd_prune_args_actions (c : Collab) :
    ∀ (args : List CStr) (pending : List (List Nat)),
      ∀ a ∈ (cmd_prune_args c args pending).2, a.after_args = false := by
  intro args
  induction args with
  | nil => intro pending a ha; simp [cmd_prune_args] at ha
  | cons name rest ih =>
    intro pending a ha
    simp only [cmd_prune_args] at ha
    cases hg : c.get_sha1 name with
    | none =>
      simp only [hg, List.mem_singleton] at ha
      rw [ha]; rfl
    | some sha1 =>
      by_cases hp : c.parse_object_or_die sha1 name = true
      · simp only [hg, hp, if_true] at ha
        exact ih _ a ha
      · simp only [hg, hp, if_false, Bool.false_eq_true, List.mem_singleton] at ha
        rw [ha]; rfl

theorem cmd_prune_args_ok (c : Collab) :
    ∀ (args : List CStr) (pending result : List (List Nat)),
      (cmd_prune_args c args pending).1 = some result →
        (cmd_prune_args c args pending).2 = [] ∧ ∀ n ∈ args, c.get_sha1 n ≠ none := by
  intro args
  induction args with
  | nil => intro pending result _; simp [cmd_prune_args]
  | cons name rest ih =>
    intro pending result h
    simp only [cmd_prune_args] at h ⊢
    cases hg : c.get_sha1 name with
    | none => simp [hg] at h
    | some sha1 =>
      by_cases hp : c.parse_object_or_die sha1 name = true
      · simp only [hg, hp, if_true] at h ⊢
        obtain ⟨h1, h2⟩ := ih _ result h
        refine ⟨h1, ?_⟩
        intro n hn
        rcases List.mem_cons.mp hn with he | hm
        · rw [he, hg]; simp
        · exact h2 n hm
      · simp [hg, hp] at h

/-- C11, as the claim states it, fails: in a successful execute run over the
example store the packed-object bridge `prune_packed_objects` is called right
after the sweep of the buckets, before the temporary files of the object
directory and of `pack` are examined. -/
theorem packed_bridge_before_temp_sweep :
    (cmd_prune ex_collab false false (some 1000) ["HEAD".toList] ex_store).1 = some 0 ∧
    (cmd_prune ex_collab false false (some 1000) ["HEAD".toList] ex_store).2.2 =
      [Action.mark_reachable_objects [0xaa :: List.replicate 19 0x11],
       Action.fs (Event.lstat (mkpath ((Loc.bucket 0xaa).path ex_objdir) ex_old_object.name)),
       Action.fs (Event.unlink (mkpath ((Loc.bucket 0xaa).path ex_objdir) ex_old_object.name)),
       Action.fs (Event.lstat (mkpath ((Loc.bucket 0xaa).path ex_objdir) ex_new_tmp.name)),
       Action.fs (Event.stderr ("bad sha1 file: ".toList ++ (Loc.bucket 0xaa).path ex_objdir ++
         '/' :: ex_junk.name ++ "\n".toList)),
       Action.fs (Event.rmdir ((Loc.bucket 0xaa).path ex_objdir)),
       Action.prune_packed_objects 0,
       Action.fs (Event.lstat (mkpath ex_objdir "tmp_pack_x".toList)),
       Action.fs (Event.unlink (mkpath ex_objdir "tmp_pack_x".toList)),
       Action.fs (Event.lstat (mkpath (Loc.pack.path ex_objdir) "tmp_idx_y".toList))] := by
  decide

/-- C11, amended: in every successful invocation of `cmd_prune` the phases run
in this order: the reachability marker, the loose-object sweep over all
buckets, then the packed-object bridge `prune_packed_objects`, called exactly
once with the dry-run flag of the run, and only then the temp-file sweep of the
object directory followed by that of its `pack` subdirectory, both on the store
the bridge leaves. -/
theorem cmd_prune_phases (c : Collab) (show_only verbose : Bool) (expire_opt : Option Nat)
    (args : List CStr) (s : Store)
    (h : (cmd_prune c show_only verbose expire_opt args s).1 = some 0) :
    ∃ (pending : List (List Nat)) (lookup : List Nat → Bool),
      c.mark_reachable_objects pending = some lookup ∧
      (cmd_prune c show_only verbose expire_opt args s).2.2 =
        [Action.mark_reachable_objects pending] ++
        (prune_object_dir ⟨show_only, verbose, expire_opt.getD ULONG_MAX⟩
          ⟨lookup, c.sha1_object_info, c.typename⟩ c.get_object_directory s).2.map Action.fs ++
        [Action.prune_packed_objects (if show_only then PRUNE_PACKED_DRY_RUN else 0)] ++
        (remove_temporary_files ⟨show_only, verbose, expire_opt.getD ULONG_MAX⟩
          c.get_object_directory
          (c.prune_packed_objects (if show_only then PRUNE_PACKED_DRY_RUN else 0)
            (prune_object_dir ⟨show_only, verbose, expire_opt.getD ULONG_MAX⟩
              ⟨lookup, c.sha1_object_info, c.typename⟩ c.get_object_directory s).1).root
          ).2.map Action.fs ++
        (remove_temporary_files ⟨show_only, verbose, expire_opt.getD ULONG_MAX⟩
          (c.get_object_directory ++ "/pack".toList)
          (c.prune_packed_objects (if show_only then PRUNE_PACKED_DRY_RUN else 0)
            (prune_object_dir ⟨show_only, verbose, expire_opt.getD ULONG_MAX⟩
              ⟨lookup, c.sha1_object_info, c.typename⟩ c.get_object_directory s).1).pack
          ).2.map Action.fs := by
  unfold cmd_prune at h ⊢
  cases hr : cmd_prune_args c args [] with
  | mk r acts =>
    cases r with
    | none => simp [hr] at h
    | some pending =>
      have hacts : acts = [] := by
        have := (cmd_prune_args_ok c args [] pending (by rw [hr])).1
        rw [hr] at this
        exact this
      cases hm : c.mark_reachable_objects pending with
      | none => simp [hr, hm] at h
      | some lookup =>
        refine ⟨pending, lookup, hm, ?_⟩
        simp [hr, hm, hacts]

theorem cmd_prune_phases_witness :
    (cmd_prune ex_collab false false (some 1000) ["HEAD".toList] ex_store).1 = some 0 ∧
    ∃ (pending : List (List Nat)) (lookup : List Nat → Bool),
      ex_collab.mark_reachable_objects pending = some lookup ∧
      (cmd_prune ex_collab false false (some 1000) ["HEAD".toList] ex_store).2.2 =
        [Action.mark_reachable_objects pending] ++
        (prune_object_dir ⟨false, false, (some 1000).getD ULONG_MAX⟩
          ⟨lookup, ex_collab.sha1_object_info, ex_collab.typename⟩
          ex_collab.get_object_directory ex_store).2.map Action.fs ++
        [Action.prune_packed_objects (if false then PRUNE_PACKED_DRY_RUN else 0)] ++
        (remove_temporary_files ⟨false, false, (some 1000).getD ULONG_MAX⟩
          ex_collab.get_object_directory
          (ex_collab.prune_packed_objects (if false then PRUNE_PACKED_DRY_RUN else 0)
            (prune_object_dir ⟨false, false, (some 1000).getD ULONG_MAX⟩
              ⟨lookup, ex_collab.sha1_object_info, ex_collab.typename⟩
              ex_collab.get_object_directory ex_store).1).root
          ).2.map Action.fs ++
        (remove_temporary_files ⟨false, false, (some 1000).getD ULONG_MAX⟩
          (ex_collab.get_object_directory ++ "/pack".toList)
          (ex_collab.prune_packed_objects (if false then PRUNE_PACKED_DRY_RUN else 0)
            (prune_object_dir ⟨false, false, (some 1000).getD ULONG_MAX⟩
              ⟨lookup, ex_collab.sha1_object_info, ex_collab.typename⟩
              ex_collab.get_object_directory ex_store).1).pack
          ).2.map Action.fs :=
  ⟨by decide, cmd_prune_phases ex_collab false false (some 1000) ["HEAD".toList] ex_store
    (by decide)⟩

/-- C12: when some argument left by `parse_options` is one that `get_sha1` does
not resolve, `cmd_prune` does not return: the process dies, the store is as it
was, and the trace holds only `die` or a collaborator's death, so the
reachability marker is not called, no directory is scanned, and no `unlink` or
`rmdir` is performed, even when earlier arguments were valid. -/
theorem bad_argument_aborts (c : Collab) (show_only verbose : Bool) (expire_opt : Option Nat)
    (args : List CStr) (s : Store) (bad : CStr) (hb : bad ∈ args)
    (hg : c.get_sha1 bad = none) :
    (cmd_prune c show_only verbose expire_opt args s).1 = none ∧
    (cmd_prune c show_only verbose expire_opt args s).2.1 = s ∧
    ∀ a ∈ (cmd_prune c show_only verbose expire_opt args s).2.2, a.after_args = false := by
  have hacts := cmd_prune_args_actions c args []
  unfold cmd_prune
  cases hr : cmd_prune_args c args [] with
  | mk r acts =>
    cases r with
    | none =>
      rw [hr] at hacts
      exact ⟨rfl, rfl, hacts⟩
    | some pending =>
      exact absurd hg ((cmd_prune_args_ok c args [] pending (by rw [hr])).2 bad hb)

theorem bad_argument_aborts_witness :
    "nonsense".toList ∈ ["HEAD".toList, "nonsense".toList] ∧
    ex_collab.get_sha1 "nonsense".toList = none ∧
    ((cmd_prune ex_collab false false none ["HEAD".toList, "nonsense".toList] ex_store).1 = none ∧
    (cmd_prune ex_collab false false none ["HEAD".toList, "nonsense".toList] ex_store).2.1 =
      ex_store ∧
    ∀ a ∈ (cmd_prune ex_collab false false none ["HEAD".toList, "nonsense".toList] ex_store).2.2,
      a.after_args = false) :=
  ⟨by decide, by decide,
    bad_argument_aborts ex_collab false false none ["HEAD".toList, "nonsense".toList] ex_store
      "nonsense".toList (by decide) (by decide)⟩

/-! ## Addressing: bucket name, suffix and the hex decoder -/

theorem hexval_digitChar : ∀ a < 16, hexval (Nat.digitChar a) = some a := by
  decide

theorem hex_pairs_fmt02x (b : Nat) (hb : b < 256) (t : CStr) (r : List Nat)
    (ht : hex_pairs t = some r) : hex_pairs (fmt02x b ++ t) = some (b :: r) := by
  have hb16 : 16 * (b / 16) + b % 16 = b := by omega
  rw [fmt02x_eq b hb]
  show hex_pairs (Nat.digitChar (b / 16) :: Nat.digitChar (b % 16) :: t) = some (b :: r)
  simp only [hex_pairs, hexval_digitChar (b / 16) (by omega),
    hexval_digitChar (b % 16) (by omega), ht, hb16]

theorem hex_pairs_sha1_to_hex (l : List Nat) (hl : ∀ b ∈ l, b < 256) :
    hex_pairs (sha1_to_hex l) = some l := by
  induction l with
  | nil => rfl
  | cons b l ih =>
    have h : sha1_to_hex (b :: l) = fmt02x b ++ sha1_to_hex l := by
      simp [sha1_to_hex]
    rw [h]
    exact hex_pairs_fmt02x b (hl b (by simp)) _ l (ih (fun x hx => hl x (by simp [hx])))

theorem sha1_to_hex_length (l : List Nat) (hl : ∀ b ∈ l, b < 256) :
    (sha1_to_hex l).length = 2 * l.length := by
  induction l with
  | nil => rfl
  | cons b l ih =>
    have h : sha1_to_hex (b :: l) = fmt02x b ++ sha1_to_hex l := by
      simp [sha1_to_hex]
    rw [h, List.length_append, ih (fun x hx => hl x (by simp [hx])),
      fmt02x_eq b (hl b (by simp))]
    simp only [List.length_cons, List.length_nil]
    omega

/-- C13: for every 20-byte ObjectId, the bucket name `"%02x"` of its first
byte followed by the lowercase hex encoding of the other 19 bytes is a name of
2 + 38 characters that `get_sha1_hex` decodes, and it decodes to that
ObjectId. -/
theorem addressing_round_trip (b0 : Nat) (suffix : List Nat) (h0 : b0 < 256)
    (hbytes : ∀ b ∈ suffix, b < 256) (hlen : suffix.length = 19) :
    (fmt02x b0).length = 2 ∧ (sha1_to_hex suffix).length = 38 ∧
      get_sha1_hex (fmt02x b0 ++ sha1_to_hex suffix) = some (b0 :: suffix) := by
  have hl := sha1_to_hex_length suffix hbytes
  have h2 : (fmt02x b0).length = 2 := by rw [fmt02x_eq b0 h0]; rfl
  refine ⟨h2, by omega, ?_⟩
  have h40 : (fmt02x b0 ++ sha1_to_hex suffix).length = 40 := by
    rw [List.length_append]; omega
  simp only [get_sha1_hex, h40, if_true]
  exact hex_pairs_fmt02x b0 h0 _ suffix (hex_pairs_sha1_to_hex suffix hbytes)

theorem addressing_round_trip_witness :
    (∀ b ∈ List.replicate 19 0x11, b < 256) ∧ (List.replicate 19 0x11).length = 19 ∧
    ((fmt02x 0xaa).length = 2 ∧ (sha1_to_hex (List.replicate 19 0x11)).length = 38 ∧
      get_sha1_hex (fmt02x 0xaa ++ sha1_to_hex (List.replicate 19 0x11)) =
        some (0xaa :: List.replicate 19 0x11)) :=
  ⟨by decide, by decide,
    addressing_round_trip 0xaa (List.replicate 19 0x11) (by decide) (by decide) (by decide)⟩

/-! ## The buckets `prune_object_dir` visits -/

theorem digitChar_lower_hex : ∀ a < 16, Nat.digitChar a ∈ lower_hex_digits := by
  decide

theorem bucket_paths_nodup (path : CStr) :
    ((List.range 256).map (fun i => path ++ '/' :: fmt02x i)).Nodup := by
  apply List.Nodup.map_on _ (List.nodup_range 256)
  intro i hi j hj h
  have h' : fmt02x i = fmt02x j := by simpa using h
  exact fmt02x_inj i j (List.mem_range.mp hi) (List.mem_range.mp hj) h'

/-- C15: `prune_object_dir` runs `prune_dir` on the 256 paths `<path>/00` to
`<path>/ff`, once each and in this order, whatever the store holds: its trace is
the traces of these 256 calls one after the other, and bucket `j` ends as the
call for `j` leaves it. The 256 names are pairwise distinct strings of two
lowercase hex digits. On a bucket that cannot be opened `prune_dir` returns 0
with an empty trace (no `unlink`, no `rmdir`, no diagnostic) and the later
buckets are visited all the same. -/
theorem prune_object_dir_visits (cfg : Config) (env : Env) (path : CStr) (s : Store) :
    (prune_object_dir cfg env path s).2 =
      (List.range 256).flatMap
        (fun i => (prune_dir cfg env i (path ++ '/' :: fmt02x i) (s.buckets i)).2.2) ∧
    (∀ j, (prune_object_dir cfg env path s).1.buckets j =
      if j < 256 then (prune_dir cfg env j (path ++ '/' :: fmt02x j) (s.buckets j)).2.1
      else s.buckets j) ∧
    (prune_object_dir cfg env path s).1.root = s.root ∧
    (prune_object_dir cfg env path s).1.pack = s.pack ∧
    ((List.range 256).map (fun i => path ++ '/' :: fmt02x i)).Nodup ∧
    (∀ i, i < 256 → ∃ a b, fmt02x i = [a, b] ∧ a ∈ lower_hex_digits ∧ b ∈ lower_hex_digits) ∧
    (∀ i p, prune_dir cfg env i p none = (0, none, [])) := by
  refine ⟨?_, ?_, ?_, ?_, bucket_paths_nodup path, ?_, ?_⟩
  · simp only [prune_object_dir, prune_object_dir_loop_events, List.range_eq_range']
  · intro j
    simp [prune_object_dir, prune_object_dir_loop_buckets]
  · exact prune_object_dir_loop_root cfg env path 256 0 s
  · exact prune_object_dir_loop_pack cfg env path 256 0 s
  · intro i hi
    exact ⟨_, _, fmt02x_eq i hi, digitChar_lower_hex (i / 16) (by omega),
      digitChar_lower_hex (i % 16) (by omega)⟩
  · intro i p
    rfl

theorem prune_object_dir_visits_witness :
    (prune_object_dir ex_cfg ex_env ex_objdir ex_store).2 =
      (List.range 256).flatMap
        (fun i => (prune_dir ex_cfg ex_env i (ex_objdir ++ '/' :: fmt02x i)
          (ex_store.buckets i)).2.2) ∧
    (∀ j, (prune_object_dir ex_cfg ex_env ex_objdir ex_store).1.buckets j =
      if j < 256 then (prune_dir ex_cfg ex_env j (ex_objdir ++ '/' :: fmt02x j)
        (ex_store.buckets j)).2.1
      else ex_store.buckets j) ∧
    (prune_object_dir ex_cfg ex_env ex_objdir ex_store).1.root = ex_store.root ∧
    (prune_object_dir ex_cfg ex_env ex_objdir ex_store).1.pack = ex_store.pack ∧
    ((List.range 256).map (fun i => ex_objdir ++ '/' :: fmt02x i)).Nodup ∧
    (∀ i, i < 256 → ∃ a b, fmt02x i = [a, b] ∧ a ∈ lower_hex_digits ∧ b ∈ lower_hex_digits) ∧
    (∀ i p, prune_dir ex_cfg ex_env i p none = (0, none, [])) :=
  prune_object_dir_visits ex_cfg ex_env ex_objdir ex_store

/-! ## The `rmdir` at the end of `prune_dir` -/

theorem prune_tmp_object_no_rmdir (cfg : Config) (path n : CStr) (d : Directory) :
    ∀ e ∈ (prune_tmp_object cfg path n d).2.2, e.is_rmdir = false := by
  unfold prune_tmp_object
  cases lstat d n with
  | none => simp [Event.is_rmdir]
  | some m =>
    by_cases hg : st_mtime_gt m cfg.expire = true
    · simp [hg, Event.is_rmdir]
    · unfold unlink_or_warn
      cases hf : d.find? (fun f => decide (f.name = n)) with
      | none =>
        by_cases hs : cfg.show_only = true <;> by_cases hv : cfg.verbose = true <;>
          simp [hg, hs, hv, Event.is_rmdir]
      | some f =>
        by_cases hs : cfg.show_only = true <;> by_cases hv : cfg.verbose = true <;>
          by_cases hu : f.unlinkable = true <;> simp [hg, hs, hv, hu, Event.is_rmdir]

theorem prune_object_no_rmdir (cfg : Config) (env : Env) (path n : CStr) (sha1 : List Nat)
    (d : Directory) : ∀ e ∈ (prune_object cfg env path n sha1 d).2.2, e.is_rmdir = false := by
  unfold prune_object
  cases lstat d n with
  | none => simp [Event.is_rmdir]
  | some m =>
    by_cases hg : st_mtime_gt m cfg.expire = true
    · simp [hg, Event.is_rmdir]
    · unfold unlink_or_warn
      cases hf : d.find? (fun f => decide (f.name = n)) with
      | none =>
        by_cases hs : cfg.show_only = true <;> by_cases hv : cfg.verbose = true <;>
          simp [hg, hs, hv, Event.is_rmdir]
      | some f =>
        by_cases hs : cfg.show_only = true <;> by_cases hv : cfg.verbose = true <;>
          by_cases hu : f.unlinkable = true <;> simp [hg, hs, hv, hu, Event.is_rmdir]

theorem prune_dir_loop_no_rmdir (cfg : Config) (env : Env) (i : Nat) (path : CStr) :
    ∀ (names : List CStr) (d : Directory),
      ∀ e ∈ (prune_dir_loop cfg env i path names d).2, e.is_rmdir = false := by
  intro names
  induction names with
  | nil => intro d e he; simp [prune_dir_loop] at he
  | cons n rest ih =>
    intro d e he
    rw [prune_dir_loop_cons] at he
    by_cases hs : stops_scan i n = true
    · simp [hs] at he
    · simp only [hs, if_false, Bool.false_eq_true, List.mem_append] at he
      rcases he with he | he
      · by_cases hd : is_dot_or_dotdot n = true
        · simp [prune_dir_loop, hd] at he
        · by_cases hl : n.length = 38
          · cases hg : get_sha1_hex (fmt02x i ++ n) with
            | none => simp [prune_dir_loop, hd, hl, hg] at he
            | some sha1 =>
              by_cases hr : env.lookup_object sha1 = true
              · simp [prune_dir_loop, hd, hl, hg, hr] at he
              · simp only [prune_dir_loop, hd, hl, hg, hr, if_true, if_false,
                  Bool.false_eq_true, List.append_nil] at he
                exact prune_object_no_rmdir cfg env path n sha1 d e he
          · by_cases hp : not_prefixcmp n tmp_obj_ = true
            · simp only [prune_dir_loop, hd, hl, hp, if_true, if_false,
                Bool.false_eq_true, List.append_nil] at he
              exact prune_tmp_object_no_rmdir cfg path n d e he
            · simp only [prune_dir_loop, hd, hl, hp, if_false, Bool.false_eq_true,
                List.mem_singleton] at he
              rw [he]; rfl
      · exact ih _ e he

theorem filter_eq_nil_of_forall {α : Type} (p : α → Bool) (l : List α)
    (h : ∀ x ∈ l, p x = false) : l.filter p = [] := by
  rw [List.filter_eq_nil_iff]
  intro x hx
  simp [h x hx]

theorem prune_dir_events (cfg : Config) (env : Env) (i : Nat) (path : CStr) (d : Directory) :
    (prune_dir cfg env i path (some d)).2.2 =
      (prune_dir_loop cfg env i path (d.map File.name) d).2 ++
        (if cfg.show_only then [] else [Event.rmdir path]) := by
  by_cases hs : cfg.show_only = true <;> simp [prune_dir, hs]

theorem prune_dir_rmdir_events (cfg : Config) (env : Env) (i : Nat) (path : CStr)
    (d : Directory) :
    (prune_dir cfg env i path (some d)).2.2.filter Event.is_rmdir =
      (if cfg.show_only then [] else [Event.rmdir path]) := by
  have hno := filter_eq_nil_of_forall Event.is_rmdir _
    (prune_dir_loop_no_rmdir cfg env i path (d.map File.name) d)
  rw [prune_dir_events, List.filter_append, hno]
  by_cases hs : cfg.show_only = true <;> simp [hs, Event.is_rmdir]

/-- C17: on a bucket that can be opened, `prune_dir` returns 0 and its trace
is that of the loop over the entries followed, when dry-run is off, by one
`rmdir` of the bucket, and by none when dry-run is on; the loop itself never
calls `rmdir`. With `rmdir` succeeding exactly on a directory that holds
nothing but `.` and `..`, after an execute run the bucket can still be opened
iff the loop left an entry other than `.` and `..`, and then it holds what the
loop left. -/
theorem prune_dir_rmdir (cfg : Config) (env : Env) (i : Nat) (path : CStr) (d : Directory) :
    (prune_dir cfg env i path (some d)).1 = 0 ∧
    (prune_dir cfg env i path (some d)).2.2 =
      (prune_dir_loop cfg env i path (d.map File.name) d).2 ++
        (if cfg.show_only then [] else [Event.rmdir path]) ∧
    (prune_dir cfg env i path (some d)).2.2.filter Event.is_rmdir =
      (if cfg.show_only then [] else [Event.rmdir path]) ∧
    (cfg.show_only = true → (prune_dir cfg env i path (some d)).2.1 =
      some (prune_dir_loop cfg env i path (d.map File.name) d).1) ∧
    (cfg.show_only = false →
      (((prune_dir cfg env i path (some d)).2.1 ≠ none ↔
          ∃ f ∈ (prune_dir_loop cfg env i path (d.map File.name) d).1,
            is_dot_or_dotdot f.name = false) ∧
        ((prune_dir cfg env i path (some d)).2.1 ≠ none →
          (prune_dir cfg env i path (some d)).2.1 =
            some (prune_dir_loop cfg env i path (d.map File.name) d).1))) := by
  have hno := filter_eq_nil_of_forall Event.is_rmdir _
    (prune_dir_loop_no_rmdir cfg env i path (d.map File.name) d)
  by_cases hs : cfg.show_only = true
  · simp [prune_dir, hs, hno]
  · simp only [Bool.not_eq_true] at hs
    refine ⟨by simp [prune_dir, hs], by simp [prune_dir, hs], ?_, by simp [hs], ?_⟩
    · simp [prune_dir, hs, hno, Event.is_rmdir]
    · intro _
      simp only [prune_dir, hs, Bool.not_false, if_true, rmdir]
      by_cases hall : (prune_dir_loop cfg env i path (d.map File.name) d).1.all
          (fun f => is_dot_or_dotdot f.name) = true
      · simp only [hall, if_true, ne_eq, not_true_eq_false, false_iff, false_implies,
          and_true]
        rintro ⟨f, hf, hdot⟩
        rw [List.all_eq_true] at hall
        have := hall f hf
        simp [hdot] at this
      · simp only [hall, if_false, Bool.false_eq_true, ne_eq, reduceCtorEq, not_false_eq_true,
          true_iff, forall_const, and_true]
        simp only [Bool.not_eq_true, List.all_eq_false] at hall
        obtain ⟨f, hf, hdot⟩ := hall
        exact ⟨f, hf, by simpa using hdot⟩

theorem prune_dir_rmdir_witness :
    ex_cfg.show_only = false ∧
    ((prune_dir ex_cfg ex_env 0xaa (ex_objdir ++ '/' :: fmt02x 0xaa) (some ex_bucket)).2.1 ≠ none ↔
      ∃ f ∈ (prune_dir_loop ex_cfg ex_env 0xaa (ex_objdir ++ '/' :: fmt02x 0xaa)
          (ex_bucket.map File.name) ex_bucket).1,
        is_dot_or_dotdot f.name = false) :=
  ⟨rfl, ((prune_dir_rmdir ex_cfg ex_env 0xaa (ex_objdir ++ '/' :: fmt02x 0xaa)
    ex_bucket).2.2.2.2 rfl).1⟩

/-! ## The temp-file sweep of one directory -/

theorem prune_tmp_object_events_subset (cfg : Config) (path n : CStr) (d : Directory) :
    ∀ e ∈ (prune_tmp_object cfg path n d).2.2, e ∈ prune_tmp_object_events path n := by
  unfold prune_tmp_object prune_tmp_object_events
  cases lstat d n with
  | none => simp
  | some m =>
    by_cases hg : st_mtime_gt m cfg.expire = true
    · simp [hg]
    · unfold unlink_or_warn
      cases hf : d.find? (fun f => decide (f.name = n)) with
      | none =>
        by_cases hs : cfg.show_only = true <;> by_cases hv : cfg.verbose = true <;>
          simp [hg, hs, hv]
      | some f =>
        by_cases hs : cfg.show_only = true <;> by_cases hv : cfg.verbose = true <;>
          by_cases hu : f.unlinkable = true <;> simp [hg, hs, hv, hu]

theorem remove_temporary_files_loop_events_name (cfg : Config) (path : CStr) :
    ∀ (names : List CStr) (d : Directory),
      ∀ e ∈ (remove_temporary_files_loop cfg path names d).2,
        ∃ n ∈ names, not_prefixcmp n tmp_ = true ∧ e ∈ prune_tmp_object_events path n := by
  intro names
  induction names with
  | nil => intro d e he; simp [remove_temporary_files_loop] at he
  | cons n rest ih =>
    intro d e he
    by_cases hp : not_prefixcmp n tmp_ = true
    · simp only [remove_temporary_files_loop, hp, if_true, List.mem_append] at he
      rcases he with he | he
      · exact ⟨n, by simp, hp, prune_tmp_object_events_subset cfg path n d e he⟩
      · obtain ⟨n', hn', h'⟩ := ih _ e he
        exact ⟨n', List.mem_cons_of_mem _ hn', h'⟩
    · simp only [remove_temporary_files_loop, hp, if_false, Bool.false_eq_true] at he
      obtain ⟨n', hn', h'⟩ := ih _ e he
      exact ⟨n', List.mem_cons_of_mem _ hn', h'⟩

theorem remove_temporary_files_loop_keeps_name (cfg : Config) (path : CStr) (g : File)
    (hg : not_prefixcmp g.name tmp_ = false) :
    ∀ (names : List CStr) (d : Directory), g ∈ d →
      g ∈ (remove_temporary_files_loop cfg path names d).1 := by
  intro names
  induction names with
  | nil => intro d h; simpa [remove_temporary_files_loop] using h
  | cons n rest ih =>
    intro d h
    by_cases hp : not_prefixcmp n tmp_ = true
    · have hne : g.name ≠ n := by
        intro he; rw [he, hp] at hg; cases hg
      simpa [remove_temporary_files_loop, hp] using
        ih _ (prune_tmp_object_keeps cfg path n d g h hne)
    · simpa [remove_temporary_files_loop, hp] using ih d h

theorem prune_tmp_object_events_disjoint (path a b : CStr) (hab : a ≠ b) :
    ∀ e ∈ prune_tmp_object_events path a, e ∉ prune_tmp_object_events path b := by
  have hp : mkpath path a ≠ mkpath path b := fun h => hab (mkpath_inj h)
  have hp' : ¬(path ++ '/' :: a = path ++ '/' :: b) := hp
  intro e he
  simp only [prune_tmp_object_events, List.mem_cons, List.mem_singleton, List.not_mem_nil,
    or_false] at he ⊢
  rcases he with he | he | he | he | he <;> subst he <;>
    simp [mkpath, hab]

/-- C14, as the claim states it, fails: in an execute run with cutoff 1000 a
`tmp_` entry that `lstat` can stat and whose mtime is the pre-epoch -1 has
mtime <= cutoff, yet `remove_temporary_files` stats it and returns without
calling `unlink`. -/
theorem pre_epoch_tmp_survives :
    not_prefixcmp ex_pre_epoch_tmp.name tmp_ = true ∧
    ex_pre_epoch_tmp.st_mtime = some (-1) ∧ ((-1 : Int) ≤ (ex_cfg.expire : Int)) ∧
    ex_cfg.show_only = false ∧
    remove_temporary_files ex_cfg ex_objdir (some [ex_pre_epoch_tmp]) =
      (some [ex_pre_epoch_tmp], [Event.lstat (mkpath ex_objdir ex_pre_epoch_tmp.name)]) := by
  decide

/-- C14, amended: `remove_temporary_files`, run on a directory whose entries
have distinct names (the object directory or its `pack` subdirectory), calls
`unlink` on an entry that begins with `tmp_` and that `lstat` can stat iff
dry-run is off and the entry passes the unsigned age test of the code,
mtime mod 2^64 <= cutoff; no reachability is consulted. An entry that does not
begin with `tmp_` is never stat-ed, reported or unlinked, and stays in the
directory. -/
theorem remove_temporary_files_age_rule (cfg : Config) (path : CStr) (d : Directory)
    (hwf : Directory.wf d) :
    (∀ f ∈ d, not_prefixcmp f.name tmp_ = true →
      ∀ m, f.st_mtime = some m →
        (Event.unlink (mkpath path f.name) ∈ (remove_temporary_files cfg path (some d)).2 ↔
          cfg.show_only = false ∧ m % 2 ^ 64 ≤ (cfg.expire : Int))) ∧
    (∀ g ∈ d, not_prefixcmp g.name tmp_ = false →
      (∀ e ∈ prune_tmp_object_events path g.name,
        e ∉ (remove_temporary_files cfg path (some d)).2) ∧
      ∃ d', (remove_temporary_files cfg path (some d)).1 = some d' ∧ g ∈ d') := by
  constructor
  · intro f hf hp m hm
    simp only [remove_temporary_files]
    rw [remove_temporary_files_loop_listing_events cfg path d hwf, List.mem_flatMap,
      ← expired_iff_mod cfg f m hm]
    constructor
    · rintro ⟨g, hg, he⟩
      rw [remove_temporary_files_loop_one_unlink] at he
      have hfg : f = g := eq_of_name_eq hwf hf hg (mkpath_inj he.1)
      rw [hfg]
      exact ⟨he.2.1, he.2.2.2⟩
    · rintro ⟨hs, hx⟩
      exact ⟨f, hf, (remove_temporary_files_loop_one_unlink cfg path f _).mpr ⟨rfl, hs, hp, hx⟩⟩
  · intro g hg hp
    constructor
    · intro e he hmem
      obtain ⟨n, _, hn, hen⟩ :=
        remove_temporary_files_loop_events_name cfg path (d.map File.name) d e hmem
      have hne : g.name ≠ n := by
        intro h; rw [h, hn] at hp; cases hp
      exact prune_tmp_object_events_disjoint path g.name n hne e he hen
    · exact ⟨_, rfl, remove_temporary_files_loop_keeps_name cfg path g hp _ d hg⟩

theorem remove_temporary_files_age_rule_witness :
    Directory.wf [ex_pre_epoch_tmp, ⟨"info".toList, some 10, false⟩] ∧
    not_prefixcmp ex_pre_epoch_tmp.name tmp_ = true ∧
    (Event.unlink (mkpath ex_objdir ex_pre_epoch_tmp.name) ∈
        (remove_temporary_files ex_cfg ex_objdir
          (some [ex_pre_epoch_tmp, ⟨"info".toList, some 10, false⟩])).2 ↔
      ex_cfg.show_only = false ∧ (-1 : Int) % 2 ^ 64 ≤ (ex_cfg.expire : Int)) :=
  ⟨by decide, by decide,
    (remove_temporary_files_age_rule ex_cfg ex_objdir
      [ex_pre_epoch_tmp, ⟨"info".toList, some 10, false⟩] (by decide)).1
      ex_pre_epoch_tmp (by decide) (by decide) (-1) rfl⟩

/-! ## The frame of the sweep -/

theorem unlink_or_warn_sublist (p n : CStr) (d : Directory) :
    List.Sublist (unlink_or_warn p n d).1 d := by
  unfold unlink_or_warn
  cases hf : d.find? (fun f => decide (f.name = n)) with
  | none => exact List.Sublist.refl d
  | some f =>
    by_cases hu : f.unlinkable = true
    · simpa [hu] using List.eraseP_sublist d
    · simp [hu]

theorem prune_tmp_object_sublist (cfg : Config) (path n : CStr) (d : Directory) :
    List.Sublist (prune_tmp_object cfg path n d).2.1 d := by
  unfold prune_tmp_object
  cases lstat d n with
  | none => exact List.Sublist.refl d
  | some m =>
    by_cases hg : st_mtime_gt m cfg.expire = true
    · simp [hg]
    · by_cases hs : cfg.show_only = true
      · simp [hg, hs]
      · simpa [hg, hs] using unlink_or_warn_sublist _ n d

theorem prune_object_sublist (cfg : Config) (env : Env) (path n : CStr) (sha1 : List Nat)
    (d : Directory) : List.Sublist (prune_object cfg env path n sha1 d).2.1 d := by
  unfold prune_object
  cases lstat d n with
  | none => exact List.Sublist.refl d
  | some m =>
    by_cases hg : st_mtime_gt m cfg.expire = true
    · simp [hg]
    · by_cases hs : cfg.show_only = true
      · simp [hg, hs]
      · simpa [hg, hs] using unlink_or_warn_sublist _ n d

theorem prune_dir_loop_sublist (cfg : Config) (env : Env) (i : Nat) (path : CStr) :
    ∀ (names : List CStr) (d : Directory),
      List.Sublist (prune_dir_loop cfg env i path names d).1 d := by
  intro names
  induction names with
  | nil => intro d; simp [prune_dir_loop]
  | cons n rest ih =>
    intro d
    by_cases hd : is_dot_or_dotdot n = true
    · simpa [prune_dir_loop, hd] using ih d
    · by_cases hl : n.length = 38
      · cases hg : get_sha1_hex (fmt02x i ++ n) with
        | none => simp [prune_dir_loop, hd, hl, hg]
        | some sha1 =>
          by_cases hr : env.lookup_object sha1 = true
          · simpa [prune_dir_loop, hd, hl, hg, hr] using ih d
          · simpa [prune_dir_loop, hd, hl, hg, hr] using
              (ih _).trans (prune_object_sublist cfg env path n sha1 d)
      · by_cases hp : not_prefixcmp n tmp_obj_ = true
        · simpa [prune_dir_loop, hd, hl, hp] using
            (ih _).trans (prune_tmp_object_sublist cfg path n d)
        · simpa [prune_dir_loop, hd, hl, hp] using ih d

theorem remove_temporary_files_loop_sublist (cfg : Config) (path : CStr) :
    ∀ (names : List CStr) (d : Directory),
      List.Sublist (remove_temporary_files_loop cfg path names d).1 d := by
  intro names
  induction names with
  | nil => intro d; simp [remove_temporary_files_loop]
  | cons n rest ih =>
    intro d
    by_cases hp : not_prefixcmp n tmp_ = true
    · simpa [remove_temporary_files_loop, hp] using
        (ih _).trans (prune_tmp_object_sublist cfg path n d)
    · simpa [remove_temporary_files_loop, hp] using ih d

theorem sweep_dir_sublist (cfg : Config) (env : Env) (objdir : CStr) (loc : Loc)
    (od : Option Directory) (d' : Directory)
    (h : (sweep_dir cfg env objdir loc od).1 = some d') :
    ∃ d, od = some d ∧ List.Sublist d' d := by
  cases od with
  | none => cases loc <;> simp [sweep_dir, prune_dir, remove_temporary_files] at h
  | some d =>
    refine ⟨d, rfl, ?_⟩
    cases loc with
    | bucket i =>
      simp only [sweep_dir, prune_dir] at h
      by_cases hs : cfg.show_only = true
      · simp only [hs, Bool.not_true, Bool.false_eq_true, if_false, Option.some.injEq] at h
        rw [← h]; exact prune_dir_loop_sublist cfg env i _ _ d
      · simp only [hs, Bool.not_eq_true, Bool.not_false, if_true, rmdir] at h
        split at h
        · cases h
        · simp only [Option.some.injEq] at h
          rw [← h]; exact prune_dir_loop_sublist cfg env i _ _ d
    | root =>
      simp only [sweep_dir, remove_temporary_files, Option.some.injEq] at h
      rw [← h]; exact remove_temporary_files_loop_sublist cfg _ _ d
    | pack =>
      simp only [sweep_dir, remove_temporary_files, Option.some.injEq] at h
      rw [← h]; exact remove_temporary_files_loop_sublist cfg _ _ d

theorem sweep_dir_rmdir (cfg : Config) (env : Env) (objdir : CStr) (loc : Loc)
    (od : Option Directory) (p : CStr)
    (h : Event.rmdir p ∈ (sweep_dir cfg env objdir loc od).2) :
    ∃ i, loc = Loc.bucket i ∧ p = objdir ++ '/' :: fmt02x i := by
  cases od with
  | none => cases loc <;> simp [sweep_dir, prune_dir, remove_temporary_files] at h
  | some d =>
    cases loc with
    | bucket i =>
      refine ⟨i, rfl, ?_⟩
      have hr := prune_dir_rmdir_events cfg env i (Loc.path objdir (Loc.bucket i)) d
      have hm : Event.rmdir p ∈
          (prune_dir cfg env i (Loc.path objdir (Loc.bucket i)) (some d)).2.2.filter
            Event.is_rmdir := by
        rw [List.mem_filter]
        exact ⟨h, rfl⟩
      rw [hr] at hm
      by_cases hs : cfg.show_only = true
      · simp [hs] at hm
      · simp only [hs, if_false, Bool.false_eq_true, List.mem_singleton, Event.rmdir.injEq] at hm
        exact hm
    | root =>
      exfalso
      obtain ⟨n, _, _, hen⟩ :=
        remove_temporary_files_loop_events_name cfg _ (d.map File.name) d _ h
      simp [prune_tmp_object_events] at hen
    | pack =>
      exfalso
      obtain ⟨n, _, _, hen⟩ :=
        remove_temporary_files_loop_events_name cfg _ (d.map File.name) d _ h
      simp [prune_tmp_object_events] at hen

theorem bucket_target_shape {env : Env} {i : Nat} {n : CStr}
    (h : bucket_target env i n = true) :
    n.length = 38 ∨ not_prefixcmp n tmp_obj_ = true := by
  unfold bucket_target at h
  by_cases hl : n.length = 38
  · exact Or.inl hl
  · right
    simp only [hl, if_false, Bool.and_eq_true] at h
    exact h.2

theorem sweep_dir_keeps_name (cfg : Config) (env : Env) (objdir : CStr) (loc : Loc)
    (d : Directory) (f : File) (hf : f ∈ d)
    (hdot : is_dot_or_dotdot f.name = false) (ht : loc.target env f.name = false) :
    ∃ d', (sweep_dir cfg env objdir loc (some d)).1 = some d' ∧ f ∈ d' := by
  cases loc with
  | bucket i =>
    have hk := prune_dir_loop_keeps_name cfg env i (Loc.path objdir (Loc.bucket i)) f ht
      (d.map File.name) d hf
    by_cases hs : cfg.show_only = true
    · exact ⟨_, by simp [sweep_dir, prune_dir, hs], hk⟩
    · exact ⟨_, by simp [sweep_dir, prune_dir, hs, rmdir_of_mem hk hdot], hk⟩
  | root =>
    exact ⟨_, rfl, remove_temporary_files_loop_keeps_name cfg _ f ht _ d hf⟩
  | pack =>
    exact ⟨_, rfl, remove_temporary_files_loop_keeps_name cfg _ f ht _ d hf⟩

/-- C19: the frame of the sweep. Every path passed to `unlink` is
`<root>/<xx>/<name>` with `xx` one of the 256 bucket names and `name` of 38
characters or beginning with `tmp_obj_`, or `<root>/<name>` or
`<root>/pack/<name>` with `name` beginning with `tmp_`; every path passed to
`rmdir` is one of the 256 buckets `<root>/<xx>`. Nothing is created: each
directory still there afterwards lists a sublist of what it listed before, and
buckets beyond the 256 are untouched. Every entry other than `.` and `..` that
is not such a target (in `pack` and the object directory: no `tmp_` prefix; in a
bucket: neither an unreachable decodable 38-character name nor a `tmp_obj_`
name of another length) is still in its directory afterwards. -/
theorem sweep_frame (cfg : Config) (env : Env) (objdir : CStr) (s : Store) :
    (∀ p, Event.unlink p ∈ (sweep cfg env objdir s).2 →
      (∃ i n, i < 256 ∧ p = mkpath (objdir ++ '/' :: fmt02x i) n ∧
        (n.length = 38 ∨ not_prefixcmp n tmp_obj_ = true)) ∨
      (∃ n, p = mkpath objdir n ∧ not_prefixcmp n tmp_ = true) ∨
      (∃ n, p = mkpath (objdir ++ "/pack".toList) n ∧ not_prefixcmp n tmp_ = true)) ∧
    (∀ p, Event.rmdir p ∈ (sweep cfg env objdir s).2 →
      ∃ i, i < 256 ∧ p = objdir ++ '/' :: fmt02x i) ∧
    (∀ loc : Loc, loc.visited → ∀ d', (sweep cfg env objdir s).1.dir loc = some d' →
      ∃ d, s.dir loc = some d ∧ List.Sublist d' d) ∧
    (∀ j, ¬ j < 256 → (sweep cfg env objdir s).1.buckets j = s.buckets j) ∧
    (∀ loc : Loc, loc.visited → ∀ d, s.dir loc = some d → ∀ f ∈ d,
      is_dot_or_dotdot f.name = false → loc.target env f.name = false →
        ∃ d', (sweep cfg env objdir s).1.dir loc = some d' ∧ f ∈ d') := by
  refine ⟨?_, ?_, ?_, ?_, ?_⟩
  · intro p hp
    obtain ⟨loc, hv, he⟩ := mem_sweep_events_loc hp
    obtain ⟨n, hq, htn⟩ := sweep_dir_unlink_name cfg env objdir loc _ _ he
    cases loc with
    | bucket i => exact Or.inl ⟨i, n, hv, hq, bucket_target_shape htn⟩
    | root => exact Or.inr (Or.inl ⟨n, hq, htn⟩)
    | pack => exact Or.inr (Or.inr ⟨n, hq, htn⟩)
  · intro p hp
    obtain ⟨loc, hv, he⟩ := mem_sweep_events_loc hp
    obtain ⟨i, hloc, hpi⟩ := sweep_dir_rmdir cfg env objdir loc _ p he
    subst hloc
    exact ⟨i, hv, hpi⟩
  · intro loc hv d' hd'
    rw [sweep_dir_state cfg env objdir s loc hv] at hd'
    exact sweep_dir_sublist cfg env objdir loc _ d' hd'
  · intro j hj
    rw [sweep_buckets, if_neg hj]
  · intro loc hv d hd f hf hdot ht
    rw [sweep_dir_state cfg env objdir s loc hv, hd]
    exact sweep_dir_keeps_name cfg env objdir loc d f hf hdot ht

theorem sweep_frame_witness :
    ∃ d', (sweep ex_cfg ex_env ex_objdir ex_store).1.dir (Loc.bucket 0xaa) = some d' ∧
      ex_junk ∈ d' :=
  (sweep_frame ex_cfg ex_env ex_objdir ex_store).2.2.2.2 (Loc.bucket 0xaa) (by decide)
    ex_bucket rfl ex_junk (by decide) (by decide) (by decide)

/-! ## Exactly which entries of a bucket are unlinked -/

theorem stops_scan_iff (i : Nat) (n : CStr) :
    stops_scan i n = true ↔ n.length = 38 ∧ get_sha1_hex (fmt02x i ++ n) = none := by
  unfold stops_scan
  constructor
  · intro h
    simp only [Bool.and_eq_true, Bool.not_eq_true', decide_eq_true_eq,
      Option.isNone_iff_eq_none] at h
    exact ⟨h.1.2, h.2⟩
  · rintro ⟨hl, hg⟩
    simp [not_dot_of_length (show 2 < n.length by omega), hl, hg]

theorem not_dot_of_tmp_obj {n : CStr} (h : not_prefixcmp n tmp_obj_ = true) :
    is_dot_or_dotdot n = false := by
  simp only [not_prefixcmp, List.isPrefixOf_iff_prefix] at h
  obtain ⟨t, ht⟩ := h
  apply not_dot_of_length
  rw [← ht]
  simp [tmp_obj_]

theorem bucket_target_iff (env : Env) (i : Nat) (n : CStr) :
    bucket_target env i n = true ↔
      (n.length = 38 ∧ ∃ sha1, get_sha1_hex (fmt02x i ++ n) = some sha1 ∧
        env.lookup_object sha1 = false) ∨
      (n.length ≠ 38 ∧ not_prefixcmp n tmp_obj_ = true) := by
  unfold bucket_target
  by_cases hl : n.length = 38
  · have hdot := not_dot_of_length (show 2 < n.length by omega)
    cases hg : get_sha1_hex (fmt02x i ++ n) with
    | none => simp [hl, hdot]
    | some sha1 => simp [hl, hdot]
  · by_cases hp : not_prefixcmp n tmp_obj_ = true
    · simp [hl, hp, not_dot_of_tmp_obj hp]
    · simp [hl, hp]

theorem prune_dir_mem_unlink (cfg : Config) (env : Env) (i : Nat) (path : CStr) (d : Directory)
    (p : CStr) :
    Event.unlink p ∈ (prune_dir cfg env i path (some d)).2.2 ↔
      Event.unlink p ∈ (prune_dir_loop cfg env i path (d.map File.name) d).2 := by
  rw [prune_dir_events cfg env i path d]
  by_cases hs : cfg.show_only = true <;> simp [hs]

theorem prune_dir_loop_listing_unlink_iff (cfg : Config) (env : Env) (i : Nat) (path : CStr)
    (d : Directory) (hwf : Directory.wf d) (f : File) (hf : f ∈ d) :
    Event.unlink (mkpath path f.name) ∈ (prune_dir_loop cfg env i path (d.map File.name) d).2 ↔
      f ∈ d.takeWhile (fun g => !stops_scan i g.name) ∧ cfg.show_only = false ∧
        bucket_target env i f.name = true ∧ expired cfg f = true := by
  rw [prune_dir_loop_listing_events cfg env i path d hwf, List.mem_flatMap]
  constructor
  · rintro ⟨g, hg, he⟩
    rw [prune_dir_loop_one_unlink] at he
    have hfg : f = g :=
      eq_of_name_eq hwf hf ((List.takeWhile_sublist _).subset hg) (mkpath_inj he.1)
    rw [hfg]
    exact ⟨hg, he.2⟩
  · rintro ⟨hg, he⟩
    exact ⟨f, hg, (prune_dir_loop_one_unlink cfg env i path f _).mpr ⟨rfl, he⟩⟩

theorem prune_object_lstat (cfg : Config) (env : Env) (path n : CStr) (sha1 : List Nat)
    (d : Directory) (q : CStr)
    (h : Event.lstat q ∈ (prune_object cfg env path n sha1 d).2.2) : q = mkpath path n := by
  unfold prune_object at h
  cases hl : lstat d n with
  | none => simpa [hl] using h
  | some m =>
    by_cases hg : st_mtime_gt m cfg.expire = true
    · simpa [hl, hg] using h
    · unfold unlink_or_warn at h
      cases hf : d.find? (fun f => decide (f.name = n)) with
      | none =>
        by_cases hs : cfg.show_only = true <;> by_cases hv : cfg.verbose = true <;>
          simpa [hl, hg, hs, hv, hf] using h
      | some f =>
        by_cases hs : cfg.show_only = true <;> by_cases hv : cfg.verbose = true <;>
          by_cases hu : f.unlinkable = true <;> simpa [hl, hg, hs, hv, hf, hu] using h

theorem prune_dir_loop_one_lstat (cfg : Config) (env : Env) (i : Nat) (path : CStr)
    (n : CStr) (d : Directory) (q : CStr)
    (h : Event.lstat q ∈ (prune_dir_loop cfg env i path [n] d).2) : q = mkpath path n := by
  by_cases hd : is_dot_or_dotdot n = true
  · simp [prune_dir_loop, hd] at h
  · by_cases hl : n.length = 38
    · cases hg : get_sha1_hex (fmt02x i ++ n) with
      | none => simp [prune_dir_loop, hd, hl, hg] at h
      | some sha1 =>
        by_cases hr : env.lookup_object sha1 = true
        · simp [prune_dir_loop, hd, hl, hg, hr] at h
        · simp only [prune_dir_loop, hd, hl, hg, hr, if_true, if_false,
            Bool.false_eq_true, List.append_nil] at h
          exact prune_object_lstat cfg env path n sha1 d q h
    · by_cases hp : not_prefixcmp n tmp_obj_ = true
      · simp only [prune_dir_loop, hd, hl, hp, if_true, if_false,
          Bool.false_eq_true, List.append_nil] at h
        have := prune_tmp_object_events_subset cfg path n d _ h
        simpa [prune_tmp_object_events] using this
      · simp [prune_dir_loop, hd, hl, hp] at h

theorem takeWhile_dropWhile_disjoint {d : Directory} (hwf : Directory.wf d) (p : File → Bool)
    {f g : File} (hf : f ∈ d.dropWhile p) (hg : g ∈ d.takeWhile p) : g.name ≠ f.name := by
  intro hname
  have hnd : (d.takeWhile p ++ d.dropWhile p).Nodup := by
    rw [List.takeWhile_append_dropWhile]
    exact List.Nodup.of_map _ hwf
  have hfg : g = f := eq_of_name_eq hwf ((List.takeWhile_sublist p).subset hg)
    ((List.dropWhile_sublist p).subset hf) hname
  rw [List.nodup_append] at hnd
  exact hnd.2.2 hg (hfg ▸ hf)

/-- C18, as the claim states it, fails: in bucket `aa` the 38-character entry
`00...0` decodes to an unreachable ObjectId, stat and unlink succeed on it, no
entry fails to decode, and its mtime -1 is <= the cutoff 1000, yet the execute
run of `prune_dir` does not unlink it. -/
theorem pre_epoch_object_not_unlinked :
    ex_pre_epoch_object.name.length = 38 ∧
    get_sha1_hex (fmt02x 0xaa ++ ex_pre_epoch_object.name) =
      some (0xaa :: List.replicate 19 0) ∧
    ex_env.lookup_object (0xaa :: List.replicate 19 0) = false ∧
    ex_pre_epoch_object.st_mtime = some (-1) ∧ ((-1 : Int) ≤ (ex_cfg.expire : Int)) ∧
    ex_pre_epoch_object.unlinkable = true ∧ ex_cfg.show_only = false ∧
    prune_dir ex_cfg ex_env 0xaa (ex_objdir ++ '/' :: fmt02x 0xaa) (some [ex_pre_epoch_object]) =
      (0, some [ex_pre_epoch_object],
        [Event.lstat (mkpath (ex_objdir ++ '/' :: fmt02x 0xaa) ex_pre_epoch_object.name),
         Event.rmdir (ex_objdir ++ '/' :: fmt02x 0xaa)]) := by
  decide

/-- C18, amended: for a bucket listing with distinct names, the entries that
`lstat` can stat and that `prune_dir` passes to `unlink` in execute mode are
exactly those that come before the first 38-character entry that fails to
decode (all entries if there is none), pass the unsigned age test of the code,
mtime mod 2^64 <= cutoff, and are either 38 characters long and decode to an
ObjectId `lookup_object` does not know, or not 38 characters long and begin
with `tmp_obj_`; an entry `lstat` cannot stat is never passed to `unlink`; an
entry on which `unlink` succeeds is gone from the listing exactly when it was
passed to `unlink`. The entries at or after the first undecodable 38-character
entry are never stat-ed. -/
theorem prune_dir_unlinks_exactly (cfg : Config) (env : Env) (i : Nat) (path : CStr)
    (d : Directory) (hs : cfg.show_only = false) (hwf : Directory.wf d) :
    (∀ n, stops_scan i n = true ↔ n.length = 38 ∧ get_sha1_hex (fmt02x i ++ n) = none) ∧
    (∀ f ∈ d, ∀ m, f.st_mtime = some m →
      (Event.unlink (mkpath path f.name) ∈ (prune_dir cfg env i path (some d)).2.2 ↔
        f ∈ d.takeWhile (fun g => !stops_scan i g.name) ∧ m % 2 ^ 64 ≤ (cfg.expire : Int) ∧
        ((f.name.length = 38 ∧ ∃ sha1, get_sha1_hex (fmt02x i ++ f.name) = some sha1 ∧
            env.lookup_object sha1 = false) ∨
          (f.name.length ≠ 38 ∧ not_prefixcmp f.name tmp_obj_ = true)))) ∧
    (∀ f ∈ d, f.st_mtime = none →
      Event.unlink (mkpath path f.name) ∉ (prune_dir cfg env i path (some d)).2.2) ∧
    (∀ f ∈ d, f.unlinkable = true →
      (f ∈ (prune_dir_loop cfg env i path (d.map File.name) d).1 ↔
        Event.unlink (mkpath path f.name) ∉ (prune_dir cfg env i path (some d)).2.2)) ∧
    (∀ f ∈ d.dropWhile (fun g => !stops_scan i g.name),
      Event.lstat (mkpath path f.name) ∉ (prune_dir cfg env i path (some d)).2.2) := by
  refine ⟨stops_scan_iff i, ?_, ?_, ?_, ?_⟩
  · intro f hf m hm
    rw [prune_dir_mem_unlink, prune_dir_loop_listing_unlink_iff cfg env i path d hwf f hf,
      expired_iff_mod cfg f m hm, bucket_target_iff]
    constructor
    · rintro ⟨h1, _, h3, h4⟩; exact ⟨h1, h4, h3⟩
    · rintro ⟨h1, h4, h3⟩; exact ⟨h1, hs, h3, h4⟩
  · intro f hf hnone
    rw [prune_dir_mem_unlink, prune_dir_loop_listing_unlink_iff cfg env i path d hwf f hf]
    rintro ⟨_, _, _, hx⟩
    simp [expired, hnone] at hx
  · intro f hf hunl
    rw [prune_dir_mem_unlink, prune_dir_loop_listing_unlink_iff cfg env i path d hwf f hf,
      prune_dir_loop_listing_state cfg env i path d hwf, List.mem_append, List.mem_flatMap]
    constructor
    · rintro (⟨g, hg, hfg⟩ | hdrop)
      · have hgf : f = g := prune_dir_loop_one_state_subset cfg env i path g f hfg
        rw [← hgf, prune_dir_loop_one_state] at hfg
        rintro ⟨_, _, ht, hx⟩
        simp [hs, ht, hx, hunl] at hfg
      · rintro ⟨htake, _⟩
        exact takeWhile_dropWhile_disjoint hwf _ hdrop htake rfl
    · intro hnot
      have hmem := hf
      rw [← List.takeWhile_append_dropWhile (fun g => !stops_scan i g.name) d,
        List.mem_append] at hmem
      rcases hmem with htake | hdrop
      · left
        refine ⟨f, htake, ?_⟩
        rw [prune_dir_loop_one_state]
        have hcond : (!cfg.show_only && bucket_target env i f.name && expired cfg f &&
            f.unlinkable) = false := by
          by_contra hc
          simp only [Bool.not_eq_false, Bool.and_eq_true, Bool.not_eq_true'] at hc
          exact hnot ⟨htake, hc.1.1.1, hc.1.1.2, hc.1.2⟩
        simp [hcond]
      · exact Or.inr hdrop
  · intro f hf hmem
    have hmem' : Event.lstat (mkpath path f.name) ∈
        (prune_dir_loop cfg env i path (d.map File.name) d).2 := by
      rw [prune_dir_events cfg env i path d] at hmem
      simpa [hs] using hmem
    rw [prune_dir_loop_listing_events cfg env i path d hwf, List.mem_flatMap] at hmem'
    obtain ⟨g, hg, hge⟩ := hmem'
    have hp := prune_dir_loop_one_lstat cfg env i path g.name [g] _ hge
    exact takeWhile_dropWhile_disjoint hwf _ hf hg (mkpath_inj hp).symm

theorem prune_dir_unlinks_exactly_witness :
    ex_cfg.show_only = false ∧ Directory.wf ex_bucket ∧
    (Event.unlink (mkpath (ex_objdir ++ '/' :: fmt02x 0xaa) ex_old_object.name) ∈
        (prune_dir ex_cfg ex_env 0xaa (ex_objdir ++ '/' :: fmt02x 0xaa) (some ex_bucket)).2.2 ↔
      ex_old_object ∈ ex_bucket.takeWhile (fun g => !stops_scan 0xaa g.name) ∧
      (100 : Int) % 2 ^ 64 ≤ (ex_cfg.expire : Int) ∧
      ((ex_old_object.name.length = 38 ∧
          ∃ sha1, get_sha1_hex (fmt02x 0xaa ++ ex_old_object.name) = some sha1 ∧
            ex_env.lookup_object sha1 = false) ∨
        (ex_old_object.name.length ≠ 38 ∧ not_prefixcmp ex_old_object.name tmp_obj_ = true))) :=
  ⟨rfl, by decide,
    (prune_dir_unlinks_exactly ex_cfg ex_env 0xaa (ex_objdir ++ '/' :: fmt02x 0xaa) ex_bucket rfl
      (by decide)).2.1 ex_old_object (by decide) 100 rfl⟩

/-! ## Temporary object files inside a bucket -/

theorem prune_dir_loop_listing_append (cfg : Config) (env : Env) (i : Nat) (path : CStr)
    (b : Directory) :
    ∀ (a : Directory), Directory.wf (a ++ b) → (∀ g ∈ a, stops_scan i g.name = false) →
      prune_dir_loop cfg env i path ((a ++ b).map File.name) (a ++ b) =
        ((prune_dir_loop cfg env i path (a.map File.name) a).1 ++
            (prune_dir_loop cfg env i path (b.map File.name) b).1,
          (prune_dir_loop cfg env i path (a.map File.name) a).2 ++
            (prune_dir_loop cfg env i path (b.map File.name) b).2) := by
  intro a
  induction a with
  | nil => intro _ _; simp [prune_dir_loop]
  | cons f a ih =>
    intro hwf hns
    have hwfa : Directory.wf (f :: a) :=
      wf_sublist (List.Sublist.cons₂ f (List.sublist_append_left a b)) hwf
    have hf : stops_scan i f.name = false := hns f (by simp)
    rw [List.cons_append, prune_dir_loop_listing_cons cfg env i path f (a ++ b) hwf,
      prune_dir_loop_listing_cons cfg env i path f a hwfa,
      ih (wf_tail hwf) (fun g hg => hns g (by simp [hg]))]
    simp [hf]

theorem prune_dir_loop_one_tmp_obj (cfg : Config) (env : Env) (i : Nat) (path : CStr)
    (f : File) (hp : not_prefixcmp f.name tmp_obj_ = true) (hlen : f.name.length ≠ 38) :
    prune_dir_loop cfg env i path [f.name] [f] =
      ((prune_tmp_object cfg path f.name [f]).2.1, (prune_tmp_object cfg path f.name [f]).2.2) := by
  simp [prune_dir_loop, not_dot_of_tmp_obj hp, hlen, hp]

/-- C16, as the claim states it, fails in two ways. A 38-character entry that
begins with `tmp_obj_` is not handled by the age rule: `prune_dir` tries to
decode it, stops the scan there, and neither it nor the old unreachable object
listed after it is examined. And a `tmp_obj_` entry with the pre-epoch mtime -1
has mtime <= cutoff 1000, yet an execute run does not unlink it. -/
theorem tmp_obj_entry_counterexample :
    (ex_tmp38.name.length = 38 ∧ not_prefixcmp ex_tmp38.name tmp_obj_ = true ∧
      ex_tmp38.st_mtime = some 100 ∧ ((100 : Int) ≤ (ex_cfg.expire : Int)) ∧
      ex_cfg.show_only = false ∧
      prune_dir ex_cfg ex_env 0xaa (ex_objdir ++ '/' :: fmt02x 0xaa)
          (some [ex_tmp38, ex_old_object]) =
        (0, some [ex_tmp38, ex_old_object], [Event.rmdir (ex_objdir ++ '/' :: fmt02x 0xaa)])) ∧
    (not_prefixcmp ex_pre_epoch_tmp_obj.name tmp_obj_ = true ∧
      ex_pre_epoch_tmp_obj.st_mtime = some (-1) ∧ ((-1 : Int) ≤ (ex_cfg.expire : Int)) ∧
      prune_dir ex_cfg ex_env 0xaa (ex_objdir ++ '/' :: fmt02x 0xaa)
          (some [ex_pre_epoch_tmp_obj]) =
        (0, some [ex_pre_epoch_tmp_obj],
          [Event.lstat (mkpath (ex_objdir ++ '/' :: fmt02x 0xaa) ex_pre_epoch_tmp_obj.name),
           Event.rmdir (ex_objdir ++ '/' :: fmt02x 0xaa)])) := by
  decide

/-- C16, amended: in a bucket listing with distinct names, an entry that
begins with `tmp_obj_`, is not 38 characters long, and has no 38-character
entry that fails to decode before it, is handled by `prune_tmp_object`
alone: the loop of `prune_dir` does to the listing and adds to the trace what
it does for the entries before, then what `prune_tmp_object` does for this
entry (no decoding, no lookup), then what it does for the entries after, and
without the entry it does the same for the others. When `lstat` succeeds,
`unlink` is called iff dry-run is off and the entry passes the unsigned age
test of the code, mtime mod 2^64 <= cutoff. -/
theorem tmp_obj_entry_age_rule (cfg : Config) (env : Env) (i : Nat) (path : CStr)
    (pre post : Directory) (f : File) (hwf : Directory.wf (pre ++ f :: post))
    (hpre : ∀ g ∈ pre, g.name.length = 38 → get_sha1_hex (fmt02x i ++ g.name) ≠ none)
    (hp : not_prefixcmp f.name tmp_obj_ = true) (hlen : f.name.length ≠ 38) :
    prune_dir_loop cfg env i path ((pre ++ f :: post).map File.name) (pre ++ f :: post) =
      ((prune_dir_loop cfg env i path (pre.map File.name) pre).1 ++
          (prune_tmp_object cfg path f.name [f]).2.1 ++
          (prune_dir_loop cfg env i path (post.map File.name) post).1,
        (prune_dir_loop cfg env i path (pre.map File.name) pre).2 ++
          (prune_tmp_object cfg path f.name [f]).2.2 ++
          (prune_dir_loop cfg env i path (post.map File.name) post).2) ∧
    prune_dir_loop cfg env i path ((pre ++ post).map File.name) (pre ++ post) =
      ((prune_dir_loop cfg env i path (pre.map File.name) pre).1 ++
          (prune_dir_loop cfg env i path (post.map File.name) post).1,
        (prune_dir_loop cfg env i path (pre.map File.name) pre).2 ++
          (prune_dir_loop cfg env i path (post.map File.name) post).2) ∧
    (∀ m, f.st_mtime = some m →
      (Event.unlink (mkpath path f.name) ∈ (prune_tmp_object cfg path f.name [f]).2.2 ↔
        cfg.show_only = false ∧ m % 2 ^ 64 ≤ (cfg.expire : Int))) := by
  have hns : ∀ g ∈ pre, stops_scan i g.name = false := by
    intro g hg
    cases hst : stops_scan i g.name with
    | false => rfl
    | true =>
      have := (stops_scan_iff i g.name).mp hst
      exact absurd this.2 (hpre g hg this.1)
  have hwf2 : Directory.wf (pre ++ post) :=
    wf_sublist (List.Sublist.append_left (List.sublist_cons_self f post) pre) hwf
  have hwf3 : Directory.wf (f :: post) :=
    wf_sublist (List.sublist_append_right pre (f :: post)) hwf
  have hfs : stops_scan i f.name = false := by
    cases hst : stops_scan i f.name with
    | false => rfl
    | true => exact absurd ((stops_scan_iff i f.name).mp hst).1 hlen
  refine ⟨?_, prune_dir_loop_listing_append cfg env i path post pre hwf2 hns, ?_⟩
  · rw [prune_dir_loop_listing_append cfg env i path (f :: post) pre hwf hns,
      prune_dir_loop_listing_cons cfg env i path f post hwf3,
      prune_dir_loop_one_tmp_obj cfg env i path f hp hlen]
    simp [hfs]
  · intro m hm
    rw [prune_tmp_object_singleton_unlink, expired_iff_mod cfg f m hm]
    simp

theorem tmp_obj_entry_age_rule_witness :
    Directory.wf ([ex_old_object] ++ ex_pre_epoch_tmp_obj :: [ex_junk]) ∧
    not_prefixcmp ex_pre_epoch_tmp_obj.name tmp_obj_ = true ∧
    ex_pre_epoch_tmp_obj.name.length ≠ 38 ∧
    (Event.unlink (mkpath ex_objdir ex_pre_epoch_tmp_obj.name) ∈
        (prune_tmp_object ex_cfg ex_objdir ex_pre_epoch_tmp_obj.name
          [ex_pre_epoch_tmp_obj]).2.2 ↔
      ex_cfg.show_only = false ∧ (-1 : Int) % 2 ^ 64 ≤ (ex_cfg.expire : Int)) :=
  ⟨by decide, by decide, by decide,
    (tmp_obj_entry_age_rule ex_cfg ex_env 0xaa ex_objdir [ex_old_object] [ex_junk]
      ex_pre_epoch_tmp_obj (by decide) (by decide) (by decide) (by decide)).2.2 (-1) rfl⟩

/-! ## Which report lines are printed -/

theorem stdout_lines_append (a b : List Event) :
    stdout_lines (a ++ b) = stdout_lines a ++ stdout_lines b := by
  simp [stdout_lines]

theorem stdout_lines_flatMap {α : Type} (l : List α) (f : α → List Event) :
    stdout_lines (l.flatMap f) = l.flatMap (fun x => stdout_lines (f x)) := by
  induction l with
  | nil => rfl
  | cons a l ih => simp only [List.flatMap_cons, stdout_lines_append, ih]

theorem unlink_or_warn_stdout (p n : CStr) (d : Directory) :
    stdout_lines (unlink_or_warn p n d).2 = [] := by
  unfold unlink_or_warn
  cases hf : d.find? (fun f => decide (f.name = n)) with
  | none => simp [stdout_lines, Event.is_stdout]
  | some f => by_cases hu : f.unlinkable = true <;> simp [hu, stdout_lines, Event.is_stdout]

theorem unlink_or_warn_mem_unlink (p n : CStr) (d : Directory) :
    Event.unlink p ∈ (unlink_or_warn p n d).2 := by
  unfold unlink_or_warn
  cases hf : d.find? (fun f => decide (f.name = n)) with
  | none => simp
  | some f => by_cases hu : f.unlinkable = true <;> simp [hu]

theorem stdout_lines_nil : stdout_lines [] = [] := rfl

theorem stdout_lines_cons_lstat (p : CStr) (l : List Event) :
    stdout_lines (Event.lstat p :: l) = stdout_lines l := by
  simp [stdout_lines, Event.is_stdout]

theorem stdout_lines_cons_stdout (t : CStr) (l : List Event) :
    stdout_lines (Event.stdout t :: l) = Event.stdout t :: stdout_lines l := by
  simp [stdout_lines, Event.is_stdout]

theorem stdout_lines_cons_error (t : CStr) (l : List Event) :
    stdout_lines (Event.error t :: l) = stdout_lines l := by
  simp [stdout_lines, Event.is_stdout]

theorem stdout_lines_cons_stderr (t : CStr) (l : List Event) :
    stdout_lines (Event.stderr t :: l) = stdout_lines l := by
  simp [stdout_lines, Event.is_stdout]

theorem prune_object_gate (cfg : Config) (env : Env) (path n : CStr) (sha1 : List Nat)
    (d : Directory) (m : Int) (hl : lstat d n = some m)
    (hg : st_mtime_gt m cfg.expire = false) :
    (prune_object cfg env path n sha1 d).1 = 0 ∧
    stdout_lines (prune_object cfg env path n sha1 d).2.2 =
      (if cfg.show_only || cfg.verbose then [object_report_line env sha1] else []) ∧
    (Event.unlink (mkpath path n) ∈ (prune_object cfg env path n sha1 d).2.2 ↔
      cfg.show_only = false) ∧
    (prune_object cfg env path n sha1 d).2.1 =
      (if cfg.show_only then d else (unlink_or_warn (mkpath path n) n d).1) := by
  obtain ⟨so, v, e⟩ := cfg
  have hu := unlink_or_warn_mem_unlink (mkpath path n) n d
  cases so <;> cases v <;>
    simp [prune_object, hl, hg, object_report_line, stdout_lines_cons_lstat,
      stdout_lines_cons_stdout, stdout_lines_append, stdout_lines_nil,
      unlink_or_warn_stdout, hu]

theorem prune_tmp_object_gate (cfg : Config) (path n : CStr)
    (d : Directory) (m : Int) (hl : lstat d n = some m)
    (hg : st_mtime_gt m cfg.expire = false) :
    (prune_tmp_object cfg path n d).1 = 0 ∧
    stdout_lines (prune_tmp_object cfg path n d).2.2 =
      (if cfg.show_only || cfg.verbose then [tmp_report_line path n] else []) ∧
    (Event.unlink (mkpath path n) ∈ (prune_tmp_object cfg path n d).2.2 ↔
      cfg.show_only = false) ∧
    (prune_tmp_object cfg path n d).2.1 =
      (if cfg.show_only then d else (unlink_or_warn (mkpath path n) n d).1) := by
  obtain ⟨so, v, e⟩ := cfg
  have hu := unlink_or_warn_mem_unlink (mkpath path n) n d
  cases so <;> cases v <;>
    simp [prune_tmp_object, hl, hg, tmp_report_line, stdout_lines_cons_lstat,
      stdout_lines_cons_stdout, stdout_lines_append, stdout_lines_nil,
      unlink_or_warn_stdout, hu]

theorem prune_object_stdout_of_fail (cfg : Config) (env : Env) (path n : CStr)
    (sha1 : List Nat) (d : Directory)
    (h : ∀ m, lstat d n = some m → st_mtime_gt m cfg.expire = true) :
    stdout_lines (prune_object cfg env path n sha1 d).2.2 = [] := by
  unfold prune_object
  cases hl : lstat d n with
  | none => simp [stdout_lines_cons_lstat, stdout_lines_cons_error, stdout_lines_nil]
  | some m => simp [h m hl, stdout_lines_cons_lstat, stdout_lines_nil]

theorem prune_tmp_object_stdout_of_fail (cfg : Config) (path n : CStr) (d : Directory)
    (h : ∀ m, lstat d n = some m → st_mtime_gt m cfg.expire = true) :
    stdout_lines (prune_tmp_object cfg path n d).2.2 = [] := by
  unfold prune_tmp_object
  cases hl : lstat d n with
  | none => simp [stdout_lines_cons_lstat, stdout_lines_cons_error, stdout_lines_nil]
  | some m => simp [h m hl, stdout_lines_cons_lstat, stdout_lines_nil]

theorem prune_object_stdout_congr (c₁ c₂ : Config) (env : Env) (path n : CStr)
    (sha1 : List Nat) (d : Directory) (he : c₁.expire = c₂.expire)
    (hgate : (c₁.show_only || c₁.verbose) = (c₂.show_only || c₂.verbose)) :
    stdout_lines (prune_object c₁ env path n sha1 d).2.2 =
      stdout_lines (prune_object c₂ env path n sha1 d).2.2 := by
  cases hl : lstat d n with
  | none =>
    rw [prune_object_stdout_of_fail c₁ env path n sha1 d (by simp [hl]),
      prune_object_stdout_of_fail c₂ env path n sha1 d (by simp [hl])]
  | some m =>
    by_cases hg : st_mtime_gt m c₁.expire = true
    · rw [prune_object_stdout_of_fail c₁ env path n sha1 d
          (fun m' hm' => by rw [hl] at hm'; cases hm'; exact hg),
        prune_object_stdout_of_fail c₂ env path n sha1 d
          (fun m' hm' => by rw [hl] at hm'; cases hm'; rw [← he]; exact hg)]
    · simp only [Bool.not_eq_true] at hg
      rw [(prune_object_gate c₁ env path n sha1 d m hl hg).2.1,
        (prune_object_gate c₂ env path n sha1 d m hl (by rw [← he]; exact hg)).2.1, hgate]

theorem prune_tmp_object_stdout_congr (c₁ c₂ : Config) (path n : CStr)
    (d : Directory) (he : c₁.expire = c₂.expire)
    (hgate : (c₁.show_only || c₁.verbose) = (c₂.show_only || c₂.verbose)) :
    stdout_lines (prune_tmp_object c₁ path n d).2.2 =
      stdout_lines (prune_tmp_object c₂ path n d).2.2 := by
  cases hl : lstat d n with
  | none =>
    rw [prune_tmp_object_stdout_of_fail c₁ path n d (by simp [hl]),
      prune_tmp_object_stdout_of_fail c₂ path n d (by simp [hl])]
  | some m =>
    by_cases hg : st_mtime_gt m c₁.expire = true
    · rw [prune_tmp_object_stdout_of_fail c₁ path n d
          (fun m' hm' => by rw [hl] at hm'; cases hm'; exact hg),
        prune_tmp_object_stdout_of_fail c₂ path n d
          (fun m' hm' => by rw [hl] at hm'; cases hm'; rw [← he]; exact hg)]
    · simp only [Bool.not_eq_true] at hg
      rw [(prune_tmp_object_gate c₁ path n d m hl hg).2.1,
        (prune_tmp_object_gate c₂ path n d m hl (by rw [← he]; exact hg)).2.1, hgate]

theorem prune_dir_loop_one_stdout_congr (c₁ c₂ : Config) (env : Env) (i : Nat) (path : CStr)
    (n : CStr) (d : Directory) (he : c₁.expire = c₂.expire)
    (hgate : (c₁.show_only || c₁.verbose) = (c₂.show_only || c₂.verbose)) :
    stdout_lines (prune_dir_loop c₁ env i path [n] d).2 =
      stdout_lines (prune_dir_loop c₂ env i path [n] d).2 := by
  by_cases hd : is_dot_or_dotdot n = true
  · simp [prune_dir_loop, hd]
  · by_cases hl : n.length = 38
    · cases hg : get_sha1_hex (fmt02x i ++ n) with
      | none => simp [prune_dir_loop, hd, hl, hg]
      | some sha1 =>
        by_cases hr : env.lookup_object sha1 = true
        · simp [prune_dir_loop, hd, hl, hg, hr]
        · simp [prune_dir_loop, hd, hl, hg, hr,
            prune_object_stdout_congr c₁ c₂ env path n sha1 d he hgate]
    · by_cases hp : not_prefixcmp n tmp_obj_ = true
      · simp [prune_dir_loop, hd, hl, hp, prune_tmp_object_stdout_congr c₁ c₂ path n d he hgate]
      · simp [prune_dir_loop, hd, hl, hp]

theorem remove_temporary_files_loop_one_stdout_congr (c₁ c₂ : Config) (path : CStr)
    (n : CStr) (d : Directory) (he : c₁.expire = c₂.expire)
    (hgate : (c₁.show_only || c₁.verbose) = (c₂.show_only || c₂.verbose)) :
    stdout_lines (remove_temporary_files_loop c₁ path [n] d).2 =
      stdout_lines (remove_temporary_files_loop c₂ path [n] d).2 := by
  by_cases hp : not_prefixcmp n tmp_ = true
  · simp [remove_temporary_files_loop, hp, prune_tmp_object_stdout_congr c₁ c₂ path n d he hgate]
  · simp [remove_temporary_files_loop, hp]

theorem stdout_lines_rmdir_tail (l : List Event) (b : Bool) (p : CStr) :
    stdout_lines (l ++ (if b then [] else [Event.rmdir p])) = stdout_lines l := by
  cases b <;> simp [stdout_lines, Event.is_stdout]

theorem prune_dir_stdout_congr (c₁ c₂ : Config) (env : Env) (i : Nat) (path : CStr)
    (od : Option Directory) (hwf : ∀ d, od = some d → Directory.wf d)
    (he : c₁.expire = c₂.expire)
    (hgate : (c₁.show_only || c₁.verbose) = (c₂.show_only || c₂.verbose)) :
    stdout_lines (prune_dir c₁ env i path od).2.2 =
      stdout_lines (prune_dir c₂ env i path od).2.2 := by
  cases od with
  | none => rfl
  | some d =>
    have hd := hwf d rfl
    rw [prune_dir_events c₁ env i path d, prune_dir_events c₂ env i path d,
      stdout_lines_rmdir_tail, stdout_lines_rmdir_tail,
      prune_dir_loop_listing_events c₁ env i path d hd,
      prune_dir_loop_listing_events c₂ env i path d hd,
      stdout_lines_flatMap, stdout_lines_flatMap]
    apply flatMap_congr_mem
    intro f _
    exact prune_dir_loop_one_stdout_congr c₁ c₂ env i path f.name [f] he hgate

theorem remove_temporary_files_stdout_congr (c₁ c₂ : Config) (path : CStr)
    (od : Option Directory) (hwf : ∀ d, od = some d → Directory.wf d)
    (he : c₁.expire = c₂.expire)
    (hgate : (c₁.show_only || c₁.verbose) = (c₂.show_only || c₂.verbose)) :
    stdout_lines (remove_temporary_files c₁ path od).2 =
      stdout_lines (remove_temporary_files c₂ path od).2 := by
  cases od with
  | none => rfl
  | some d =>
    have hd := hwf d rfl
    simp only [remove_temporary_files]
    rw [remove_temporary_files_loop_listing_events c₁ path d hd,
      remove_temporary_files_loop_listing_events c₂ path d hd,
      stdout_lines_flatMap, stdout_lines_flatMap]
    apply flatMap_congr_mem
    intro f _
    exact remove_temporary_files_loop_one_stdout_congr c₁ c₂ path f.name [f] he hgate

theorem sweep_stdout_congr (c₁ c₂ : Config) (env : Env) (objdir : CStr) (s : Store)
    (hwf : Store.wf s) (he : c₁.expire = c₂.expire)
    (hgate : (c₁.show_only || c₁.verbose) = (c₂.show_only || c₂.verbose)) :
    stdout_lines (sweep c₁ env objdir s).2 = stdout_lines (sweep c₂ env objdir s).2 := by
  simp only [sweep_events, stdout_lines_append, stdout_lines_flatMap]
  rw [remove_temporary_files_stdout_congr c₁ c₂ objdir s.root (hwf Loc.root trivial) he hgate,
    remove_temporary_files_stdout_congr c₁ c₂ _ s.pack (hwf Loc.pack trivial) he hgate]
  congr 2
  apply flatMap_congr_mem
  intro j hj
  exact prune_dir_stdout_congr c₁ c₂ env j _ (s.buckets j)
    (hwf (Loc.bucket j) (List.mem_range.mp hj)) he hgate

theorem prune_object_stdout_gate_off (cfg : Config) (env : Env) (path n : CStr)
    (sha1 : List Nat) (d : Directory) (hgate : (cfg.show_only || cfg.verbose) = false) :
    stdout_lines (prune_object cfg env path n sha1 d).2.2 = [] := by
  cases hl : lstat d n with
  | none => exact prune_object_stdout_of_fail cfg env path n sha1 d (by simp [hl])
  | some m =>
    by_cases hg : st_mtime_gt m cfg.expire = true
    · exact prune_object_stdout_of_fail cfg env path n sha1 d
        (fun m' hm' => by rw [hl] at hm'; cases hm'; exact hg)
    · simp only [Bool.not_eq_true] at hg
      rw [(prune_object_gate cfg env path n sha1 d m hl hg).2.1, hgate]
      rfl

theorem prune_tmp_object_stdout_gate_off (cfg : Config) (path n : CStr)
    (d : Directory) (hgate : (cfg.show_only || cfg.verbose) = false) :
    stdout_lines (prune_tmp_object cfg path n d).2.2 = [] := by
  cases hl : lstat d n with
  | none => exact prune_tmp_object_stdout_of_fail cfg path n d (by simp [hl])
  | some m =>
    by_cases hg : st_mtime_gt m cfg.expire = true
    · exact prune_tmp_object_stdout_of_fail cfg path n d
        (fun m' hm' => by rw [hl] at hm'; cases hm'; exact hg)
    · simp only [Bool.not_eq_true] at hg
      rw [(prune_tmp_object_gate cfg path n d m hl hg).2.1, hgate]
      rfl

theorem prune_dir_loop_stdout_gate_off (cfg : Config) (env : Env) (i : Nat) (path : CStr)
    (hgate : (cfg.show_only || cfg.verbose) = false) :
    ∀ (names : List CStr) (d : Directory),
      stdout_lines (prune_dir_loop cfg env i path names d).2 = [] := by
  intro names
  induction names with
  | nil => intro d; rfl
  | cons n rest ih =>
    intro d
    by_cases hd : is_dot_or_dotdot n = true
    · simpa [prune_dir_loop, hd] using ih d
    · by_cases hl : n.length = 38
      · cases hg : get_sha1_hex (fmt02x i ++ n) with
        | none => simp [prune_dir_loop, hd, hl, hg, stdout_lines_nil]
        | some sha1 =>
          by_cases hr : env.lookup_object sha1 = true
          · simpa [prune_dir_loop, hd, hl, hg, hr] using ih d
          · simp [prune_dir_loop, hd, hl, hg, hr, stdout_lines_append, ih,
              prune_object_stdout_gate_off cfg env path n sha1 d hgate]
      · by_cases hp : not_prefixcmp n tmp_obj_ = true
        · simp [prune_dir_loop, hd, hl, hp, stdout_lines_append, ih,
            prune_tmp_object_stdout_gate_off cfg path n d hgate]
        · simp [prune_dir_loop, hd, hl, hp, stdout_lines_cons_stderr, ih]

theorem remove_temporary_files_loop_stdout_gate_off (cfg : Config) (path : CStr)
    (hgate : (cfg.show_only || cfg.verbose) = false) :
    ∀ (names : List CStr) (d : Directory),
      stdout_lines (remove_temporary_files_loop cfg path names d).2 = [] := by
  intro names
  induction names with
  | nil => intro d; rfl
  | cons n rest ih =>
    intro d
    by_cases hp : not_prefixcmp n tmp_ = true
    · simp [remove_temporary_files_loop, hp, stdout_lines_append, ih,
        prune_tmp_object_stdout_gate_off cfg path n d hgate]
    · simpa [remove_temporary_files_loop, hp] using ih d

theorem flatMap_eq_nil_of_forall {α β : Type} (l : List α) (f : α → List β)
    (h : ∀ x ∈ l, f x = []) : l.flatMap f = [] := by
  induction l with
  | nil => rfl
  | cons a l ih =>
    rw [List.flatMap_cons, h a (by simp), ih (fun x hx => h x (by simp [hx]))]
    rfl

theorem sweep_stdout_gate_off (cfg : Config) (env : Env) (objdir : CStr) (s : Store)
    (hgate : (cfg.show_only || cfg.verbose) = false) :
    stdout_lines (sweep cfg env objdir s).2 = [] := by
  have hrtf : ∀ (path : CStr) (od : Option Directory),
      stdout_lines (remove_temporary_files cfg path od).2 = [] := by
    intro path od
    cases od with
    | none => simp [remove_temporary_files, stdout_lines_cons_stderr, stdout_lines_nil]
    | some d =>
      exact remove_temporary_files_loop_stdout_gate_off cfg path hgate _ d
  have hdir : ∀ (j : Nat) (path : CStr) (od : Option Directory),
      stdout_lines (prune_dir cfg env j path od).2.2 = [] := by
    intro j path od
    cases od with
    | none => rfl
    | some d =>
      rw [prune_dir_events cfg env j path d, stdout_lines_rmdir_tail]
      exact prune_dir_loop_stdout_gate_off cfg env j path hgate _ d
  simp only [sweep_events, stdout_lines_append, stdout_lines_flatMap, hrtf, List.append_nil]
  exact flatMap_eq_nil_of_forall _ _ (fun j _ => hdir j _ _)

/-- C20: an entry that passes the age test in `prune_object` or
`prune_tmp_object` has its stdout line (`<40-hex id> <type>`, or `Removing
stale temporary file <path>`) printed iff dry-run or verbose is set; the type
shown is `unknown` exactly when `sha1_object_info` is not positive; the return
value is 0, `unlink` is called iff dry-run is off, and the listing afterwards
does not depend on verbose. Hence, on a store whose directories have distinct
names, an execute run with verbose set prints the stdout lines of a dry run
with the same cutoff and reachable set, and an execute run with verbose off
prints none. -/
theorem report_gating (cfg : Config) (env : Env) (path n : CStr) (sha1 : List Nat)
    (d : Directory) (m : Int) (hl : lstat d n = some m)
    (hg : st_mtime_gt m cfg.expire = false) :
    ((prune_object cfg env path n sha1 d).1 = 0 ∧
      stdout_lines (prune_object cfg env path n sha1 d).2.2 =
        (if cfg.show_only || cfg.verbose then [object_report_line env sha1] else []) ∧
      (Event.unlink (mkpath path n) ∈ (prune_object cfg env path n sha1 d).2.2 ↔
        cfg.show_only = false) ∧
      (prune_object cfg env path n sha1 d).2.1 =
        (if cfg.show_only then d else (unlink_or_warn (mkpath path n) n d).1)) ∧
    ((prune_tmp_object cfg path n d).1 = 0 ∧
      stdout_lines (prune_tmp_object cfg path n d).2.2 =
        (if cfg.show_only || cfg.verbose then [tmp_report_line path n] else []) ∧
      (Event.unlink (mkpath path n) ∈ (prune_tmp_object cfg path n d).2.2 ↔
        cfg.show_only = false) ∧
      (prune_tmp_object cfg path n d).2.1 =
        (if cfg.show_only then d else (unlink_or_warn (mkpath path n) n d).1)) ∧
    (env.sha1_object_info sha1 ≤ 0 →
      object_report_line env sha1 =
        Event.stdout (sha1_to_hex sha1 ++ ' ' :: "unknown".toList ++ "\n".toList)) ∧
    (0 < env.sha1_object_info sha1 →
      object_report_line env sha1 =
        Event.stdout (sha1_to_hex sha1 ++ ' ' :: env.typename (env.sha1_object_info sha1) ++
          "\n".toList)) ∧
    (∀ (objdir : CStr) (s : Store), Store.wf s → ∀ v : Bool,
      stdout_lines (sweep ⟨false, true, cfg.expire⟩ env objdir s).2 =
        stdout_lines (sweep ⟨true, v, cfg.expire⟩ env objdir s).2) ∧
    (∀ (objdir : CStr) (s : Store),
      stdout_lines (sweep ⟨false, false, cfg.expire⟩ env objdir s).2 = []) := by
  refine ⟨prune_object_gate cfg env path n sha1 d m hl hg,
    prune_tmp_object_gate cfg path n d m hl hg, ?_, ?_, ?_, ?_⟩
  · intro h
    have h' : ¬ (env.sha1_object_info sha1 > 0) := by omega
    simp [object_report_line, h']
  · intro h
    have h' : env.sha1_object_info sha1 > 0 := h
    simp [object_report_line, h']
  · intro objdir s hwf v
    exact sweep_stdout_congr _ _ env objdir s hwf rfl (by simp)
  · intro objdir s
    exact sweep_stdout_gate_off _ env objdir s rfl

theorem report_gating_witness :
    lstat ex_bucket ex_old_object.name = some 100 ∧ st_mtime_gt 100 ex_cfg.expire = false ∧
    stdout_lines (prune_object ex_cfg ex_env ex_objdir ex_old_object.name
        (0xaa :: List.replicate 19 0) ex_bucket).2.2 =
      (if ex_cfg.show_only || ex_cfg.verbose
        then [object_report_line ex_env (0xaa :: List.replicate 19 0)] else []) ∧
    stdout_lines (sweep ⟨false, true, ex_cfg.expire⟩ ex_env ex_objdir ex_store).2 =
      stdout_lines (sweep ⟨true, false, ex_cfg.expire⟩ ex_env ex_objdir ex_store).2 :=
  ⟨by decide, by decide,
    (report_gating ex_cfg ex_env ex_objdir ex_old_object.name (0xaa :: List.replicate 19 0)
      ex_bucket 100 (by decide) (by decide)).1.2.1,
    (report_gating ex_cfg ex_env ex_objdir ex_old_object.name (0xaa :: List.replicate 19 0)
      ex_bucket 100 (by decide) (by decide)).2.2.2.2.1 ex_objdir ex_store ex_store_wf false⟩

end Prune
